import Mathlib

/-!
Verification of the simulation core of a tilt-controlled maze game:
a deterministic mulberry32 RNG, a recursive-backtracker maze generator
with hazard ("hole") placement, and a discrete-time ball physics step
with wall collision resolution and hazard/goal detection.

The embedding is a direct shallow translation of the TypeScript source:

  * 32-bit integer arithmetic is modelled on `Nat` with explicit
    `% 2^32`; JavaScript's signed `| 0` / `Math.imul` coincide with the
    unsigned residue on bit patterns, and `>>>` shifts the unsigned
    pattern, so an unsigned model is exact.
  * Floating-point quantities are modelled as exact rationals.  The one
    operation that leaves ℚ is `Math.sqrt`; it is threaded through the
    physics as an explicit parameter `rsqrt : ℚ → ℚ`.  Comparisons of
    the form `Math.sqrt d < r` (hazard tests) are rendered as `d < r^2`,
    which is exactly equivalent over the reals since both sides are
    nonnegative there.  `ratSqrt` below is a canonical instance that is
    exact on perfect squares and an over-approximation elsewhere.
  * The two unbounded `while` loops of the generator take explicit fuel
    and return `Option`; `none` models non-termination within the given
    fuel.
  * Mutable state (the cell grid, the ball record) becomes explicit
    state passing; the grid is a `List (List Cell)` exactly mirroring
    `cells[y][x]`.
-/

/- The Batteries rational arithmetic kernels are `@[irreducible]`, which
blocks `decide`-style evaluation of concrete physics states; restore the
default reducibility for this development. -/
attribute [local semireducible] Rat.mul Rat.inv Rat.add Rat.sub

namespace BallMaze

/-! ## Deterministic RNG (mulberry32), from `seedRNG` in the source -/

/-- One state advance: `state = (state + 0x6d2b79f5) | 0` on the 32-bit
pattern. -/
def rngAdvance (s : Nat) : Nat := (s + 0x6D2B79F5) % 2 ^ 32

/-- The output mixing of mulberry32 applied to the advanced state, on
unsigned 32-bit patterns:
`t = imul(s ^ (s >>> 15), 1 | s); t = (t + imul(t ^ (t >>> 7), 61 | t)) ^ t;
(t ^ (t >>> 14)) >>> 0`. -/
def rngMix (s : Nat) : Nat :=
  let t1 := ((s ^^^ (s >>> 15)) * (s ||| 1)) % 2 ^ 32
  let t2 := ((t1 + ((t1 ^^^ (t1 >>> 7)) * (t1 ||| 61)) % 2 ^ 32) % 2 ^ 32) ^^^ t1
  (t2 ^^^ (t2 >>> 14)) % 2 ^ 32

/-- `next()`: advance the state and return the mixed output divided by
`2^32`, together with the new state. -/
def rngNext (s : Nat) : Nat × ℚ :=
  let s' := rngAdvance s
  (s', (rngMix s' : ℚ) / 2 ^ 32)

/-- `nextInt(max)`: `Math.floor(next() * max)`. -/
def nextInt (s : Nat) (max : Nat) : Nat × Nat :=
  let (s', v) := rngNext s
  (s', (⌊v * max⌋).toNat)

/-- `nextFloat(min, max)`: `min + next() * (max - min)`. -/
def nextFloat (s : Nat) (lo hi : ℚ) : Nat × ℚ :=
  let (s', v) := rngNext s
  (s', lo + v * (hi - lo))

/-- Internal RNG state before the `n`-th call to `next()` on a generator
seeded with `seed`. -/
def rngStateAt (seed : Nat) : ℕ → Nat
  | 0 => seed
  | n + 1 => (rngNext (rngStateAt seed n)).1

/-- The sequence of unit values produced from a seed: element `n` is the
result of the `n`-th call to `next()`. -/
def rngSeq (seed : Nat) (n : ℕ) : ℚ := (rngNext (rngStateAt seed n)).2

/-! Transcription of the specification's description of `nextUnit`, kept
separate from the source transcription above so the two can be compared:
state `s ← (s + 0x6D2B79F5) mod 2^32`; `t = (s ^ (s >> 15)) * (s | 1) mod
2^32`; `t = ((t + ((t ^ (t >> 7)) * (t | 61) mod 2^32)) mod 2^32) ^ t`;
result `((t ^ (t >> 14)) mod 2^32) / 2^32`. -/

/-- State advance as worded by the specification. -/
def specAdvance (s : Nat) : Nat := (s + 0x6D2B79F5) % 2 ^ 32

/-- Output mixing as worded by the specification. -/
def specMix (s : Nat) : Nat :=
  let t := ((s ^^^ (s >>> 15)) * (s ||| 1)) % 2 ^ 32
  let t' := ((t + ((t ^^^ (t >>> 7)) * (t ||| 61)) % 2 ^ 32) % 2 ^ 32) ^^^ t
  (t' ^^^ (t' >>> 14)) % 2 ^ 32

/-- `nextUnit` as worded by the specification. -/
def specNext (s : Nat) : Nat × ℚ :=
  let s' := specAdvance s
  (s', (specMix s' : ℚ) / 2 ^ 32)

/-- Internal state before the `n`-th call, per the specification. -/
def specStateAt (seed : Nat) : ℕ → Nat
  | 0 => seed
  | n + 1 => (specNext (specStateAt seed n)).1

/-- Unit-value sequence induced by the specification's `nextUnit`. -/
def specSeq (seed : Nat) (n : ℕ) : ℚ := (specNext (specStateAt seed n)).2

lemma rngMix_lt (s : Nat) : rngMix s < 2 ^ 32 := by
  unfold rngMix
  exact Nat.mod_lt _ (by norm_num)

lemma rngNext_eq_specNext (s : Nat) : rngNext s = specNext s := rfl

lemma rngNext_val_nonneg (s : Nat) : 0 ≤ (rngNext s).2 := by
  unfold rngNext
  positivity

lemma rngNext_val_lt_one (s : Nat) : (rngNext s).2 < 1 := by
  unfold rngNext
  rw [div_lt_one (by norm_num)]
  exact_mod_cast rngMix_lt (rngAdvance s)

lemma rngStateAt_eq_specStateAt (seed : Nat) (n : ℕ) :
    rngStateAt seed n = specStateAt seed n := by
  induction n with
  | zero => rfl
  | succ n ih => rw [rngStateAt, specStateAt, ih]; rfl

lemma rngSeq_eq_specSeq (seed : Nat) (n : ℕ) : rngSeq seed n = specSeq seed n := by
  rw [rngSeq, specSeq, rngStateAt_eq_specStateAt, rngNext_eq_specNext]

/-! ## Maze data model and generator

Transcribed from the maze module (`generateMaze` and its local helpers
`getNeighbors`, `removeWall`, `isAdjacentWithoutWall`).  The mutable 2-D
array `cells[y][x]` becomes a `List (List Cell)` with functional update;
out-of-range reads return a fully closed default cell (the generator
never performs any).  The two `while` loops are modelled as iteration of
an explicit step function under fuel; a step function is the identity
once its loop's exit condition holds, so iterating it `fuel` times and
then testing the exit condition models "the loop finishes within `fuel`
iterations". -/

/-- The four wall flags of a cell; `true` means the wall is present. -/
structure Walls where
  north : Bool
  east : Bool
  south : Bool
  west : Bool
  deriving DecidableEq

/-- A grid cell: its coordinates and its walls. -/
structure Cell where
  x : ℕ
  y : ℕ
  walls : Walls
  deriving DecidableEq

/-- The cell grid, indexed `cells[y][x]` as in the source. -/
abbrev Grid := List (List Cell)

/-- All four walls present (the initial state of every cell). -/
def allWalls : Walls := ⟨true, true, true, true⟩

/-- Read `cells[y][x]`; out-of-range positions read as a fully closed
cell (the source never reads out of range). -/
def cellAt (g : Grid) (x y : ℕ) : Cell := (g.getD y []).getD x ⟨x, y, allWalls⟩

/-- The wall flags at a position. -/
def wallsAt (g : Grid) (p : ℕ × ℕ) : Walls := (cellAt g p.1 p.2).walls

/-- The initial grid: every cell has all four walls. -/
def initCells (size : ℕ) : Grid :=
  (List.range size).map fun y => (List.range size).map fun x => ⟨x, y, allWalls⟩

/-- Functional update of the walls of `cells[y][x]`. -/
def setWalls (g : Grid) (x y : ℕ) (w : Walls) : Grid :=
  g.set y ((g.getD y []).set x ⟨x, y, w⟩)

/-- Apply `f` to the walls of the cell at `p`. -/
def modifyWalls (g : Grid) (p : ℕ × ℕ) (f : Walls → Walls) : Grid :=
  setWalls g p.1 p.2 (f (wallsAt g p))

/-- `removeWall(current, next)`: open the wall pair between two adjacent
cells, matching on the coordinate difference as the source does. -/
def removeWall (g : Grid) (cur nxt : ℕ × ℕ) : Grid :=
  let dx : ℤ := (nxt.1 : ℤ) - (cur.1 : ℤ)
  let dy : ℤ := (nxt.2 : ℤ) - (cur.2 : ℤ)
  if dx = 1 then
    modifyWalls (modifyWalls g cur fun w => { w with east := false }) nxt
      fun w => { w with west := false }
  else if dx = -1 then
    modifyWalls (modifyWalls g cur fun w => { w with west := false }) nxt
      fun w => { w with east := false }
  else if dy = 1 then
    modifyWalls (modifyWalls g cur fun w => { w with south := false }) nxt
      fun w => { w with north := false }
  else if dy = -1 then
    modifyWalls (modifyWalls g cur fun w => { w with north := false }) nxt
      fun w => { w with south := false }
  else g

/-- `getNeighbors`: the bounds-checked grid neighbours of a cell, in the
source's order north, east, south, west.  (`x < size - 1` over JS
numbers is `x + 1 < size` over ℕ.) -/
def getNeighbors (size : ℕ) (p : ℕ × ℕ) : List (ℕ × ℕ) :=
  (if p.2 > 0 then [(p.1, p.2 - 1)] else []) ++
  (if p.1 + 1 < size then [(p.1 + 1, p.2)] else []) ++
  (if p.2 + 1 < size then [(p.1, p.2 + 1)] else []) ++
  (if p.1 > 0 then [(p.1 - 1, p.2)] else [])

/-- State of the recursive-backtracker loop: the grid, the visitation
set, the cell stack (top first) and the RNG state. -/
structure CarveSt where
  g : Grid
  visited : Finset (ℕ × ℕ)
  stack : List (ℕ × ℕ)
  rng : Nat

/-- One iteration of the backtracker's `while` loop.  With an empty
stack (the loop's exit condition) it is the identity. -/
def carveStep (size : ℕ) (st : CarveSt) : CarveSt :=
  match st.stack with
  | [] => st
  | cur :: rest =>
    let unvis := (getNeighbors size cur).filter fun q => q ∉ st.visited
    if unvis = [] then { st with stack := rest }
    else
      let r := nextInt st.rng unvis.length
      let nxt := unvis.getD r.2 (0, 0)
      { g := removeWall st.g cur nxt,
        visited := insert nxt st.visited,
        stack := nxt :: st.stack,
        rng := r.1 }

/-- Initial backtracker state: all walls closed, start `(0,0)` visited
and pushed. -/
def startCarveSt (seed : Nat) (size : ℕ) : CarveSt :=
  ⟨initCells size, {(0, 0)}, [(0, 0)], seed⟩

/-- Run the backtracker loop for at most `fuel` iterations; `none` if
the stack has not emptied by then (never happens with enough fuel). -/
def runCarve (size fuel : ℕ) (st : CarveSt) : Option (Grid × Nat) :=
  let f := (carveStep size)^[fuel] st
  if f.stack = [] then some (f.g, f.rng) else none

/-- A hazard hole: cell coordinates and the sub-cell centre offsets the
generator draws for it.  (In the source the offsets are optional fields;
the placement loop always sets them, and the goal, which reuses the
type, leaves them absent — modelled as `0`.) -/
structure Hole where
  x : ℕ
  y : ℕ
  offsetX : ℚ
  offsetY : ℚ
  deriving DecidableEq

/-- `isAdjacentWithoutWall(x1, y1, x2, y2)`: the two cells are at
Manhattan distance 1 and the wall of `(x1,y1)` facing `(x2,y2)` is
open. -/
def isAdjacentWithoutWall (g : Grid) (x1 y1 x2 y2 : ℕ) : Bool :=
  let dx := ((x2 : ℤ) - (x1 : ℤ)).natAbs
  let dy := ((y2 : ℤ) - (y1 : ℤ)).natAbs
  if ¬((dx = 1 ∧ dy = 0) ∨ (dx = 0 ∧ dy = 1)) then false
  else if x2 = x1 + 1 then !(cellAt g x1 y1).walls.east
  else if x2 + 1 = x1 then !(cellAt g x1 y1).walls.west
  else if y2 = y1 + 1 then !(cellAt g x1 y1).walls.south
  else if y2 + 1 = y1 then !(cellAt g x1 y1).walls.north
  else false

/-- State of the hole-placement loop. -/
structure HoleSt where
  holes : List Hole
  used : Finset (ℕ × ℕ)
  rng : Nat

/-- One iteration of the hole-placement `while` loop: draw a cell; keep
it unless it is used or open-adjacent to an existing hole; on success
draw the two centre offsets.  With `holeCount` holes already placed (the
loop's exit condition) it is the identity. -/
def holeStep (size holeCount : ℕ) (g : Grid) (st : HoleSt) : HoleSt :=
  if holeCount ≤ st.holes.length then st
  else
    let rx := nextInt st.rng size
    let ry := nextInt rx.1 size
    let x := rx.2
    let y := ry.2
    if (x, y) ∈ st.used then { st with rng := ry.1 }
    else if st.holes.any fun h => isAdjacentWithoutWall g x y h.x h.y then
      { st with rng := ry.1 }
    else
      let ox := nextFloat ry.1 (-(3 : ℚ) / 10) ((3 : ℚ) / 10)
      let oy := nextFloat ox.1 (-(3 : ℚ) / 10) ((3 : ℚ) / 10)
      { holes := st.holes ++ [⟨x, y, ox.2, oy.2⟩],
        used := insert (x, y) st.used,
        rng := oy.1 }

/-- Initial hole-placement state: start and goal cells reserved. -/
def startHoleSt (size : ℕ) (rng : Nat) : HoleSt :=
  ⟨[], {(0, 0), (size - 1, size - 1)}, rng⟩

/-- Run the hole-placement loop for at most `fuel` iterations; `none` if
fewer than `holeCount` holes were placed by then. -/
def runHoles (size holeCount : ℕ) (g : Grid) (fuel : ℕ) (st : HoleSt) :
    Option (List Hole) :=
  let f := (holeStep size holeCount g)^[fuel] st
  if holeCount ≤ f.holes.length then some f.holes else none

/-- A generated maze: grid dimension, cell grid, hazard holes, and the
goal hole at `(size-1, size-1)` with no offset. -/
structure Maze where
  size : ℕ
  cells : Grid
  holes : List Hole
  goal : Hole
  deriving DecidableEq

/-- `generateMaze(seed, size, holeCount)`: carve a spanning tree by
recursive backtracking, then place holes.  `fuelCarve` and `fuelHoles`
bound the two `while` loops; `none` models non-termination within the
given fuel. -/
def generateMaze (seed : Nat) (size holeCount fuelCarve fuelHoles : ℕ) :
    Option Maze :=
  match runCarve size fuelCarve (startCarveSt seed size) with
  | none => none
  | some (g, rng) =>
    match runHoles size holeCount g fuelHoles (startHoleSt size rng) with
    | none => none
    | some holes => some ⟨size, g, holes, ⟨size - 1, size - 1, 0, 0⟩⟩

/-! ## Physics step

Transcribed from `updateBall`, `circleLineCollision` and `resetBall`.
Positions, velocities and times are exact rationals.  `Math.sqrt` is an
explicit parameter `rsqrt : ℚ → ℚ`; universal theorems quantify over it
(assuming at most the over-approximation property `IsSqrtUB`), and
concrete runs instantiate it with `ratSqrt`, which is exact whenever the
argument is a perfect rational square — every concrete run below only
takes square roots of perfect squares, where `ratSqrt`, IEEE `sqrt` and
the real square root all agree exactly.  Comparisons
`Math.sqrt d < radius` (hazard tests, where `d` is a sum of squares) are
rendered square-free as `0 < radius ∧ d < radius^2`, which is their
exact real meaning. -/

/-- Ball state: world-space position and velocity. -/
structure Ball where
  x : ℚ
  y : ℚ
  vx : ℚ
  vy : ℚ
  deriving DecidableEq

/-- Simulation constants.  The three `_FRAC` fields are the source's
`BALL_RADIUS_RATIO`, `HOLE_RADIUS_RATIO` and `GOAL_RADIUS_RATIO`
(fractions of the cell size). -/
structure Config where
  GRID_SIZE : ℕ
  GRAVITY : ℚ
  FRICTION : ℚ
  BALL_RADIUS_FRAC : ℚ
  HOLE_RADIUS_FRAC : ℚ
  GOAL_RADIUS_FRAC : ℚ
  deriving DecidableEq

/-- Per-frame tilt input. -/
structure InputState where
  tiltX : ℚ
  tiltY : ℚ
  deriving DecidableEq

/-- The step outcome record `{ reset, won }` returned by `updateBall`. -/
structure Outcome where
  reset : Bool
  won : Bool
  deriving DecidableEq

/-- `√d < r`, rendered square-free for `d ≥ 0` (every use below has `d`
a sum of squares). -/
def sqrtLt (d r : ℚ) : Prop := 0 < r ∧ d < r ^ 2

instance (d r : ℚ) : Decidable (sqrtLt d r) := by unfold sqrtLt; infer_instance

/-- `circleLineCollision`: closest-point test of a circle against a
segment.  Returns the `collides` flag and, when the non-degenerate
branch collides, the outward normal `(nx, ny)` (zero when the centre
lies on the segment). -/
def circleLineCollision (rsqrt : ℚ → ℚ) (cx cy radius x1 y1 x2 y2 : ℚ) :
    Bool × Option (ℚ × ℚ) :=
  let dx := x2 - x1
  let dy := y2 - y1
  let lengthSq := dx * dx + dy * dy
  if lengthSq = 0 then
    (decide ((cx - x1) * (cx - x1) + (cy - y1) * (cy - y1) ≤ radius * radius),
     none)
  else
    let t := max 0 (min 1 (((cx - x1) * dx + (cy - y1) * dy) / lengthSq))
    let closestX := x1 + t * dx
    let closestY := y1 + t * dy
    let distX := cx - closestX
    let distY := cy - closestY
    let distSq := distX * distX + distY * distY
    if distSq ≤ radius * radius then
      let dist := rsqrt distSq
      (true,
       some (if dist > 0 then distX / dist else 0,
             if dist > 0 then distY / dist else 0))
    else (false, none)

/-- Velocity integration: `vx += tiltX*GRAVITY*dt; vy += tiltY*GRAVITY*dt;
vx *= FRICTION; vy *= FRICTION`. -/
def integrate (cfg : Config) (input : InputState) (dt : ℚ) (b : Ball) : Ball :=
  let ax := input.tiltX * cfg.GRAVITY
  let ay := input.tiltY * cfg.GRAVITY
  { b with
    vx := (b.vx + ax * dt) * cfg.FRICTION,
    vy := (b.vy + ay * dt) * cfg.FRICTION }

/-- The integer list `[lo, lo+1, ..., hi-1]`, i.e. the indices of
`for (i = lo; i < hi; i++)`. -/
def intsFromTo (lo hi : ℤ) : List ℤ :=
  (List.range (hi - lo).toNat).map fun i : ℕ => lo + (i : ℤ)

/-- Body of the x-sweep's wall loop: scan boundary indices in order and
return the clamped `(x, vx)` at the first crossed east/west wall
(`break`), or the input unchanged. -/
def xWallScan (g : Grid) (size : ℕ) (cs r oldX : ℚ) (cellY : ℤ) :
    List ℤ → ℚ × ℚ → ℚ × ℚ
  | [], s => s
  | i :: rest, (x, vx) =>
    if i < 0 ∨ (size : ℤ) ≤ i ∨ cellY < 0 ∨ (size : ℤ) ≤ cellY then
      xWallScan g size cs r oldX cellY rest (x, vx)
    else
      let cell := cellAt g i.toNat cellY.toNat
      let wallE := ((i : ℚ) + 1) * cs
      let wallW := (i : ℚ) * cs
      if vx > 0 ∧ cell.walls.east = true ∧ oldX + r ≤ wallE ∧ x + r > wallE then
        (wallE - r, 0)
      else if vx < 0 ∧ cell.walls.west = true ∧ oldX - r ≥ wallW ∧ x - r < wallW then
        (wallW + r, 0)
      else xWallScan g size cs r oldX cellY rest (x, vx)

/-- X-axis movement and wall resolution: move by `vx*dt`, then (if
`vx ≠ 0`) scan every cell boundary overlapped by the swept range at the
ball's current row. -/
def sweepX (g : Grid) (size : ℕ) (cs r dt : ℚ) (b : Ball) : Ball :=
  let oldX := b.x
  let x1 := b.x + b.vx * dt
  if b.vx ≠ 0 then
    let minX := min (oldX - r) (x1 - r)
    let maxX := max (oldX + r) (x1 + r)
    let cellY := ⌊b.y / cs⌋
    let s := xWallScan g size cs r oldX cellY (intsFromTo ⌊minX / cs⌋ ⌈maxX / cs⌉)
      (x1, b.vx)
    { b with x := s.1, vx := s.2 }
  else { b with x := x1 }

/-- Body of the y-sweep's wall loop (south/north walls at the ball's
current column). -/
def yWallScan (g : Grid) (size : ℕ) (cs r oldY : ℚ) (cellX : ℤ) :
    List ℤ → ℚ × ℚ → ℚ × ℚ
  | [], s => s
  | i :: rest, (y, vy) =>
    if i < 0 ∨ (size : ℤ) ≤ i ∨ cellX < 0 ∨ (size : ℤ) ≤ cellX then
      yWallScan g size cs r oldY cellX rest (y, vy)
    else
      let cell := cellAt g cellX.toNat i.toNat
      let wallS := ((i : ℚ) + 1) * cs
      let wallN := (i : ℚ) * cs
      if vy > 0 ∧ cell.walls.south = true ∧ oldY + r ≤ wallS ∧ y + r > wallS then
        (wallS - r, 0)
      else if vy < 0 ∧ cell.walls.north = true ∧ oldY - r ≥ wallN ∧ y - r < wallN then
        (wallN + r, 0)
      else yWallScan g size cs r oldY cellX rest (y, vy)

/-- Y-axis movement and wall resolution (runs after the x sweep, so the
column is taken from the possibly already clamped `x`). -/
def sweepY (g : Grid) (size : ℕ) (cs r dt : ℚ) (b : Ball) : Ball :=
  let oldY := b.y
  let y1 := b.y + b.vy * dt
  if b.vy ≠ 0 then
    let minY := min (oldY - r) (y1 - r)
    let maxY := max (oldY + r) (y1 + r)
    let cellX := ⌊b.x / cs⌋
    let s := yWallScan g size cs r oldY cellX (intsFromTo ⌊minY / cs⌋ ⌈maxY / cs⌉)
      (y1, b.vy)
    { b with y := s.1, vy := s.2 }
  else { b with y := y1 }

/-- World-bounds clamp, in the source's order: left, right, top,
bottom; each clamp places the ball's edge on the boundary and zeroes the
axis velocity. -/
def clampBounds (size : ℕ) (cs r : ℚ) (b : Ball) : Ball :=
  let b1 := if b.x - r < 0 then { b with x := r, vx := 0 } else b
  let b2 := if b1.x + r > (size : ℚ) * cs then
    { b1 with x := (size : ℚ) * cs - r, vx := 0 } else b1
  let b3 := if b2.y - r < 0 then { b2 with y := r, vy := 0 } else b2
  if b3.y + r > (size : ℚ) * cs then
    { b3 with y := (size : ℚ) * cs - r, vy := 0 } else b3

/-- North-wall block of the penetration pass: on circle/segment overlap,
push the ball out along the returned normal and zero `vy`. -/
def processNorth (rsqrt : ℚ → ℚ) (cs r cX cY : ℚ) (hasWall : Bool) (b : Ball) :
    Ball :=
  if hasWall then
    match circleLineCollision rsqrt b.x b.y r cX cY (cX + cs) cY with
    | (true, some (nx, ny)) =>
      let dx := cX + cs - cX
      let dy := cY - cY
      let t := max 0 (min 1 (((b.x - cX) * dx + (b.y - cY) * dy) / (dx * dx + dy * dy)))
      let closestX := cX + t * dx
      let closestY := cY + t * dy
      let dist := rsqrt ((b.x - closestX) ^ 2 + (b.y - closestY) ^ 2)
      let overlap := r - dist
      if overlap > 0 then
        { b with x := b.x + nx * overlap, y := b.y + ny * overlap, vy := 0 }
      else b
    | _ => b
  else b

/-- South-wall block of the penetration pass. -/
def processSouth (rsqrt : ℚ → ℚ) (cs r cX cY : ℚ) (hasWall : Bool) (b : Ball) :
    Ball :=
  if hasWall then
    match circleLineCollision rsqrt b.x b.y r cX (cY + cs) (cX + cs) (cY + cs) with
    | (true, some (nx, ny)) =>
      let dx := cX + cs - cX
      let dy := (cY + cs) - (cY + cs)
      let t := max 0 (min 1 (((b.x - cX) * dx + (b.y - (cY + cs)) * dy) / (dx * dx + dy * dy)))
      let closestX := cX + t * dx
      let closestY := cY + cs + t * dy
      let dist := rsqrt ((b.x - closestX) ^ 2 + (b.y - closestY) ^ 2)
      let overlap := r - dist
      if overlap > 0 then
        { b with x := b.x + nx * overlap, y := b.y + ny * overlap, vy := 0 }
      else b
    | _ => b
  else b

/-- West-wall block of the penetration pass (zeroes `vx`). -/
def processWest (rsqrt : ℚ → ℚ) (cs r cX cY : ℚ) (hasWall : Bool) (b : Ball) :
    Ball :=
  if hasWall then
    match circleLineCollision rsqrt b.x b.y r cX cY cX (cY + cs) with
    | (true, some (nx, ny)) =>
      let dx := cX - cX
      let dy := cY + cs - cY
      let t := max 0 (min 1 (((b.x - cX) * dx + (b.y - cY) * dy) / (dx * dx + dy * dy)))
      let closestX := cX + t * dx
      let closestY := cY + t * dy
      let dist := rsqrt ((b.x - closestX) ^ 2 + (b.y - closestY) ^ 2)
      let overlap := r - dist
      if overlap > 0 then
        { b with x := b.x + nx * overlap, y := b.y + ny * overlap, vx := 0 }
      else b
    | _ => b
  else b

/-- East-wall block of the penetration pass (zeroes `vx`). -/
def processEast (rsqrt : ℚ → ℚ) (cs r cX cY : ℚ) (hasWall : Bool) (b : Ball) :
    Ball :=
  if hasWall then
    match circleLineCollision rsqrt b.x b.y r (cX + cs) cY (cX + cs) (cY + cs) with
    | (true, some (nx, ny)) =>
      let dx := (cX + cs) - (cX + cs)
      let dy := cY + cs - cY
      let t := max 0 (min 1 (((b.x - (cX + cs)) * dx + (b.y - cY) * dy) / (dx * dx + dy * dy)))
      let closestX := cX + cs + t * dx
      let closestY := cY + t * dy
      let dist := rsqrt ((b.x - closestX) ^ 2 + (b.y - closestY) ^ 2)
      let overlap := r - dist
      if overlap > 0 then
        { b with x := b.x + nx * overlap, y := b.y + ny * overlap, vx := 0 }
      else b
    | _ => b
  else b

/-- Process the four walls of one cell, in the source's order north,
south, west, east, on the evolving ball state. -/
def processCell (rsqrt : ℚ → ℚ) (g : Grid) (cs r : ℚ) (cp : ℤ × ℤ) (b : Ball) :
    Ball :=
  let cell := cellAt g cp.1.toNat cp.2.toNat
  let cX := (cp.1 : ℚ) * cs
  let cY := (cp.2 : ℚ) * cs
  let b1 := processNorth rsqrt cs r cX cY cell.walls.north b
  let b2 := processSouth rsqrt cs r cX cY cell.walls.south b1
  let b3 := processWest rsqrt cs r cX cY cell.walls.west b2
  processEast rsqrt cs r cX cY cell.walls.east b3

/-- Penetration-resolution pass: test the ball against every closed wall
segment of every cell overlapping its bounding box (bounds computed once
from the incoming ball). -/
def penPass (rsqrt : ℚ → ℚ) (g : Grid) (size : ℕ) (cs r : ℚ) (b : Ball) : Ball :=
  let minCX := max 0 ⌊(b.x - r) / cs⌋
  let maxCX := min ((size : ℤ) - 1) ⌊(b.x + r) / cs⌋
  let minCY := max 0 ⌊(b.y - r) / cs⌋
  let maxCY := min ((size : ℤ) - 1) ⌊(b.y + r) / cs⌋
  let cellList := (intsFromTo minCY (maxCY + 1)).flatMap fun cy =>
    (intsFromTo minCX (maxCX + 1)).map fun cx => (cx, cy)
  cellList.foldl (fun bb cp => processCell rsqrt g cs r cp bb) b

/-- Squared Euclidean distance. -/
def dist2 (x1 y1 x2 y2 : ℚ) : ℚ := (x1 - x2) ^ 2 + (y1 - y2) ^ 2

/-- World-space centre of the goal: `((goal.x + 0.5)*cs, (goal.y + 0.5)*cs)`. -/
def goalCenter (m : Maze) (cs : ℚ) : ℚ × ℚ :=
  (((m.goal.x : ℚ) + 1 / 2) * cs, ((m.goal.y : ℚ) + 1 / 2) * cs)

/-- World-space centre the hazard test uses for a hole:
`((hole.x + 0.5)*cs, (hole.y + 0.5)*cs)` — the cell centre, without the
generator's offsets. -/
def holeCenter (h : Hole) (cs : ℚ) : ℚ × ℚ :=
  (((h.x : ℚ) + 1 / 2) * cs, ((h.y : ℚ) + 1 / 2) * cs)

/-- Hazard detection: goal first (immediate return), then the holes in
list order. -/
def checkHazards (m : Maze) (cfg : Config) (cs : ℚ) (b : Ball) : Outcome :=
  let holeRadius := cs * cfg.HOLE_RADIUS_FRAC
  let goalRadius := cs * cfg.GOAL_RADIUS_FRAC
  if sqrtLt (dist2 b.x b.y (goalCenter m cs).1 (goalCenter m cs).2) goalRadius then
    ⟨false, true⟩
  else
    match m.holes.find? fun h =>
      decide (sqrtLt (dist2 b.x b.y (holeCenter h cs).1 (holeCenter h cs).2) holeRadius) with
    | some _ => ⟨true, false⟩
    | none => ⟨false, false⟩

/-- The full collision pipeline of `updateBall` (everything before
hazard detection): integrate, x sweep, y sweep, bounds clamp,
penetration pass. -/
def collide (rsqrt : ℚ → ℚ) (m : Maze) (cfg : Config) (cs dt : ℚ) (b : Ball)
    (input : InputState) : Ball :=
  let r := cs * cfg.BALL_RADIUS_FRAC
  let b1 := integrate cfg input dt b
  let b2 := sweepX m.cells m.size cs r dt b1
  let b3 := sweepY m.cells m.size cs r dt b2
  let b4 := clampBounds m.size cs r b3
  penPass rsqrt m.cells m.size cs r b4

/-- `updateBall`: the mutated ball together with the returned outcome
record. -/
def updateBall (rsqrt : ℚ → ℚ) (m : Maze) (cfg : Config) (cs dt : ℚ) (b : Ball)
    (input : InputState) : Ball × Outcome :=
  let c := collide rsqrt m cfg cs dt b input
  (c, checkHazards m cfg cs c)

/-- Fuel-based Newton iteration for the integer square root (the same
iteration as `Nat.sqrt`, made kernel-reducible by explicit fuel; the
fuel `n` far exceeds the logarithmic number of steps Newton needs). -/
def isqrtGo (n : ℕ) : ℕ → ℕ → ℕ
  | 0, guess => guess
  | fuel + 1, guess =>
    let next := (guess + n / guess) / 2
    if next < guess then isqrtGo n fuel next else guess

/-- Integer square root via `isqrtGo`.  No theory about it is needed:
its only role is to detect perfect squares, and the detection test
certifies itself. -/
def isqrt (n : ℕ) : ℕ := if n ≤ 1 then n else isqrtGo n n (n / 2)

/-- A rational stand-in for `Math.sqrt`: exact on perfect rational
squares (the only inputs the concrete runs below ever produce — there
IEEE `sqrt` is exact too), a crude upper bound elsewhere, `0` on
nonpositive input. -/
def ratSqrt (q : ℚ) : ℚ :=
  if q ≤ 0 then 0
  else
    let n := q.num.toNat
    let d := q.den
    if isqrt n * isqrt n = n ∧ isqrt d * isqrt d = d then
      (isqrt n : ℚ) / (isqrt d : ℚ)
    else ((n * d + 1 : ℕ) : ℚ) / (d : ℚ)

/-- The property of `rsqrt` the universal physics theorems need: the
value is nonnegative and its square dominates the argument (the real
square root satisfies it with equality). -/
def IsSqrtUB (f : ℚ → ℚ) : Prop := ∀ q : ℚ, 0 ≤ f q ∧ q ≤ f q ^ 2

/-! ## Test fixtures, from the physics test files -/

/-- `createTestMaze`: a `size × size` grid with no walls at all, no
holes, and the goal at `(size-1, size-1)`. -/
def createTestMaze (size : ℕ) : Maze :=
  { size := size,
    cells := (List.range size).map fun y => (List.range size).map fun x =>
      ⟨x, y, ⟨false, false, false, false⟩⟩,
    holes := [],
    goal := ⟨size - 1, size - 1, 0, 0⟩ }

/-- `testConfig` of the test files: `GRID_SIZE 3`, `GRAVITY 1000`,
`FRICTION 0.98`, ball/hole/goal radius fractions `0.4 / 0.3 / 0.35`. -/
def testConfig : Config :=
  { GRID_SIZE := 3,
    GRAVITY := 1000,
    FRICTION := 98 / 100,
    BALL_RADIUS_FRAC := 4 / 10,
    HOLE_RADIUS_FRAC := 3 / 10,
    GOAL_RADIUS_FRAC := 35 / 100 }

/-- The maze of the straight-wall-stop test: 3×3 with every wall open
except the east wall of cell `(0,0)`. -/
def eastWallMaze : Maze :=
  let m := createTestMaze 3
  { m with cells := modifyWalls m.cells (0, 0) fun w => { w with east := true } }

/-- A config whose ball radius exceeds half the cell size (radius
fraction `0.6`), used to probe the world-bounds invariant. -/
def bigBallConfig : Config := { testConfig with BALL_RADIUS_FRAC := 6 / 10 }

/-- The hole centre as the specification describes the hazard test:
cell centre displaced by the generator's sub-cell offsets. -/
def specHoleCenter (h : Hole) (cs : ℚ) : ℚ × ℚ :=
  (((h.x : ℚ) + 1 / 2 + h.offsetX) * cs, ((h.y : ℚ) + 1 / 2 + h.offsetY) * cs)

/-- Replace every hole's offsets using `f` (cells untouched). -/
def setHoleOffsets (f : Hole → ℚ × ℚ) (m : Maze) : Maze :=
  { m with holes := m.holes.map fun h =>
      { h with offsetX := (f h).1, offsetY := (f h).2 } }

/-- A 3×3 open maze with a single hole at cell `(1,1)` carrying a
sub-cell offset of `(0.2, 0)`. -/
def offsetHoleMaze : Maze := { createTestMaze 3 with holes := [⟨1, 1, 1 / 5, 0⟩] }

end BallMaze

/-- Claim C3: for every 32-bit seed, each call to the RNG's `nextUnit`
returns a value in `[0,1)` computed by exactly the specified mulberry32
mixing (state `s ← (s + 0x6D2B79F5) mod 2^32`; `t = (s ^ (s >> 15)) *
(s | 1) mod 2^32`; `t = ((t + ((t ^ (t >> 7)) * (t | 61) mod 2^32)) mod
2^32) ^ t`; result `((t ^ (t >> 14)) mod 2^32) / 2^32`), so two RNGs
built from the same seed produce identical value sequences, call for
call. -/
theorem C3_rng_mulberry32 :
    (∀ s : Nat, BallMaze.rngNext s = BallMaze.specNext s) ∧
    (∀ s : Nat, 0 ≤ (BallMaze.rngNext s).2 ∧ (BallMaze.rngNext s).2 < 1) ∧
    (∀ seed n, BallMaze.rngSeq seed n = BallMaze.specSeq seed n) :=
  ⟨BallMaze.rngNext_eq_specNext,
   fun s => ⟨BallMaze.rngNext_val_nonneg s, BallMaze.rngNext_val_lt_one s⟩,
   BallMaze.rngSeq_eq_specSeq⟩

namespace BallMaze

lemma updateBall_snd (rsqrt : ℚ → ℚ) (m : Maze) (cfg : Config) (cs dt : ℚ)
    (b : Ball) (input : InputState) :
    (updateBall rsqrt m cfg cs dt b input).2 =
      checkHazards m cfg cs (collide rsqrt m cfg cs dt b input) := rfl

lemma updateBall_fst (rsqrt : ℚ → ℚ) (m : Maze) (cfg : Config) (cs dt : ℚ)
    (b : Ball) (input : InputState) :
    (updateBall rsqrt m cfg cs dt b input).1 = collide rsqrt m cfg cs dt b input := rfl

lemma checkHazards_of_goal (m : Maze) (cfg : Config) (cs : ℚ) (b : Ball)
    (h : sqrtLt (dist2 b.x b.y (goalCenter m cs).1 (goalCenter m cs).2)
      (cs * cfg.GOAL_RADIUS_FRAC)) :
    checkHazards m cfg cs b = ⟨false, true⟩ := by
  unfold checkHazards
  rw [if_pos h]

lemma checkHazards_of_none (m : Maze) (cfg : Config) (cs : ℚ) (b : Ball)
    (hg : ¬ sqrtLt (dist2 b.x b.y (goalCenter m cs).1 (goalCenter m cs).2)
      (cs * cfg.GOAL_RADIUS_FRAC))
    (hh : ∀ h ∈ m.holes,
      ¬ sqrtLt (dist2 b.x b.y (holeCenter h cs).1 (holeCenter h cs).2)
        (cs * cfg.HOLE_RADIUS_FRAC)) :
    checkHazards m cfg cs b = ⟨false, false⟩ := by
  unfold checkHazards
  rw [if_neg hg, List.find?_eq_none.mpr]
  intro h hmem
  simpa using hh h hmem

end BallMaze

/-- Claim C2: in a 3×3 maze whose only closed wall is cell `(0,0)`'s
east wall, with `cellSize = 100` and the repository's test configuration
(`BALL_RADIUS_RATIO = 0.4`, `GRAVITY = 1000`, `FRICTION = 0.98`), a ball
starting at `(50,50)` with `vx = 500`, `vy = 0` satisfies, after one
`updateBall` call with `dt = 0.1`, `tiltX = 1`, `tiltY = 0`: its `x`
does not exceed `60` and its `vx` equals `0`. -/
theorem C2_straight_wall_stop :
    (BallMaze.updateBall BallMaze.ratSqrt BallMaze.eastWallMaze
        BallMaze.testConfig 100 (1 / 10) ⟨50, 50, 500, 0⟩ ⟨1, 0⟩).1.x ≤ 60 ∧
    (BallMaze.updateBall BallMaze.ratSqrt BallMaze.eastWallMaze
        BallMaze.testConfig 100 (1 / 10) ⟨50, 50, 500, 0⟩ ⟨1, 0⟩).1.vx = 0 := by
  decide

/-- Counterexample to claim C5: with a `1 × 1` maze, `cellSize = 100`
and ball radius fraction `0.6` (radius `60`), a motionless ball at
`(50,50)` ends an `updateBall` call at `x = 40 < 60 = ballRadius`, so
the ball's extent does not lie within the world square at the end of
every call (the two x clamps fire in sequence and the second undoes the
first). -/
theorem C5_counterexample :
    (BallMaze.updateBall BallMaze.ratSqrt (BallMaze.createTestMaze 1)
        BallMaze.bigBallConfig 100 (1 / 100) ⟨50, 50, 0, 0⟩ ⟨0, 0⟩).1.x <
      100 * BallMaze.bigBallConfig.BALL_RADIUS_FRAC := by
  decide

/-- Counterexample to claim C9: hazard detection does not measure the
ball's distance to the offset hole centre.  With a hole at cell `(1,1)`
carrying offset `(0.2, 0)` and a motionless ball at `(135, 150)`,
`updateBall` returns the hazard outcome even though the ball's distance
to the offset centre `(170, 150)` is `35`, not less than the hole
radius `30`. -/
theorem C9_counterexample :
    (BallMaze.updateBall BallMaze.ratSqrt BallMaze.offsetHoleMaze
        BallMaze.testConfig 100 (1 / 100) ⟨135, 150, 0, 0⟩ ⟨0, 0⟩).2 = ⟨true, false⟩ ∧
    ¬ BallMaze.sqrtLt
        (BallMaze.dist2
          (BallMaze.updateBall BallMaze.ratSqrt BallMaze.offsetHoleMaze
            BallMaze.testConfig 100 (1 / 100) ⟨135, 150, 0, 0⟩ ⟨0, 0⟩).1.x
          (BallMaze.updateBall BallMaze.ratSqrt BallMaze.offsetHoleMaze
            BallMaze.testConfig 100 (1 / 100) ⟨135, 150, 0, 0⟩ ⟨0, 0⟩).1.y
          (BallMaze.specHoleCenter ⟨1, 1, 1 / 5, 0⟩ 100).1
          (BallMaze.specHoleCenter ⟨1, 1, 1 / 5, 0⟩ 100).2)
        (100 * BallMaze.testConfig.HOLE_RADIUS_FRAC) := by
  decide

/-- Claim C6: whenever the ball's post-collision position is within both
the goal's trigger radius and some hole's trigger radius, `updateBall`
returns the win outcome `{reset := false, won := true}` and never the
hazard outcome — the goal test precedes the hole scan and returns
immediately. -/
theorem C6_goal_priority (rsqrt : ℚ → ℚ) (m : BallMaze.Maze)
    (cfg : BallMaze.Config) (cs dt : ℚ) (b : BallMaze.Ball)
    (input : BallMaze.InputState)
    (hGoal : BallMaze.sqrtLt
      (BallMaze.dist2 (BallMaze.collide rsqrt m cfg cs dt b input).x
        (BallMaze.collide rsqrt m cfg cs dt b input).y
        (BallMaze.goalCenter m cs).1 (BallMaze.goalCenter m cs).2)
      (cs * cfg.GOAL_RADIUS_FRAC))
    (hHole : ∃ h ∈ m.holes, BallMaze.sqrtLt
      (BallMaze.dist2 (BallMaze.collide rsqrt m cfg cs dt b input).x
        (BallMaze.collide rsqrt m cfg cs dt b input).y
        (BallMaze.holeCenter h cs).1 (BallMaze.holeCenter h cs).2)
      (cs * cfg.HOLE_RADIUS_FRAC)) :
    (BallMaze.updateBall rsqrt m cfg cs dt b input).2 = ⟨false, true⟩ := by
  rw [BallMaze.updateBall_snd]
  exact BallMaze.checkHazards_of_goal _ _ _ _ hGoal

/-- Claim C10: hazard triggers are strict.  If the ball ends the step at
distance exactly the goal radius from the goal centre and at distance at
least the hole radius from every hole centre, `updateBall` returns the
no-event outcome `{reset := false, won := false}`. -/
theorem C10_strict_triggers (rsqrt : ℚ → ℚ) (m : BallMaze.Maze)
    (cfg : BallMaze.Config) (cs dt : ℚ) (b : BallMaze.Ball)
    (input : BallMaze.InputState)
    (hGoal : BallMaze.dist2 (BallMaze.collide rsqrt m cfg cs dt b input).x
        (BallMaze.collide rsqrt m cfg cs dt b input).y
        (BallMaze.goalCenter m cs).1 (BallMaze.goalCenter m cs).2 =
      (cs * cfg.GOAL_RADIUS_FRAC) ^ 2)
    (hHoles : ∀ h ∈ m.holes,
      (cs * cfg.HOLE_RADIUS_FRAC) ^ 2 ≤
        BallMaze.dist2 (BallMaze.collide rsqrt m cfg cs dt b input).x
          (BallMaze.collide rsqrt m cfg cs dt b input).y
          (BallMaze.holeCenter h cs).1 (BallMaze.holeCenter h cs).2) :
    (BallMaze.updateBall rsqrt m cfg cs dt b input).2 = ⟨false, false⟩ := by
  rw [BallMaze.updateBall_snd]
  refine BallMaze.checkHazards_of_none _ _ _ _ ?_ ?_
  · intro hlt
    exact absurd (hGoal ▸ hlt.2) (lt_irrefl _)
  · intro h hmem hlt
    exact absurd (lt_of_lt_of_le hlt.2 (hHoles h hmem)) (lt_irrefl _)

namespace BallMaze

/-- A 3×3 open maze with a hole placed on the goal cell `(2,2)`, so a
ball at the goal centre is inside both trigger radii. -/
def goalHoleMaze : Maze := { createTestMaze 3 with holes := [⟨2, 2, 0, 0⟩] }

/-- A 3×3 open maze with one hole at cell `(0,1)`. -/
def farHoleMaze : Maze := { createTestMaze 3 with holes := [⟨0, 1, 0, 0⟩] }

end BallMaze

/-- Witness for C6: a motionless ball at the goal centre `(250,250)` of
a 3×3 maze with a hole on the goal cell is within both trigger radii,
and `updateBall` returns the win outcome. -/
theorem C6_goal_priority_witness :
    (BallMaze.updateBall BallMaze.ratSqrt BallMaze.goalHoleMaze BallMaze.testConfig
      100 (16 / 1000) ⟨250, 250, 0, 0⟩ ⟨0, 0⟩).2 = ⟨false, true⟩ :=
  C6_goal_priority BallMaze.ratSqrt BallMaze.goalHoleMaze BallMaze.testConfig
    100 (16 / 1000) ⟨250, 250, 0, 0⟩ ⟨0, 0⟩ (by decide)
    ⟨⟨2, 2, 0, 0⟩, by decide, by decide⟩

/-- Witness for C10: a motionless ball at `(250, 215)` ends the step at
distance exactly `35` (the goal trigger radius) from the goal centre and
far from the hole at `(0,1)`, and `updateBall` returns the no-event
outcome. -/
theorem C10_strict_triggers_witness :
    (BallMaze.updateBall BallMaze.ratSqrt BallMaze.farHoleMaze BallMaze.testConfig
      100 (16 / 1000) ⟨250, 215, 0, 0⟩ ⟨0, 0⟩).2 = ⟨false, false⟩ :=
  C10_strict_triggers BallMaze.ratSqrt BallMaze.farHoleMaze BallMaze.testConfig
    100 (16 / 1000) ⟨250, 215, 0, 0⟩ ⟨0, 0⟩ (by decide) (by decide)

namespace BallMaze

/-! ## No-contact conditions for one step (claim C7) -/

/-- The x-sweep scan finds no crossed wall: for every in-range boundary
index, neither the east-wall nor the west-wall crossing test fires. -/
def noHitX (g : Grid) (size : ℕ) (cs r oldX : ℚ) (cellY : ℤ) (xs : List ℤ)
    (x vx : ℚ) : Prop :=
  ∀ i ∈ xs, ¬(i < 0 ∨ (size : ℤ) ≤ i ∨ cellY < 0 ∨ (size : ℤ) ≤ cellY) →
    ¬(vx > 0 ∧ (cellAt g i.toNat cellY.toNat).walls.east = true ∧
        oldX + r ≤ ((i : ℚ) + 1) * cs ∧ x + r > ((i : ℚ) + 1) * cs) ∧
    ¬(vx < 0 ∧ (cellAt g i.toNat cellY.toNat).walls.west = true ∧
        oldX - r ≥ (i : ℚ) * cs ∧ x - r < (i : ℚ) * cs)

/-- The ball's x-motion this tick crosses no wall (instantiates `noHitX`
at the x-sweep's own scan list and moved position). -/
def NoWallTouchX (g : Grid) (size : ℕ) (cs r dt : ℚ) (b : Ball) : Prop :=
  noHitX g size cs r b.x ⌊b.y / cs⌋
    (intsFromTo ⌊(min (b.x - r) (b.x + b.vx * dt - r)) / cs⌋
      ⌈(max (b.x + r) (b.x + b.vx * dt + r)) / cs⌉)
    (b.x + b.vx * dt) b.vx

/-- Analogue of `noHitX` for the y sweep. -/
def noHitY (g : Grid) (size : ℕ) (cs r oldY : ℚ) (cellX : ℤ) (ys : List ℤ)
    (y vy : ℚ) : Prop :=
  ∀ i ∈ ys, ¬(i < 0 ∨ (size : ℤ) ≤ i ∨ cellX < 0 ∨ (size : ℤ) ≤ cellX) →
    ¬(vy > 0 ∧ (cellAt g cellX.toNat i.toNat).walls.south = true ∧
        oldY + r ≤ ((i : ℚ) + 1) * cs ∧ y + r > ((i : ℚ) + 1) * cs) ∧
    ¬(vy < 0 ∧ (cellAt g cellX.toNat i.toNat).walls.north = true ∧
        oldY - r ≥ (i : ℚ) * cs ∧ y - r < (i : ℚ) * cs)

/-- The ball's y-motion this tick crosses no wall. -/
def NoWallTouchY (g : Grid) (size : ℕ) (cs r dt : ℚ) (b : Ball) : Prop :=
  noHitY g size cs r b.y ⌊b.x / cs⌋
    (intsFromTo ⌊(min (b.y - r) (b.y + b.vy * dt - r)) / cs⌋
      ⌈(max (b.y + r) (b.y + b.vy * dt + r)) / cs⌉)
    (b.y + b.vy * dt) b.vy

/-- The ball's extent is inside the world square (no bounds clamp
fires). -/
def InsideBounds (size : ℕ) (cs r : ℚ) (b : Ball) : Prop :=
  r ≤ b.x ∧ b.x + r ≤ (size : ℚ) * cs ∧ r ≤ b.y ∧ b.y + r ≤ (size : ℚ) * cs

/-- The penetration pass finds no contact: for every scanned cell, every
closed wall's circle/segment test reports no collision. -/
def NoPenTouch (rsqrt : ℚ → ℚ) (g : Grid) (size : ℕ) (cs r : ℚ) (b : Ball) :
    Prop :=
  ∀ cy ∈ intsFromTo (max 0 ⌊(b.y - r) / cs⌋) (min ((size : ℤ) - 1) ⌊(b.y + r) / cs⌋ + 1),
  ∀ cx ∈ intsFromTo (max 0 ⌊(b.x - r) / cs⌋) (min ((size : ℤ) - 1) ⌊(b.x + r) / cs⌋ + 1),
    ((cellAt g cx.toNat cy.toNat).walls.north = true →
      (circleLineCollision rsqrt b.x b.y r ((cx : ℚ) * cs) ((cy : ℚ) * cs)
        ((cx : ℚ) * cs + cs) ((cy : ℚ) * cs)).1 = false) ∧
    ((cellAt g cx.toNat cy.toNat).walls.south = true →
      (circleLineCollision rsqrt b.x b.y r ((cx : ℚ) * cs) ((cy : ℚ) * cs + cs)
        ((cx : ℚ) * cs + cs) ((cy : ℚ) * cs + cs)).1 = false) ∧
    ((cellAt g cx.toNat cy.toNat).walls.west = true →
      (circleLineCollision rsqrt b.x b.y r ((cx : ℚ) * cs) ((cy : ℚ) * cs)
        ((cx : ℚ) * cs) ((cy : ℚ) * cs + cs)).1 = false) ∧
    ((cellAt g cx.toNat cy.toNat).walls.east = true →
      (circleLineCollision rsqrt b.x b.y r ((cx : ℚ) * cs + cs) ((cy : ℚ) * cs)
        ((cx : ℚ) * cs + cs) ((cy : ℚ) * cs + cs)).1 = false)

instance (g : Grid) (size : ℕ) (cs r oldX : ℚ) (cellY : ℤ) (xs : List ℤ)
    (x vx : ℚ) : Decidable (noHitX g size cs r oldX cellY xs x vx) := by
  unfold noHitX; infer_instance

instance (g : Grid) (size : ℕ) (cs r dt : ℚ) (b : Ball) :
    Decidable (NoWallTouchX g size cs r dt b) := by
  unfold NoWallTouchX; infer_instance

instance (g : Grid) (size : ℕ) (cs r oldY : ℚ) (cellX : ℤ) (ys : List ℤ)
    (y vy : ℚ) : Decidable (noHitY g size cs r oldY cellX ys y vy) := by
  unfold noHitY; infer_instance

instance (g : Grid) (size : ℕ) (cs r dt : ℚ) (b : Ball) :
    Decidable (NoWallTouchY g size cs r dt b) := by
  unfold NoWallTouchY; infer_instance

instance (size : ℕ) (cs r : ℚ) (b : Ball) :
    Decidable (InsideBounds size cs r b) := by
  unfold InsideBounds; infer_instance

instance (rsqrt : ℚ → ℚ) (g : Grid) (size : ℕ) (cs r : ℚ) (b : Ball) :
    Decidable (NoPenTouch rsqrt g size cs r b) := by
  unfold NoPenTouch; infer_instance

lemma xWallScan_of_noHit (g : Grid) (size : ℕ) (cs r oldX : ℚ) (cellY : ℤ)
    (xs : List ℤ) (x vx : ℚ) (h : noHitX g size cs r oldX cellY xs x vx) :
    xWallScan g size cs r oldX cellY xs (x, vx) = (x, vx) := by
  induction xs with
  | nil => rfl
  | cons i rest ih =>
    have hi := h i (List.mem_cons_self i rest)
    have hrest : noHitX g size cs r oldX cellY rest x vx := fun j hj => h j (List.mem_cons_of_mem i hj)
    unfold xWallScan
    by_cases hskip : i < 0 ∨ (size : ℤ) ≤ i ∨ cellY < 0 ∨ (size : ℤ) ≤ cellY
    · rw [if_pos hskip]
      exact ih hrest
    · rw [if_neg hskip, if_neg (hi hskip).1, if_neg (hi hskip).2]
      exact ih hrest

lemma yWallScan_of_noHit (g : Grid) (size : ℕ) (cs r oldY : ℚ) (cellX : ℤ)
    (ys : List ℤ) (y vy : ℚ) (h : noHitY g size cs r oldY cellX ys y vy) :
    yWallScan g size cs r oldY cellX ys (y, vy) = (y, vy) := by
  induction ys with
  | nil => rfl
  | cons i rest ih =>
    have hi := h i (List.mem_cons_self i rest)
    have hrest : noHitY g size cs r oldY cellX rest y vy := fun j hj => h j (List.mem_cons_of_mem i hj)
    unfold yWallScan
    by_cases hskip : i < 0 ∨ (size : ℤ) ≤ i ∨ cellX < 0 ∨ (size : ℤ) ≤ cellX
    · rw [if_pos hskip]
      exact ih hrest
    · rw [if_neg hskip, if_neg (hi hskip).1, if_neg (hi hskip).2]
      exact ih hrest

lemma sweepX_of_noHit (g : Grid) (size : ℕ) (cs r dt : ℚ) (b : Ball)
    (h : NoWallTouchX g size cs r dt b) :
    sweepX g size cs r dt b = { b with x := b.x + b.vx * dt } := by
  simp only [sweepX]
  by_cases hv : b.vx ≠ 0
  · rw [if_pos hv, xWallScan_of_noHit g size cs r b.x _ _ _ _ h]
  · rw [if_neg hv]

lemma sweepY_of_noHit (g : Grid) (size : ℕ) (cs r dt : ℚ) (b : Ball)
    (h : NoWallTouchY g size cs r dt b) :
    sweepY g size cs r dt b = { b with y := b.y + b.vy * dt } := by
  simp only [sweepY]
  by_cases hv : b.vy ≠ 0
  · rw [if_pos hv, yWallScan_of_noHit g size cs r b.y _ _ _ _ h]
  · rw [if_neg hv]

lemma clampBounds_of_inside (size : ℕ) (cs r : ℚ) (b : Ball)
    (h : InsideBounds size cs r b) : clampBounds size cs r b = b := by
  obtain ⟨h1, h2, h3, h4⟩ := h
  have n1 : ¬(b.x - r < 0) := not_lt.mpr (by linarith)
  have n2 : ¬(b.x + r > (size : ℚ) * cs) := not_lt.mpr (by linarith)
  have n3 : ¬(b.y - r < 0) := not_lt.mpr (by linarith)
  have n4 : ¬(b.y + r > (size : ℚ) * cs) := not_lt.mpr (by linarith)
  simp only [clampBounds]
  rw [if_neg n1, if_neg n2, if_neg n3, if_neg n4]

lemma processNorth_of_noCollide (rsqrt : ℚ → ℚ) (cs r cX cY : ℚ) (w : Bool)
    (b : Ball)
    (h : w = true → (circleLineCollision rsqrt b.x b.y r cX cY (cX + cs) cY).1 = false) :
    processNorth rsqrt cs r cX cY w b = b := by
  cases w with
  | false => rfl
  | true =>
    have h1 := h rfl
    unfold processNorth
    generalize hE : circleLineCollision rsqrt b.x b.y r cX cY (cX + cs) cY = p
    rw [hE] at h1
    obtain ⟨cf, no⟩ := p
    simp only at h1
    subst h1
    cases no <;> rfl

lemma processSouth_of_noCollide (rsqrt : ℚ → ℚ) (cs r cX cY : ℚ) (w : Bool)
    (b : Ball)
    (h : w = true → (circleLineCollision rsqrt b.x b.y r cX (cY + cs) (cX + cs) (cY + cs)).1 = false) :
    processSouth rsqrt cs r cX cY w b = b := by
  cases w with
  | false => rfl
  | true =>
    have h1 := h rfl
    unfold processSouth
    generalize hE : circleLineCollision rsqrt b.x b.y r cX (cY + cs) (cX + cs) (cY + cs) = p
    rw [hE] at h1
    obtain ⟨cf, no⟩ := p
    simp only at h1
    subst h1
    cases no <;> rfl

lemma processWest_of_noCollide (rsqrt : ℚ → ℚ) (cs r cX cY : ℚ) (w : Bool)
    (b : Ball)
    (h : w = true → (circleLineCollision rsqrt b.x b.y r cX cY cX (cY + cs)).1 = false) :
    processWest rsqrt cs r cX cY w b = b := by
  cases w with
  | false => rfl
  | true =>
    have h1 := h rfl
    unfold processWest
    generalize hE : circleLineCollision rsqrt b.x b.y r cX cY cX (cY + cs) = p
    rw [hE] at h1
    obtain ⟨cf, no⟩ := p
    simp only at h1
    subst h1
    cases no <;> rfl

lemma processEast_of_noCollide (rsqrt : ℚ → ℚ) (cs r cX cY : ℚ) (w : Bool)
    (b : Ball)
    (h : w = true → (circleLineCollision rsqrt b.x b.y r (cX + cs) cY (cX + cs) (cY + cs)).1 = false) :
    processEast rsqrt cs r cX cY w b = b := by
  cases w with
  | false => rfl
  | true =>
    have h1 := h rfl
    unfold processEast
    generalize hE : circleLineCollision rsqrt b.x b.y r (cX + cs) cY (cX + cs) (cY + cs) = p
    rw [hE] at h1
    obtain ⟨cf, no⟩ := p
    simp only at h1
    subst h1
    cases no <;> rfl

lemma foldl_fixed_of_mem {α β : Type} (f : β → α → β) (b : β) :
    ∀ (l : List α), (∀ a ∈ l, f b a = b) → l.foldl f b = b
  | [], _ => rfl
  | c :: rest, h => by
    rw [List.foldl_cons, h c (List.mem_cons_self c rest)]
    exact foldl_fixed_of_mem f b rest fun a ha => h a (List.mem_cons_of_mem c ha)

lemma penPass_of_noTouch (rsqrt : ℚ → ℚ) (g : Grid) (size : ℕ) (cs r : ℚ)
    (b : Ball) (h : NoPenTouch rsqrt g size cs r b) :
    penPass rsqrt g size cs r b = b := by
  simp only [penPass]
  refine foldl_fixed_of_mem _ b _ ?_
  intro cp hcp
  rw [List.mem_flatMap] at hcp
  obtain ⟨cy, hcy, hcp⟩ := hcp
  rw [List.mem_map] at hcp
  obtain ⟨cx, hcx, rfl⟩ := hcp
  obtain ⟨hn, hs, hw, he⟩ := h cy hcy cx hcx
  dsimp only [processCell]
  rw [processNorth_of_noCollide _ _ _ _ _ _ _ hn,
    processSouth_of_noCollide _ _ _ _ _ _ _ hs,
    processWest_of_noCollide _ _ _ _ _ _ _ hw,
    processEast_of_noCollide _ _ _ _ _ _ _ he]

end BallMaze

/-- Claim C7: on every call, `updateBall` first sets the velocity per
axis to `(v + tilt * GRAVITY * dt) * FRICTION` — acceleration scaled by
`dt`, then one friction multiplication per call not scaled by `dt`; and
for a ball whose motion this tick touches no wall, no world boundary, no
hole and not the goal, the velocity after the call is exactly that
value. -/
theorem C7_velocity_integration (rsqrt : ℚ → ℚ) (m : BallMaze.Maze)
    (cfg : BallMaze.Config) (cs dt : ℚ) (b : BallMaze.Ball)
    (input : BallMaze.InputState)
    (hx : BallMaze.NoWallTouchX m.cells m.size cs (cs * cfg.BALL_RADIUS_FRAC) dt
      (BallMaze.integrate cfg input dt b))
    (hy : BallMaze.NoWallTouchY m.cells m.size cs (cs * cfg.BALL_RADIUS_FRAC) dt
      (BallMaze.sweepX m.cells m.size cs (cs * cfg.BALL_RADIUS_FRAC) dt
        (BallMaze.integrate cfg input dt b)))
    (hin : BallMaze.InsideBounds m.size cs (cs * cfg.BALL_RADIUS_FRAC)
      (BallMaze.sweepY m.cells m.size cs (cs * cfg.BALL_RADIUS_FRAC) dt
        (BallMaze.sweepX m.cells m.size cs (cs * cfg.BALL_RADIUS_FRAC) dt
          (BallMaze.integrate cfg input dt b))))
    (hpen : BallMaze.NoPenTouch rsqrt m.cells m.size cs (cs * cfg.BALL_RADIUS_FRAC)
      (BallMaze.clampBounds m.size cs (cs * cfg.BALL_RADIUS_FRAC)
        (BallMaze.sweepY m.cells m.size cs (cs * cfg.BALL_RADIUS_FRAC) dt
          (BallMaze.sweepX m.cells m.size cs (cs * cfg.BALL_RADIUS_FRAC) dt
            (BallMaze.integrate cfg input dt b)))))
    (hgoal : ¬ BallMaze.sqrtLt
      (BallMaze.dist2 (BallMaze.collide rsqrt m cfg cs dt b input).x
        (BallMaze.collide rsqrt m cfg cs dt b input).y
        (BallMaze.goalCenter m cs).1 (BallMaze.goalCenter m cs).2)
      (cs * cfg.GOAL_RADIUS_FRAC))
    (hholes : ∀ h ∈ m.holes, ¬ BallMaze.sqrtLt
      (BallMaze.dist2 (BallMaze.collide rsqrt m cfg cs dt b input).x
        (BallMaze.collide rsqrt m cfg cs dt b input).y
        (BallMaze.holeCenter h cs).1 (BallMaze.holeCenter h cs).2)
      (cs * cfg.HOLE_RADIUS_FRAC)) :
    BallMaze.integrate cfg input dt b =
      ⟨b.x, b.y, (b.vx + input.tiltX * cfg.GRAVITY * dt) * cfg.FRICTION,
        (b.vy + input.tiltY * cfg.GRAVITY * dt) * cfg.FRICTION⟩ ∧
    (BallMaze.updateBall rsqrt m cfg cs dt b input).1.vx =
      (b.vx + input.tiltX * cfg.GRAVITY * dt) * cfg.FRICTION ∧
    (BallMaze.updateBall rsqrt m cfg cs dt b input).1.vy =
      (b.vy + input.tiltY * cfg.GRAVITY * dt) * cfg.FRICTION ∧
    (BallMaze.updateBall rsqrt m cfg cs dt b input).2 = ⟨false, false⟩ := by
  have hcol : BallMaze.collide rsqrt m cfg cs dt b input =
      BallMaze.clampBounds m.size cs (cs * cfg.BALL_RADIUS_FRAC)
        (BallMaze.sweepY m.cells m.size cs (cs * cfg.BALL_RADIUS_FRAC) dt
          (BallMaze.sweepX m.cells m.size cs (cs * cfg.BALL_RADIUS_FRAC) dt
            (BallMaze.integrate cfg input dt b))) := by
    show BallMaze.penPass rsqrt m.cells m.size cs (cs * cfg.BALL_RADIUS_FRAC) _ = _
    exact BallMaze.penPass_of_noTouch _ _ _ _ _ _ hpen
  have hclamp := BallMaze.clampBounds_of_inside m.size cs
    (cs * cfg.BALL_RADIUS_FRAC) _ hin
  have hsx := BallMaze.sweepX_of_noHit m.cells m.size cs
    (cs * cfg.BALL_RADIUS_FRAC) dt _ hx
  have hsy := BallMaze.sweepY_of_noHit m.cells m.size cs
    (cs * cfg.BALL_RADIUS_FRAC) dt _ hy
  refine ⟨rfl, ?_, ?_, ?_⟩
  · rw [BallMaze.updateBall_fst, hcol, hclamp, hsy, hsx]
    rfl
  · rw [BallMaze.updateBall_fst, hcol, hclamp, hsy, hsx]
    rfl
  · rw [BallMaze.updateBall_snd]
    exact BallMaze.checkHazards_of_none _ _ _ _ hgoal hholes

/-- Witness for C7: a free ball at the centre of cell `(1,1)` of an
all-open 3×3 maze with `vx = 10`, no tilt, `dt = 0.01` touches nothing,
and its post-step `vx` is exactly `(10 + 0) * FRICTION`. -/
theorem C7_velocity_integration_witness :
    (BallMaze.updateBall BallMaze.ratSqrt (BallMaze.createTestMaze 3)
        BallMaze.testConfig 100 (1 / 100) ⟨150, 150, 10, 0⟩ ⟨0, 0⟩).1.vx =
      (10 + (0 : ℚ) * BallMaze.testConfig.GRAVITY * (1 / 100)) *
        BallMaze.testConfig.FRICTION :=
  (C7_velocity_integration BallMaze.ratSqrt (BallMaze.createTestMaze 3)
    BallMaze.testConfig 100 (1 / 100) ⟨150, 150, 10, 0⟩ ⟨0, 0⟩
    (by decide) (by decide) (by decide) (by decide) (by decide) (by decide)).2.1

namespace BallMaze

/-! ## Grid facts for the generator proofs -/

/-- Shape of a well-formed `size × size` grid. -/
def WFGrid (g : Grid) (size : ℕ) : Prop :=
  g.length = size ∧ ∀ row ∈ g, row.length = size

lemma wfGrid_initCells (size : ℕ) : WFGrid (initCells size) size := by
  constructor
  · simp [initCells]
  · intro row hrow
    simp only [initCells, List.mem_map] at hrow
    obtain ⟨y, _, rfl⟩ := hrow
    simp

lemma getD_initCells (size y : ℕ) :
    (initCells size).getD y [] =
      if y < size then (List.range size).map (fun x => (⟨x, y, allWalls⟩ : Cell))
      else [] := by
  unfold initCells
  by_cases hy : y < size
  · rw [if_pos hy, List.getD_eq_getElem?_getD, List.getElem?_map, List.getElem?_range hy]
    rfl
  · rw [if_neg hy, List.getD_eq_getElem?_getD, List.getElem?_map,
      List.getElem?_eq_none (by simpa using Nat.le_of_not_lt hy)]
    rfl

lemma wallsAt_initCells (size : ℕ) (p : ℕ × ℕ) :
    wallsAt (initCells size) p = allWalls := by
  rcases p with ⟨x, y⟩
  unfold wallsAt cellAt
  rw [getD_initCells]
  by_cases hy : y < size
  · rw [if_pos hy]
    by_cases hx : x < size
    · rw [List.getD_eq_getElem?_getD, List.getElem?_map, List.getElem?_range hx]
      rfl
    · rw [List.getD_eq_getElem?_getD, List.getElem?_map,
        List.getElem?_eq_none (by simpa using Nat.le_of_not_lt hx)]
      rfl
  · rw [if_neg hy]
    rfl

lemma wfGrid_setWalls (g : Grid) (size : ℕ) (x y : ℕ) (w : Walls)
    (h : WFGrid g size) (hy : y < size) : WFGrid (setWalls g x y w) size := by
  obtain ⟨hlen, hrow⟩ := h
  refine ⟨by simpa [setWalls] using hlen, ?_⟩
  intro row hmem
  unfold setWalls at hmem
  rcases List.mem_or_eq_of_mem_set hmem with h' | rfl
  · exact hrow row h'
  · rw [List.length_set]
    have hylen : y < g.length := hlen ▸ hy
    rw [List.getD_eq_getElem?_getD, List.getElem?_eq_getElem hylen]
    exact hrow _ (List.getElem_mem hylen)

/-- Pointwise description of `setWalls` on a well-formed grid with
in-range target. -/
lemma cellAt_setWalls (g : Grid) (size : ℕ) (x y : ℕ) (w : Walls)
    (h : WFGrid g size) (hx : x < size) (hy : y < size) (p : ℕ × ℕ) :
    cellAt (setWalls g x y w) p.1 p.2 =
      if p = (x, y) then ⟨x, y, w⟩ else cellAt g p.1 p.2 := by
  obtain ⟨hlen, hrow⟩ := h
  have hylen : y < g.length := hlen ▸ hy
  have hxlen : x < (g.getD y []).length := by
    rw [List.getD_eq_getElem?_getD, List.getElem?_eq_getElem hylen]
    simp only [Option.getD_some]
    rw [hrow _ (List.getElem_mem hylen)]
    exact hx
  rcases p with ⟨px, py⟩
  unfold cellAt setWalls
  by_cases hpy : py = y
  · subst hpy
    rw [List.getD_eq_getElem?_getD (g.set _ _), List.getElem?_set_self hylen]
    simp only [Option.getD_some]
    by_cases hpx : px = x
    · subst hpx
      rw [List.getD_eq_getElem?_getD, List.getElem?_set_self hxlen]
      simp
    · rw [List.getD_eq_getElem?_getD, List.getElem?_set_ne (Ne.symm hpx),
        ← List.getD_eq_getElem?_getD]
      simp [hpx]
  · rw [List.getD_eq_getElem?_getD (g.set _ _), List.getElem?_set_ne (fun hc => hpy hc.symm),
      ← List.getD_eq_getElem?_getD]
    simp [hpy]

/-- `wallsAt` version of `cellAt_setWalls`, and the `modifyWalls`
corollary. -/
lemma wallsAt_modifyWalls (g : Grid) (size : ℕ) (q : ℕ × ℕ) (f : Walls → Walls)
    (h : WFGrid g size) (hq : q.1 < size ∧ q.2 < size) (p : ℕ × ℕ) :
    wallsAt (modifyWalls g q f) p =
      if p = q then f (wallsAt g q) else wallsAt g p := by
  unfold wallsAt modifyWalls
  rw [cellAt_setWalls g size q.1 q.2 _ h hq.1 hq.2 p]
  by_cases hpq : p = q
  · subst hpq
    simp [wallsAt]
  · simp [hpq]

lemma wfGrid_modifyWalls (g : Grid) (size : ℕ) (q : ℕ × ℕ) (f : Walls → Walls)
    (h : WFGrid g size) (hq : q.2 < size) : WFGrid (modifyWalls g q f) size :=
  wfGrid_setWalls g size q.1 q.2 _ h hq

lemma wallsAt_out_of_grid (g : Grid) (size : ℕ) (h : WFGrid g size)
    (p : ℕ × ℕ) (hp : ¬(p.1 < size ∧ p.2 < size)) : wallsAt g p = allWalls := by
  obtain ⟨hlen, hrow⟩ := h
  rcases p with ⟨x, y⟩
  unfold wallsAt cellAt
  by_cases hy : y < size
  · have hx : ¬ x < size := fun hx => hp ⟨hx, hy⟩
    have hylen : y < g.length := hlen ▸ hy
    rw [List.getD_eq_getElem?_getD g, List.getElem?_eq_getElem hylen]
    simp only [Option.getD_some]
    rw [List.getD_eq_getElem?_getD, List.getElem?_eq_none]
    · rfl
    · rw [hrow _ (List.getElem_mem hylen)]
      exact Nat.le_of_not_lt hx
  · rw [List.getD_eq_getElem?_getD g, List.getElem?_eq_none (by omega)]
    rfl

end BallMaze

namespace BallMaze

/-! ## Open-passage graph of a grid -/

/-- One open passage step: `q` is a grid neighbour of `p` and the wall
of `p` facing `q` is open. -/
def openStep (g : Grid) (p q : ℕ × ℕ) : Prop :=
  (q = (p.1 + 1, p.2) ∧ (wallsAt g p).east = false) ∨
  (p = (q.1 + 1, q.2) ∧ (wallsAt g p).west = false) ∨
  (q = (p.1, p.2 + 1) ∧ (wallsAt g p).south = false) ∨
  (p = (q.1, q.2 + 1) ∧ (wallsAt g p).north = false)

/-- Reachability from the start cell `(0,0)` along open passages: the
graph a flood fill explores. -/
def reach (g : Grid) (p : ℕ × ℕ) : Prop := Relation.ReflTransGen (openStep g) (0, 0) p

/-- All cells of the `size × size` grid. -/
def gridFinset (size : ℕ) : Finset (ℕ × ℕ) := Finset.range size ×ˢ Finset.range size

/-- Cells whose east wall (an internal wall pair) is open. -/
def eastOpenSet (g : Grid) (size : ℕ) : Finset (ℕ × ℕ) :=
  (gridFinset size).filter fun p => p.1 + 1 < size ∧ (wallsAt g p).east = false

/-- Cells whose south wall (an internal wall pair) is open. -/
def southOpenSet (g : Grid) (size : ℕ) : Finset (ℕ × ℕ) :=
  (gridFinset size).filter fun p => p.2 + 1 < size ∧ (wallsAt g p).south = false

/-- Number of open wall pairs of the grid: each internal pair is
counted once, through the east/south flag of its lesser cell. -/
def openPairs (g : Grid) (size : ℕ) : ℕ :=
  (eastOpenSet g size).card + (southOpenSet g size).card

/-- Wall-pair symmetry: the two flags of every internal boundary agree. -/
def SymGrid (g : Grid) (size : ℕ) : Prop :=
  ∀ x y,
    (x + 1 < size → y < size →
      (wallsAt g (x, y)).east = (wallsAt g (x + 1, y)).west) ∧
    (y + 1 < size → x < size →
      (wallsAt g (x, y)).south = (wallsAt g (x, y + 1)).north)

/-- Outward-facing walls of boundary cells are closed. -/
def BoundaryClosed (g : Grid) (size : ℕ) : Prop :=
  ∀ x y, x < size → y < size →
    (x + 1 = size → (wallsAt g (x, y)).east = true) ∧
    (x = 0 → (wallsAt g (x, y)).west = true) ∧
    (y + 1 = size → (wallsAt g (x, y)).south = true) ∧
    (y = 0 → (wallsAt g (x, y)).north = true)

lemma openStep_in_grid (g : Grid) (size : ℕ) (wf : WFGrid g size)
    (bdry : BoundaryClosed g size) (p q : ℕ × ℕ) (h : openStep g p q) :
    (p.1 < size ∧ p.2 < size) ∧ (q.1 < size ∧ q.2 < size) := by
  have hp : p.1 < size ∧ p.2 < size := by
    by_contra hpc
    have hw := wallsAt_out_of_grid g size wf p hpc
    rcases h with ⟨_, h⟩ | ⟨_, h⟩ | ⟨_, h⟩ | ⟨_, h⟩ <;> rw [hw] at h <;>
      simp [allWalls] at h
  refine ⟨hp, ?_⟩
  rcases h with ⟨hq, h⟩ | ⟨hq, h⟩ | ⟨hq, h⟩ | ⟨hq, h⟩
  · subst hq
    show p.1 + 1 < size ∧ p.2 < size
    refine ⟨?_, hp.2⟩
    by_contra hlt
    have hx1 : p.1 + 1 = size := by omega
    rw [(bdry p.1 p.2 hp.1 hp.2).1 hx1] at h
    simp at h
  · rw [hq] at hp
    simp only at hp
    exact ⟨by omega, hp.2⟩
  · subst hq
    show p.1 < size ∧ p.2 + 1 < size
    refine ⟨hp.1, ?_⟩
    by_contra hlt
    have hy1 : p.2 + 1 = size := by omega
    rw [(bdry p.1 p.2 hp.1 hp.2).2.2.1 hy1] at h
    simp at h
  · rw [hq] at hp
    simp only at hp
    exact ⟨hp.1, by omega⟩

lemma openStep_symm (g : Grid) (size : ℕ) (wf : WFGrid g size)
    (sym : SymGrid g size) (bdry : BoundaryClosed g size) (p q : ℕ × ℕ)
    (h : openStep g p q) : openStep g q p := by
  obtain ⟨hp, hq⟩ := openStep_in_grid g size wf bdry p q h
  rcases h with ⟨he, h⟩ | ⟨he, h⟩ | ⟨he, h⟩ | ⟨he, h⟩
  · subst he
    refine Or.inr (Or.inl ⟨rfl, ?_⟩)
    have hs := (sym p.1 p.2).1 (by simpa using hq.1) hp.2
    rw [← hs]
    exact h
  · refine Or.inl ⟨he, ?_⟩
    have hs := (sym q.1 q.2).1 (by rw [he] at hp; simpa using hp.1) hq.2
    rw [show ((q.1, q.2) : ℕ × ℕ) = q from rfl] at hs
    rw [hs, ← he]
    exact h
  · subst he
    refine Or.inr (Or.inr (Or.inr ⟨rfl, ?_⟩))
    have hs := (sym p.1 p.2).2 (by simpa using hq.2) hp.1
    rw [← hs]
    exact h
  · refine Or.inr (Or.inr (Or.inl ⟨he, ?_⟩))
    have hs := (sym q.1 q.2).2 (by rw [he] at hp; simpa using hp.2) hq.1
    rw [show ((q.1, q.2) : ℕ × ℕ) = q from rfl] at hs
    rw [hs, ← he]
    exact h

lemma nextInt_lt (s : Nat) (max : Nat) (hmax : 1 ≤ max) :
    (nextInt s max).2 < max := by
  unfold nextInt
  have h0 := rngNext_val_nonneg s
  have h1 := rngNext_val_lt_one s
  simp only
  have hflt : ⌊(rngNext s).2 * (max : ℚ)⌋ < (max : ℤ) := by
    rw [Int.floor_lt]
    push_cast
    calc (rngNext s).2 * (max : ℚ) < 1 * (max : ℚ) :=
          mul_lt_mul_of_pos_right h1 (by exact_mod_cast hmax)
      _ = (max : ℚ) := one_mul _
  omega

lemma removeWall_east_eq (g : Grid) (x y : ℕ) :
    removeWall g (x, y) (x + 1, y) =
      modifyWalls (modifyWalls g (x, y) fun w => { w with east := false })
        (x + 1, y) fun w => { w with west := false } := by
  simp only [removeWall]
  rw [if_pos (by push_cast; ring)]

lemma removeWall_west_eq (g : Grid) (x y : ℕ) :
    removeWall g (x + 1, y) (x, y) =
      modifyWalls (modifyWalls g (x + 1, y) fun w => { w with west := false })
        (x, y) fun w => { w with east := false } := by
  simp only [removeWall]
  rw [if_neg (by push_cast; intro hc; omega), if_pos (by push_cast; ring)]

lemma removeWall_south_eq (g : Grid) (x y : ℕ) :
    removeWall g (x, y) (x, y + 1) =
      modifyWalls (modifyWalls g (x, y) fun w => { w with south := false })
        (x, y + 1) fun w => { w with north := false } := by
  simp only [removeWall]
  rw [if_neg (by push_cast; intro hc; omega), if_neg (by push_cast; intro hc; omega),
    if_pos (by push_cast; ring)]

lemma removeWall_north_eq (g : Grid) (x y : ℕ) :
    removeWall g (x, y + 1) (x, y) =
      modifyWalls (modifyWalls g (x, y + 1) fun w => { w with north := false })
        (x, y) fun w => { w with south := false } := by
  simp only [removeWall]
  rw [if_neg (by push_cast; intro hc; omega), if_neg (by push_cast; intro hc; omega),
    if_neg (by push_cast; intro hc; omega), if_pos (by push_cast; ring)]

lemma mem_getNeighbors (size : ℕ) (p q : ℕ × ℕ) :
    q ∈ getNeighbors size p ↔
      (p.2 > 0 ∧ q = (p.1, p.2 - 1)) ∨ (p.1 + 1 < size ∧ q = (p.1 + 1, p.2)) ∨
      (p.2 + 1 < size ∧ q = (p.1, p.2 + 1)) ∨ (p.1 > 0 ∧ q = (p.1 - 1, p.2)) := by
  unfold getNeighbors
  simp only [List.mem_append]
  constructor
  · intro h
    rcases h with ((h | h) | h) | h <;> split_ifs at h <;>
      simp only [List.mem_singleton, List.not_mem_nil] at h <;> tauto
  · intro h
    rcases h with ⟨hc, rfl⟩ | ⟨hc, rfl⟩ | ⟨hc, rfl⟩ | ⟨hc, rfl⟩
    · exact Or.inl (Or.inl (Or.inl (by rw [if_pos hc]; exact List.mem_singleton_self _)))
    · exact Or.inl (Or.inl (Or.inr (by rw [if_pos hc]; exact List.mem_singleton_self _)))
    · exact Or.inl (Or.inr (by rw [if_pos hc]; exact List.mem_singleton_self _))
    · exact Or.inr (by rw [if_pos hc]; exact List.mem_singleton_self _)

lemma getNeighbors_in_grid (size : ℕ) (p q : ℕ × ℕ)
    (hp : p.1 < size ∧ p.2 < size) (hq : q ∈ getNeighbors size p) :
    q.1 < size ∧ q.2 < size := by
  rw [mem_getNeighbors] at hq
  rcases hq with ⟨hc, rfl⟩ | ⟨hc, rfl⟩ | ⟨hc, rfl⟩ | ⟨hc, rfl⟩ <;>
    simp only <;> omega

lemma wallsAt_double_modify (g : Grid) (size : ℕ) (a b : ℕ × ℕ)
    (fa fb : Walls → Walls) (wf : WFGrid g size) (ha : a.1 < size ∧ a.2 < size)
    (hb : b.1 < size ∧ b.2 < size) (hba : b ≠ a) (p : ℕ × ℕ) :
    wallsAt (modifyWalls (modifyWalls g a fa) b fb) p =
      if p = b then fb (wallsAt g b)
      else if p = a then fa (wallsAt g a) else wallsAt g p := by
  rw [wallsAt_modifyWalls _ size b fb (wfGrid_modifyWalls g size a fa wf ha.2) hb p,
    wallsAt_modifyWalls g size a fa wf ha b, if_neg hba,
    wallsAt_modifyWalls g size a fa wf ha p]

/-- What opening the horizontal wall pair between `(x,y)` and `(x+1,y)`
does to a grid, stated pointwise (independent of update order). -/
structure OpenedHoriz (g g' : Grid) (x y : ℕ) : Prop where
  curE : wallsAt g' (x, y) = { wallsAt g (x, y) with east := false }
  nxtW : wallsAt g' (x + 1, y) = { wallsAt g (x + 1, y) with west := false }
  other : ∀ p, p ≠ (x, y) → p ≠ (x + 1, y) → wallsAt g' p = wallsAt g p

/-- Pointwise effect of opening the vertical wall pair between `(x,y)`
and `(x,y+1)`. -/
structure OpenedVert (g g' : Grid) (x y : ℕ) : Prop where
  curS : wallsAt g' (x, y) = { wallsAt g (x, y) with south := false }
  nxtN : wallsAt g' (x, y + 1) = { wallsAt g (x, y + 1) with north := false }
  other : ∀ p, p ≠ (x, y) → p ≠ (x, y + 1) → wallsAt g' p = wallsAt g p

lemma openedHoriz_of_removeWall_east (g : Grid) (size : ℕ) (x y : ℕ)
    (wf : WFGrid g size) (hx : x + 1 < size) (hy : y < size) :
    OpenedHoriz g (removeWall g (x, y) (x + 1, y)) x y := by
  have hpt := fun p => wallsAt_double_modify g size (x, y) (x + 1, y)
    (fun w => { w with east := false }) (fun w => { w with west := false })
    wf ⟨by omega, hy⟩ ⟨hx, hy⟩ (by simp) p
  rw [removeWall_east_eq] at *
  refine ⟨?_, ?_, ?_⟩
  · rw [hpt (x, y), if_neg (by simp), if_pos rfl]
  · rw [hpt (x + 1, y), if_pos rfl]
  · intro p h1 h2
    rw [hpt p, if_neg h2, if_neg h1]

lemma openedHoriz_of_removeWall_west (g : Grid) (size : ℕ) (x y : ℕ)
    (wf : WFGrid g size) (hx : x + 1 < size) (hy : y < size) :
    OpenedHoriz g (removeWall g (x + 1, y) (x, y)) x y := by
  have hpt := fun p => wallsAt_double_modify g size (x + 1, y) (x, y)
    (fun w => { w with west := false }) (fun w => { w with east := false })
    wf ⟨hx, hy⟩ ⟨by omega, hy⟩ (by simp) p
  rw [removeWall_west_eq] at *
  refine ⟨?_, ?_, ?_⟩
  · rw [hpt (x, y), if_pos rfl]
  · rw [hpt (x + 1, y), if_neg (by simp), if_pos rfl]
  · intro p h1 h2
    rw [hpt p, if_neg h1, if_neg h2]

lemma openedVert_of_removeWall_south (g : Grid) (size : ℕ) (x y : ℕ)
    (wf : WFGrid g size) (hx : x < size) (hy : y + 1 < size) :
    OpenedVert g (removeWall g (x, y) (x, y + 1)) x y := by
  have hpt := fun p => wallsAt_double_modify g size (x, y) (x, y + 1)
    (fun w => { w with south := false }) (fun w => { w with north := false })
    wf ⟨hx, by omega⟩ ⟨hx, hy⟩ (by simp) p
  rw [removeWall_south_eq] at *
  refine ⟨?_, ?_, ?_⟩
  · rw [hpt (x, y), if_neg (by simp), if_pos rfl]
  · rw [hpt (x, y + 1), if_pos rfl]
  · intro p h1 h2
    rw [hpt p, if_neg h2, if_neg h1]

lemma openedVert_of_removeWall_north (g : Grid) (size : ℕ) (x y : ℕ)
    (wf : WFGrid g size) (hx : x < size) (hy : y + 1 < size) :
    OpenedVert g (removeWall g (x, y + 1) (x, y)) x y := by
  have hpt := fun p => wallsAt_double_modify g size (x, y + 1) (x, y)
    (fun w => { w with north := false }) (fun w => { w with south := false })
    wf ⟨hx, hy⟩ ⟨hx, by omega⟩ (by simp) p
  rw [removeWall_north_eq] at *
  refine ⟨?_, ?_, ?_⟩
  · rw [hpt (x, y), if_pos rfl]
  · rw [hpt (x, y + 1), if_neg (by simp), if_pos rfl]
  · intro p h1 h2
    rw [hpt p, if_neg h1, if_neg h2]

lemma wfGrid_removeWall (g : Grid) (size : ℕ) (cur nxt : ℕ × ℕ)
    (wf : WFGrid g size) (hcur : cur.2 < size) (hnxt : nxt.2 < size) :
    WFGrid (removeWall g cur nxt) size := by
  simp only [removeWall]
  split_ifs <;>
    first
      | exact wfGrid_modifyWalls _ size _ _
          (wfGrid_modifyWalls g size _ _ wf hcur) hnxt
      | exact wf

namespace OpenedHoriz

variable {g g' : Grid} {x y : ℕ}

lemma south_eq (ho : OpenedHoriz g g' x y) (p : ℕ × ℕ) :
    (wallsAt g' p).south = (wallsAt g p).south := by
  by_cases h1 : p = (x, y)
  · subst h1; rw [ho.curE]
  · by_cases h2 : p = (x + 1, y)
    · subst h2; rw [ho.nxtW]
    · rw [ho.other p h1 h2]

lemma north_eq (ho : OpenedHoriz g g' x y) (p : ℕ × ℕ) :
    (wallsAt g' p).north = (wallsAt g p).north := by
  by_cases h1 : p = (x, y)
  · subst h1; rw [ho.curE]
  · by_cases h2 : p = (x + 1, y)
    · subst h2; rw [ho.nxtW]
    · rw [ho.other p h1 h2]

lemma east_eq_of_ne (ho : OpenedHoriz g g' x y) (p : ℕ × ℕ) (h : p ≠ (x, y)) :
    (wallsAt g' p).east = (wallsAt g p).east := by
  by_cases h2 : p = (x + 1, y)
  · subst h2; rw [ho.nxtW]
  · rw [ho.other p h h2]

lemma west_eq_of_ne (ho : OpenedHoriz g g' x y) (p : ℕ × ℕ)
    (h : p ≠ (x + 1, y)) : (wallsAt g' p).west = (wallsAt g p).west := by
  by_cases h1 : p = (x, y)
  · subst h1; rw [ho.curE]
  · rw [ho.other p h1 h]

lemma east_new (ho : OpenedHoriz g g' x y) : (wallsAt g' (x, y)).east = false := by
  rw [ho.curE]

lemma west_new (ho : OpenedHoriz g g' x y) :
    (wallsAt g' (x + 1, y)).west = false := by
  rw [ho.nxtW]

lemma symH (ho : OpenedHoriz g g' x y) (size : ℕ) (hx : x + 1 < size)
    (hy : y < size) (hsym : SymGrid g size) : SymGrid g' size := by
  intro a b
  constructor
  · intro h1 h2
    rcases eq_or_ne (a, b) (x, y) with hab | hab
    · obtain ⟨rfl, rfl⟩ : a = x ∧ b = y := by simpa [Prod.ext_iff] using hab
      rw [ho.curE, ho.nxtW]
    · rw [ho.east_eq_of_ne (a, b) hab]
      rcases eq_or_ne ((a + 1 : ℕ), b) (x + 1, y) with hn2 | hn2
      · exfalso
        apply hab
        simp only [Prod.ext_iff] at hn2 ⊢
        omega
      · rw [ho.west_eq_of_ne (a + 1, b) hn2]
        exact (hsym a b).1 h1 h2
  · intro h1 h2
    rw [ho.south_eq (a, b), ho.north_eq (a, b + 1)]
    exact (hsym a b).2 h1 h2

lemma bdryH (ho : OpenedHoriz g g' x y) (size : ℕ) (hx : x + 1 < size)
    (hy : y < size) (hb : BoundaryClosed g size) : BoundaryClosed g' size := by
  intro a b ha hb'
  refine ⟨?_, ?_, ?_, ?_⟩
  · intro he
    rw [ho.east_eq_of_ne (a, b) (by intro hc; simp only [Prod.mk.injEq] at hc; omega)]
    exact (hb a b ha hb').1 he
  · intro he
    rw [ho.west_eq_of_ne (a, b) (by intro hc; simp only [Prod.mk.injEq] at hc; omega)]
    exact (hb a b ha hb').2.1 he
  · intro he
    rw [ho.south_eq (a, b)]
    exact (hb a b ha hb').2.2.1 he
  · intro he
    rw [ho.north_eq (a, b)]
    exact (hb a b ha hb').2.2.2 he

lemma east_false_mono (ho : OpenedHoriz g g' x y) (p : ℕ × ℕ)
    (h : (wallsAt g p).east = false) : (wallsAt g' p).east = false := by
  by_cases h1 : p = (x, y)
  · subst h1; exact ho.east_new
  · rw [ho.east_eq_of_ne p h1]; exact h

lemma west_false_mono (ho : OpenedHoriz g g' x y) (p : ℕ × ℕ)
    (h : (wallsAt g p).west = false) : (wallsAt g' p).west = false := by
  by_cases h1 : p = (x + 1, y)
  · subst h1; exact ho.west_new
  · rw [ho.west_eq_of_ne p h1]; exact h

lemma openStep_monoH (ho : OpenedHoriz g g' x y) (p q : ℕ × ℕ)
    (h : openStep g p q) : openStep g' p q := by
  rcases h with ⟨he, h⟩ | ⟨he, h⟩ | ⟨he, h⟩ | ⟨he, h⟩
  · exact Or.inl ⟨he, ho.east_false_mono p h⟩
  · exact Or.inr (Or.inl ⟨he, ho.west_false_mono p h⟩)
  · exact Or.inr (Or.inr (Or.inl ⟨he, by rw [ho.south_eq p]; exact h⟩))
  · exact Or.inr (Or.inr (Or.inr ⟨he, by rw [ho.north_eq p]; exact h⟩))

lemma openStep_casesH (ho : OpenedHoriz g g' x y) (p q : ℕ × ℕ)
    (h : openStep g' p q) :
    openStep g p q ∨ (p = (x, y) ∧ q = (x + 1, y)) ∨
      (p = (x + 1, y) ∧ q = (x, y)) := by
  rcases h with ⟨he, h⟩ | ⟨he, h⟩ | ⟨he, h⟩ | ⟨he, h⟩
  · by_cases h1 : p = (x, y)
    · subst h1
      exact Or.inr (Or.inl ⟨rfl, he⟩)
    · rw [ho.east_eq_of_ne p h1] at h
      exact Or.inl (Or.inl ⟨he, h⟩)
  · by_cases h1 : p = (x + 1, y)
    · subst h1
      refine Or.inr (Or.inr ⟨rfl, ?_⟩)
      simp only [Prod.ext_iff] at he ⊢
      omega
    · rw [ho.west_eq_of_ne p h1] at h
      exact Or.inl (Or.inr (Or.inl ⟨he, h⟩))
  · rw [ho.south_eq p] at h
    exact Or.inl (Or.inr (Or.inr (Or.inl ⟨he, h⟩)))
  · rw [ho.north_eq p] at h
    exact Or.inl (Or.inr (Or.inr (Or.inr ⟨he, h⟩)))

lemma countH (ho : OpenedHoriz g g' x y) (size : ℕ) (hx : x + 1 < size)
    (hy : y < size) (hclosed : (wallsAt g (x, y)).east = true) :
    openPairs g' size = openPairs g size + 1 := by
  have heast : eastOpenSet g' size = insert (x, y) (eastOpenSet g size) := by
    ext p
    simp only [eastOpenSet, Finset.mem_filter, Finset.mem_insert, gridFinset,
      Finset.mem_product, Finset.mem_range]
    by_cases h1 : p = (x, y)
    · subst h1
      simp only [true_or, iff_true]
      exact ⟨⟨by omega, hy⟩, hx, ho.east_new⟩
    · rw [ho.east_eq_of_ne p h1]
      simp [h1]
  have hsouth : southOpenSet g' size = southOpenSet g size := by
    ext p
    simp only [southOpenSet, Finset.mem_filter]
    rw [ho.south_eq p]
  have hnotmem : (x, y) ∉ eastOpenSet g size := by
    simp only [eastOpenSet, Finset.mem_filter]
    rintro ⟨-, -, hfl⟩
    rw [hclosed] at hfl
    exact absurd hfl (by simp)
  unfold openPairs
  rw [heast, hsouth, Finset.card_insert_of_not_mem hnotmem]
  omega

end OpenedHoriz

namespace OpenedVert

variable {g g' : Grid} {x y : ℕ}

lemma east_eq (ho : OpenedVert g g' x y) (p : ℕ × ℕ) :
    (wallsAt g' p).east = (wallsAt g p).east := by
  by_cases h1 : p = (x, y)
  · subst h1; rw [ho.curS]
  · by_cases h2 : p = (x, y + 1)
    · subst h2; rw [ho.nxtN]
    · rw [ho.other p h1 h2]

lemma west_eq (ho : OpenedVert g g' x y) (p : ℕ × ℕ) :
    (wallsAt g' p).west = (wallsAt g p).west := by
  by_cases h1 : p = (x, y)
  · subst h1; rw [ho.curS]
  · by_cases h2 : p = (x, y + 1)
    · subst h2; rw [ho.nxtN]
    · rw [ho.other p h1 h2]

lemma south_eq_of_ne (ho : OpenedVert g g' x y) (p : ℕ × ℕ) (h : p ≠ (x, y)) :
    (wallsAt g' p).south = (wallsAt g p).south := by
  by_cases h2 : p = (x, y + 1)
  · subst h2; rw [ho.nxtN]
  · rw [ho.other p h h2]

lemma north_eq_of_ne (ho : OpenedVert g g' x y) (p : ℕ × ℕ)
    (h : p ≠ (x, y + 1)) : (wallsAt g' p).north = (wallsAt g p).north := by
  by_cases h1 : p = (x, y)
  · subst h1; rw [ho.curS]
  · rw [ho.other p h1 h]

lemma south_new (ho : OpenedVert g g' x y) : (wallsAt g' (x, y)).south = false := by
  rw [ho.curS]

lemma north_new (ho : OpenedVert g g' x y) :
    (wallsAt g' (x, y + 1)).north = false := by
  rw [ho.nxtN]

lemma symV (ho : OpenedVert g g' x y) (size : ℕ) (hx : x < size)
    (hy : y + 1 < size) (hsym : SymGrid g size) : SymGrid g' size := by
  intro a b
  constructor
  · intro h1 h2
    rw [ho.east_eq (a, b), ho.west_eq (a + 1, b)]
    exact (hsym a b).1 h1 h2
  · intro h1 h2
    rcases eq_or_ne (a, b) (x, y) with hab | hab
    · obtain ⟨rfl, rfl⟩ : a = x ∧ b = y := by simpa [Prod.ext_iff] using hab
      rw [ho.curS, ho.nxtN]
    · rw [ho.south_eq_of_ne (a, b) hab]
      rcases eq_or_ne ((a : ℕ), b + 1) (x, y + 1) with hn2 | hn2
      · exfalso
        apply hab
        simp only [Prod.ext_iff] at hn2 ⊢
        omega
      · rw [ho.north_eq_of_ne (a, b + 1) hn2]
        exact (hsym a b).2 h1 h2

lemma bdryV (ho : OpenedVert g g' x y) (size : ℕ) (hx : x < size)
    (hy : y + 1 < size) (hb : BoundaryClosed g size) : BoundaryClosed g' size := by
  intro a b ha hb'
  refine ⟨?_, ?_, ?_, ?_⟩
  · intro he
    rw [ho.east_eq (a, b)]
    exact (hb a b ha hb').1 he
  · intro he
    rw [ho.west_eq (a, b)]
    exact (hb a b ha hb').2.1 he
  · intro he
    rw [ho.south_eq_of_ne (a, b) (by intro hc; simp only [Prod.mk.injEq] at hc; omega)]
    exact (hb a b ha hb').2.2.1 he
  · intro he
    rw [ho.north_eq_of_ne (a, b) (by intro hc; simp only [Prod.mk.injEq] at hc; omega)]
    exact (hb a b ha hb').2.2.2 he

lemma south_false_mono (ho : OpenedVert g g' x y) (p : ℕ × ℕ)
    (h : (wallsAt g p).south = false) : (wallsAt g' p).south = false := by
  by_cases h1 : p = (x, y)
  · subst h1; exact ho.south_new
  · rw [ho.south_eq_of_ne p h1]; exact h

lemma north_false_mono (ho : OpenedVert g g' x y) (p : ℕ × ℕ)
    (h : (wallsAt g p).north = false) : (wallsAt g' p).north = false := by
  by_cases h1 : p = (x, y + 1)
  · subst h1; exact ho.north_new
  · rw [ho.north_eq_of_ne p h1]; exact h

lemma openStep_monoV (ho : OpenedVert g g' x y) (p q : ℕ × ℕ)
    (h : openStep g p q) : openStep g' p q := by
  rcases h with ⟨he, h⟩ | ⟨he, h⟩ | ⟨he, h⟩ | ⟨he, h⟩
  · exact Or.inl ⟨he, by rw [ho.east_eq p]; exact h⟩
  · exact Or.inr (Or.inl ⟨he, by rw [ho.west_eq p]; exact h⟩)
  · exact Or.inr (Or.inr (Or.inl ⟨he, ho.south_false_mono p h⟩))
  · exact Or.inr (Or.inr (Or.inr ⟨he, ho.north_false_mono p h⟩))

lemma openStep_casesV (ho : OpenedVert g g' x y) (p q : ℕ × ℕ)
    (h : openStep g' p q) :
    openStep g p q ∨ (p = (x, y) ∧ q = (x, y + 1)) ∨
      (p = (x, y + 1) ∧ q = (x, y)) := by
  rcases h with ⟨he, h⟩ | ⟨he, h⟩ | ⟨he, h⟩ | ⟨he, h⟩
  · rw [ho.east_eq p] at h
    exact Or.inl (Or.inl ⟨he, h⟩)
  · rw [ho.west_eq p] at h
    exact Or.inl (Or.inr (Or.inl ⟨he, h⟩))
  · by_cases h1 : p = (x, y)
    · subst h1
      exact Or.inr (Or.inl ⟨rfl, he⟩)
    · rw [ho.south_eq_of_ne p h1] at h
      exact Or.inl (Or.inr (Or.inr (Or.inl ⟨he, h⟩)))
  · by_cases h1 : p = (x, y + 1)
    · subst h1
      refine Or.inr (Or.inr ⟨rfl, ?_⟩)
      simp only [Prod.ext_iff] at he ⊢
      omega
    · rw [ho.north_eq_of_ne p h1] at h
      exact Or.inl (Or.inr (Or.inr (Or.inr ⟨he, h⟩)))

lemma countV (ho : OpenedVert g g' x y) (size : ℕ) (hx : x < size)
    (hy : y + 1 < size) (hclosed : (wallsAt g (x, y)).south = true) :
    openPairs g' size = openPairs g size + 1 := by
  have hsouth : southOpenSet g' size = insert (x, y) (southOpenSet g size) := by
    ext p
    simp only [southOpenSet, Finset.mem_filter, Finset.mem_insert, gridFinset,
      Finset.mem_product, Finset.mem_range]
    by_cases h1 : p = (x, y)
    · subst h1
      simp only [true_or, iff_true]
      exact ⟨⟨hx, by omega⟩, hy, ho.south_new⟩
    · rw [ho.south_eq_of_ne p h1]
      simp [h1]
  have heast : eastOpenSet g' size = eastOpenSet g size := by
    ext p
    simp only [eastOpenSet, Finset.mem_filter]
    rw [ho.east_eq p]
  have hnotmem : (x, y) ∉ southOpenSet g size := by
    simp only [southOpenSet, Finset.mem_filter]
    rintro ⟨-, -, hfl⟩
    rw [hclosed] at hfl
    exact absurd hfl (by simp)
  unfold openPairs
  rw [heast, hsouth, Finset.card_insert_of_not_mem hnotmem]
  omega

end OpenedVert

/-- The backtracker loop invariant. -/
structure CarveInv (size : ℕ) (st : CarveSt) : Prop where
  wf : WFGrid st.g size
  sym : SymGrid st.g size
  bdry : BoundaryClosed st.g size
  visGrid : ∀ p ∈ st.visited, p.1 < size ∧ p.2 < size
  stackVis : ∀ p ∈ st.stack, p ∈ st.visited
  startVis : (0, 0) ∈ st.visited
  openVis : ∀ p q, openStep st.g p q → p ∈ st.visited
  conn : ∀ p ∈ st.visited, reach st.g p
  count : openPairs st.g size = st.visited.card - 1
  popClosed : ∀ p ∈ st.visited, p ∉ st.stack →
    ∀ q ∈ getNeighbors size p, q ∈ st.visited

lemma carveInv_start (seed : Nat) (size : ℕ) (hsz : 1 ≤ size) :
    CarveInv size (startCarveSt seed size) := by
  have hwalls : ∀ p, wallsAt (startCarveSt seed size).g p = allWalls :=
    wallsAt_initCells size
  refine ⟨wfGrid_initCells size, ?_, ?_, ?_, ?_, ?_, ?_, ?_, ?_, ?_⟩
  · intro a b
    constructor <;> intro _ _ <;> rw [hwalls, hwalls] <;> rfl
  · intro a b _ _
    refine ⟨fun _ => ?_, fun _ => ?_, fun _ => ?_, fun _ => ?_⟩ <;> rw [hwalls] <;> rfl
  · intro p hp
    simp only [startCarveSt, Finset.mem_singleton] at hp
    subst hp
    exact ⟨hsz, hsz⟩
  · intro p hp
    simp only [startCarveSt, List.mem_singleton] at hp
    simp [startCarveSt, hp]
  · simp [startCarveSt]
  · intro p q h
    exfalso
    rcases h with ⟨_, h⟩ | ⟨_, h⟩ | ⟨_, h⟩ | ⟨_, h⟩ <;> rw [hwalls] at h <;>
      simp [allWalls] at h
  · intro p hp
    simp only [startCarveSt, Finset.mem_singleton] at hp
    subst hp
    exact Relation.ReflTransGen.refl
  · have he : eastOpenSet (startCarveSt seed size).g size = ∅ := by
      ext p
      simp only [eastOpenSet, Finset.mem_filter, Finset.not_mem_empty, iff_false]
      rintro ⟨-, -, hfl⟩
      rw [hwalls] at hfl
      simp [allWalls] at hfl
    have hs : southOpenSet (startCarveSt seed size).g size = ∅ := by
      ext p
      simp only [southOpenSet, Finset.mem_filter, Finset.not_mem_empty, iff_false]
      rintro ⟨-, -, hfl⟩
      rw [hwalls] at hfl
      simp [allWalls] at hfl
    show openPairs (startCarveSt seed size).g size =
      ({(0, 0)} : Finset (ℕ × ℕ)).card - 1
    unfold openPairs
    rw [he, hs]
    simp
  · intro p hp hstk
    exfalso
    simp only [startCarveSt, Finset.mem_singleton] at hp
    simp only [startCarveSt, List.mem_singleton] at hstk
    exact hstk hp

lemma carveStep_nil (size : ℕ) (st : CarveSt) (h : st.stack = []) :
    carveStep size st = st := by
  unfold carveStep
  rw [h]

lemma carveStep_cons_pop (size : ℕ) (st : CarveSt) (cur : ℕ × ℕ)
    (rest : List (ℕ × ℕ)) (h : st.stack = cur :: rest)
    (hu : (getNeighbors size cur).filter (fun q => q ∉ st.visited) = []) :
    carveStep size st = { st with stack := rest } := by
  unfold carveStep
  rw [h]
  simp only
  rw [if_pos hu]

lemma carveStep_cons_push (size : ℕ) (st : CarveSt) (cur : ℕ × ℕ)
    (rest : List (ℕ × ℕ)) (h : st.stack = cur :: rest)
    (hu : ¬ (getNeighbors size cur).filter (fun q => q ∉ st.visited) = []) :
    carveStep size st =
      { g := removeWall st.g cur
          (((getNeighbors size cur).filter fun q => q ∉ st.visited).getD
            (nextInt st.rng
              ((getNeighbors size cur).filter fun q => q ∉ st.visited).length).2
            (0, 0)),
        visited := insert
          (((getNeighbors size cur).filter fun q => q ∉ st.visited).getD
            (nextInt st.rng
              ((getNeighbors size cur).filter fun q => q ∉ st.visited).length).2
            (0, 0)) st.visited,
        stack :=
          (((getNeighbors size cur).filter fun q => q ∉ st.visited).getD
            (nextInt st.rng
              ((getNeighbors size cur).filter fun q => q ∉ st.visited).length).2
            (0, 0)) :: st.stack,
        rng := (nextInt st.rng
          ((getNeighbors size cur).filter fun q => q ∉ st.visited).length).1 } := by
  unfold carveStep
  rw [h]
  simp only
  rw [if_neg hu]

lemma carveInv_push (size : ℕ) (st : CarveSt) (cur nxt : ℕ × ℕ) (g' : Grid)
    (rng' : Nat) (inv : CarveInv size st) (hcur : cur ∈ st.stack)
    (hnv : nxt ∉ st.visited) (hng : nxt.1 < size ∧ nxt.2 < size)
    (wf' : WFGrid g' size) (sym' : SymGrid g' size)
    (bdry' : BoundaryClosed g' size)
    (mono : ∀ p q, openStep st.g p q → openStep g' p q)
    (hcases : ∀ p q, openStep g' p q →
      openStep st.g p q ∨ (p = cur ∧ q = nxt) ∨ (p = nxt ∧ q = cur))
    (stepnew : openStep g' cur nxt)
    (count' : openPairs g' size = openPairs st.g size + 1) :
    CarveInv size
      ⟨g', insert nxt st.visited, nxt :: st.stack, rng'⟩ := by
  obtain ⟨wf, sym, bdry, visGrid, stackVis, startVis, openVis, conn, count,
    popClosed⟩ := inv
  have hcv : cur ∈ st.visited := stackVis cur hcur
  have hpos : 0 < st.visited.card := Finset.card_pos.mpr ⟨(0, 0), startVis⟩
  refine ⟨wf', sym', bdry', ?_, ?_, ?_, ?_, ?_, ?_, ?_⟩
  · intro p hp
    rcases Finset.mem_insert.mp hp with rfl | hp
    · exact hng
    · exact visGrid p hp
  · intro p hp
    rcases List.mem_cons.mp hp with rfl | hp
    · exact Finset.mem_insert_self p st.visited
    · exact Finset.mem_insert_of_mem (stackVis p hp)
  · exact Finset.mem_insert_of_mem startVis
  · intro p q h
    rcases hcases p q h with h | ⟨rfl, -⟩ | ⟨rfl, -⟩
    · exact Finset.mem_insert_of_mem (openVis p q h)
    · exact Finset.mem_insert_of_mem hcv
    · exact Finset.mem_insert_self p st.visited
  · intro p hp
    rcases Finset.mem_insert.mp hp with rfl | hp
    · exact Relation.ReflTransGen.tail ((conn cur hcv).mono mono) stepnew
    · exact (conn p hp).mono mono
  · show openPairs g' size = (insert nxt st.visited).card - 1
    rw [count', count, Finset.card_insert_of_not_mem hnv]
    omega
  · intro p hp hnstk
    have hpn : p ≠ nxt := fun hc => hnstk (hc ▸ List.mem_cons_self nxt st.stack)
    have hpv : p ∈ st.visited := by
      rcases Finset.mem_insert.mp hp with rfl | hp
      · exact absurd rfl hpn
      · exact hp
    intro q hq
    exact Finset.mem_insert_of_mem
      (popClosed p hpv (fun hc => hnstk (List.mem_cons_of_mem nxt hc)) q hq)

lemma carveStep_inv (size : ℕ) (st : CarveSt) (inv : CarveInv size st) :
    CarveInv size (carveStep size st) := by
  cases hstk : st.stack with
  | nil =>
    rw [carveStep_nil size st hstk]
    exact inv
  | cons cur rest =>
    by_cases hu : (getNeighbors size cur).filter (fun q => q ∉ st.visited) = []
    · rw [carveStep_cons_pop size st cur rest hstk hu]
      obtain ⟨wf, sym, bdry, visGrid, stackVis, startVis, openVis, conn, count,
        popClosed⟩ := inv
      refine ⟨wf, sym, bdry, visGrid, ?_, startVis, openVis, conn, count, ?_⟩
      · intro p hp
        exact stackVis p (by rw [hstk]; exact List.mem_cons_of_mem cur hp)
      · intro p hp hpr
        simp only at hpr
        by_cases hpc : p = cur
        · subst hpc
          intro q hq
          have h2 := List.filter_eq_nil.mp hu q hq
          simpa using h2
        · intro q hq
          refine popClosed p hp ?_ q hq
          rw [hstk]
          intro hc
          rcases List.mem_cons.mp hc with h | h
          · exact hpc h
          · exact hpr h
    · rw [carveStep_cons_push size st cur rest hstk hu]
      have hlen : 1 ≤ ((getNeighbors size cur).filter
          (fun q => q ∉ st.visited)).length :=
        List.length_pos.mpr hu
      have hidxlt := nextInt_lt st.rng _ hlen
      have hmem : ((getNeighbors size cur).filter fun q => q ∉ st.visited).getD
          (nextInt st.rng ((getNeighbors size cur).filter
            fun q => q ∉ st.visited).length).2 (0, 0) ∈
          (getNeighbors size cur).filter fun q => q ∉ st.visited := by
        rw [List.getD_eq_getElem?_getD, List.getElem?_eq_getElem hidxlt]
        simp only [Option.getD_some]
        exact List.getElem_mem hidxlt
      set nxt := ((getNeighbors size cur).filter fun q => q ∉ st.visited).getD
        (nextInt st.rng ((getNeighbors size cur).filter
          fun q => q ∉ st.visited).length).2 (0, 0) with hnxtdef
      clear_value nxt
      have hcurstk : cur ∈ st.stack := by
        rw [hstk]; exact List.mem_cons_self cur rest
      have hcv : cur ∈ st.visited := inv.stackVis cur hcurstk
      have hcg : cur.1 < size ∧ cur.2 < size := inv.visGrid cur hcv
      have hfull := List.mem_filter.mp hmem
      have hnbr : nxt ∈ getNeighbors size cur := hfull.1
      have hnv : nxt ∉ st.visited := by simpa using hfull.2
      have hng : nxt.1 < size ∧ nxt.2 < size :=
        getNeighbors_in_grid size cur nxt hcg hnbr
      obtain ⟨cx, cy⟩ := cur
      simp only at hcg
      rcases (mem_getNeighbors size (cx, cy) nxt).mp hnbr with
        ⟨hc, he⟩ | ⟨hc, he⟩ | ⟨hc, he⟩ | ⟨hc, he⟩
      · -- north neighbour: nxt = (cx, cy - 1); write cy = y + 1
        simp only at hc he
        obtain ⟨y, rfl⟩ : ∃ y, cy = y + 1 := ⟨cy - 1, by omega⟩
        rw [Nat.add_sub_cancel] at he
        subst he
        have ho := openedVert_of_removeWall_north st.g size cx y inv.wf
          hcg.1 hcg.2
        have hclosed : (wallsAt st.g (cx, y)).south = true := by
          by_contra hcl
          rw [Bool.not_eq_true] at hcl
          exact hnv (inv.openVis (cx, y) (cx, y + 1)
            (Or.inr (Or.inr (Or.inl ⟨rfl, hcl⟩))))
        refine carveInv_push size st (cx, y + 1) (cx, y) _ _ inv hcurstk hnv hng
          (wfGrid_removeWall st.g size _ _ inv.wf hcg.2 (by simp only; omega))
          (ho.symV size hcg.1 hcg.2 inv.sym) (ho.bdryV size hcg.1 hcg.2 inv.bdry)
          ho.openStep_monoV ?_ ?_ (ho.countV size hcg.1 hcg.2 hclosed)
        · intro p q h
          rcases ho.openStep_casesV p q h with h | ⟨h1, h2⟩ | ⟨h1, h2⟩
          · exact Or.inl h
          · exact Or.inr (Or.inr ⟨h1, h2⟩)
          · exact Or.inr (Or.inl ⟨h1, h2⟩)
        · exact Or.inr (Or.inr (Or.inr ⟨rfl, ho.north_new⟩))
      · -- east neighbour: nxt = (cx + 1, cy)
        simp only at hc he
        subst he
        have ho := openedHoriz_of_removeWall_east st.g size cx cy inv.wf hc hcg.2
        have hclosed : (wallsAt st.g (cx, cy)).east = true := by
          by_contra hcl
          rw [Bool.not_eq_true] at hcl
          have hstep : openStep st.g (cx, cy) (cx + 1, cy) := Or.inl ⟨rfl, hcl⟩
          exact hnv (inv.openVis (cx + 1, cy) (cx, cy)
            (openStep_symm st.g size inv.wf inv.sym inv.bdry _ _ hstep))
        refine carveInv_push size st (cx, cy) (cx + 1, cy) _ _ inv hcurstk hnv hng
          (wfGrid_removeWall st.g size _ _ inv.wf hcg.2 (by simp only; omega))
          (ho.symH size hc hcg.2 inv.sym) (ho.bdryH size hc hcg.2 inv.bdry)
          ho.openStep_monoH ?_ ?_ (ho.countH size hc hcg.2 hclosed)
        · intro p q h
          exact ho.openStep_casesH p q h
        · exact Or.inl ⟨rfl, ho.east_new⟩
      · -- south neighbour: nxt = (cx, cy + 1)
        simp only at hc he
        subst he
        have ho := openedVert_of_removeWall_south st.g size cx cy inv.wf hcg.1 hc
        have hclosed : (wallsAt st.g (cx, cy)).south = true := by
          by_contra hcl
          rw [Bool.not_eq_true] at hcl
          have hstep : openStep st.g (cx, cy) (cx, cy + 1) :=
            Or.inr (Or.inr (Or.inl ⟨rfl, hcl⟩))
          exact hnv (inv.openVis (cx, cy + 1) (cx, cy)
            (openStep_symm st.g size inv.wf inv.sym inv.bdry _ _ hstep))
        refine carveInv_push size st (cx, cy) (cx, cy + 1) _ _ inv hcurstk hnv hng
          (wfGrid_removeWall st.g size _ _ inv.wf hcg.2 (by simp only; omega))
          (ho.symV size hcg.1 hc inv.sym) (ho.bdryV size hcg.1 hc inv.bdry)
          ho.openStep_monoV ?_ ?_ (ho.countV size hcg.1 hc hclosed)
        · intro p q h
          exact ho.openStep_casesV p q h
        · exact Or.inr (Or.inr (Or.inl ⟨rfl, ho.south_new⟩))
      · -- west neighbour: nxt = (cx - 1, cy); write cx = x + 1
        simp only at hc he
        obtain ⟨x, rfl⟩ : ∃ x, cx = x + 1 := ⟨cx - 1, by omega⟩
        rw [Nat.add_sub_cancel] at he
        subst he
        have ho := openedHoriz_of_removeWall_west st.g size x cy inv.wf
          hcg.1 hcg.2
        have hclosed : (wallsAt st.g (x, cy)).east = true := by
          by_contra hcl
          rw [Bool.not_eq_true] at hcl
          exact hnv (inv.openVis (x, cy) (x + 1, cy) (Or.inl ⟨rfl, hcl⟩))
        refine carveInv_push size st (x + 1, cy) (x, cy) _ _ inv hcurstk hnv hng
          (wfGrid_removeWall st.g size _ _ inv.wf hcg.2 (by simp only; omega))
          (ho.symH size hcg.1 hcg.2 inv.sym) (ho.bdryH size hcg.1 hcg.2 inv.bdry)
          ho.openStep_monoH ?_ ?_ (ho.countH size hcg.1 hcg.2 hclosed)
        · intro p q h
          rcases ho.openStep_casesH p q h with h | ⟨h1, h2⟩ | ⟨h1, h2⟩
          · exact Or.inl h
          · exact Or.inr (Or.inr ⟨h1, h2⟩)
          · exact Or.inr (Or.inl ⟨h1, h2⟩)
        · exact Or.inr (Or.inl ⟨rfl, ho.west_new⟩)

lemma carveIter_inv (size n : ℕ) (st : CarveSt) (inv : CarveInv size st) :
    CarveInv size ((carveStep size)^[n] st) := by
  induction n generalizing st with
  | zero => exact inv
  | succ n ih =>
    rw [Function.iterate_succ_apply]
    exact ih (carveStep size st) (carveStep_inv size st inv)

lemma runCarve_some (size fuel : ℕ) (st : CarveSt) (g : Grid) (rng : Nat)
    (h : runCarve size fuel st = some (g, rng)) :
    ((carveStep size)^[fuel] st).stack = [] ∧
      ((carveStep size)^[fuel] st).g = g := by
  unfold runCarve at h
  by_cases hc : ((carveStep size)^[fuel] st).stack = []
  · refine ⟨hc, ?_⟩
    rw [if_pos hc] at h
    exact congrArg Prod.fst (Option.some.inj h)
  · rw [if_neg hc] at h
    exact absurd h (by simp)

lemma visited_closure_all (size : ℕ) (V : Finset (ℕ × ℕ)) (h0 : (0, 0) ∈ V)
    (hcl : ∀ p ∈ V, ∀ q ∈ getNeighbors size p, q ∈ V) :
    ∀ x y, x < size → y < size → (x, y) ∈ V := by
  have hx : ∀ x, x < size → (x, 0) ∈ V := by
    intro x
    induction x with
    | zero => intro _; exact h0
    | succ n ih =>
      intro hlt
      refine hcl (n, 0) (ih (by omega)) (n + 1, 0) ?_
      rw [mem_getNeighbors]
      exact Or.inr (Or.inl ⟨by simpa using hlt, rfl⟩)
  intro x y hxlt
  induction y with
  | zero => intro _; exact hx x hxlt
  | succ n ih =>
    intro hlt
    refine hcl (x, n) (ih (by omega)) (x, n + 1) ?_
    rw [mem_getNeighbors]
    exact Or.inr (Or.inr (Or.inl ⟨by simpa using hlt, rfl⟩))

lemma generateMaze_some (seed : Nat) (size k fc fh : ℕ) (m : Maze)
    (h : generateMaze seed size k fc fh = some m) :
    ∃ g rng holes, runCarve size fc (startCarveSt seed size) = some (g, rng) ∧
      runHoles size k g fh (startHoleSt size rng) = some holes ∧
      m = ⟨size, g, holes, ⟨size - 1, size - 1, 0, 0⟩⟩ := by
  unfold generateMaze at h
  cases hc : runCarve size fc (startCarveSt seed size) with
  | none => rw [hc] at h; exact absurd h (by simp)
  | some pr =>
    obtain ⟨g, rng⟩ := pr
    rw [hc] at h
    dsimp only at h
    cases hh : runHoles size k g fh (startHoleSt size rng) with
    | none => rw [hh] at h; exact absurd h (by simp)
    | some holes =>
      rw [hh] at h
      refine ⟨g, rng, holes, rfl, hh, ?_⟩
      exact (Option.some.inj h).symm

/-- Final-state facts of a successful carve: the grid is well formed,
wall-symmetric, boundary-closed, every cell is reachable from `(0,0)`
along open passages, and exactly `size*size - 1` wall pairs are open. -/
lemma carve_final (seed : Nat) (size fuel : ℕ) (g : Grid) (rng : Nat)
    (hsz : 1 ≤ size)
    (h : runCarve size fuel (startCarveSt seed size) = some (g, rng)) :
    WFGrid g size ∧ SymGrid g size ∧ BoundaryClosed g size ∧
      (∀ p : ℕ × ℕ, p.1 < size → p.2 < size → reach g p) ∧
      openPairs g size = size * size - 1 := by
  obtain ⟨hempty, hg⟩ := runCarve_some size fuel _ g rng h
  have inv := carveIter_inv size fuel _ (carveInv_start seed size hsz)
  set st' := (carveStep size)^[fuel] (startCarveSt seed size) with hst'
  have hclosed : ∀ p ∈ st'.visited, ∀ q ∈ getNeighbors size p, q ∈ st'.visited :=
    fun p hp => inv.popClosed p hp (by rw [hempty]; exact List.not_mem_nil p)
  have hall : ∀ x y, x < size → y < size → (x, y) ∈ st'.visited :=
    visited_closure_all size st'.visited inv.startVis hclosed
  have hVeq : st'.visited = gridFinset size := by
    ext p
    simp only [gridFinset, Finset.mem_product, Finset.mem_range]
    exact ⟨fun hp => inv.visGrid p hp, fun hpp => hall p.1 p.2 hpp.1 hpp.2⟩
  have hcard : st'.visited.card = size * size := by
    rw [hVeq]
    simp [gridFinset]
  refine ⟨hg ▸ inv.wf, hg ▸ inv.sym, hg ▸ inv.bdry, ?_, ?_⟩
  · intro p h1 h2
    have hr := inv.conn p (hall p.1 p.2 h1 h2)
    rw [hg] at hr
    exact hr
  · have hcount := inv.count
    rw [hg, hcard] at hcount
    exact hcount

end BallMaze

namespace BallMaze

/-- A placeholder maze for `Option.getD` in concrete witnesses. -/
def emptyMaze : Maze := ⟨0, [], [], ⟨0, 0, 0, 0⟩⟩

end BallMaze

/-- Claim C1: for every seed and every grid size `N ≥ 1` (and any
`holeCount` on which generation terminates), the maze returned by
`generateMaze` is a spanning tree of the `N × N` grid graph: every cell
is reachable from `(0,0)` along open passages (a flood fill from
`(0,0)` visits all `N²` cells), and exactly `N² - 1` wall pairs are
open across the whole grid. -/
theorem C1_spanning_tree (seed : Nat) (size holeCount fc fh : ℕ)
    (m : BallMaze.Maze) (hsz : 1 ≤ size)
    (hgen : BallMaze.generateMaze seed size holeCount fc fh = some m) :
    (∀ p : ℕ × ℕ, p.1 < size → p.2 < size → BallMaze.reach m.cells p) ∧
      BallMaze.openPairs m.cells size = size * size - 1 := by
  obtain ⟨g, rng, holes, hc, hh, rfl⟩ :=
    BallMaze.generateMaze_some seed size holeCount fc fh m hgen
  obtain ⟨-, -, -, hreach, hcount⟩ :=
    BallMaze.carve_final seed size fc g rng hsz hc
  exact ⟨hreach, hcount⟩

/-- Witness for C1: the concrete maze `generateMaze 1 2 0` (2×2 grid,
no holes) has exactly `3 = 2² - 1` open wall pairs and its last cell
`(1,1)` is reachable from the start. -/
theorem C1_spanning_tree_witness :
    BallMaze.openPairs
        ((BallMaze.generateMaze 1 2 0 20 5).getD BallMaze.emptyMaze).cells 2 =
      2 * 2 - 1 ∧
    BallMaze.reach
      ((BallMaze.generateMaze 1 2 0 20 5).getD BallMaze.emptyMaze).cells (1, 1) :=
  ⟨(C1_spanning_tree 1 2 0 20 5 _ (by decide) (by decide)).2,
   (C1_spanning_tree 1 2 0 20 5 _ (by decide) (by decide)).1 (1, 1)
     (by decide) (by decide)⟩

namespace BallMaze

/-! ## Hole-placement loop invariant -/

lemma nextInt_zero (s : Nat) : (nextInt s 0).2 = 0 := by
  unfold nextInt
  simp

lemma nextFloat_mem (s : Nat) (lo hi : ℚ) (hlt : lo < hi) :
    lo ≤ (nextFloat s lo hi).2 ∧ (nextFloat s lo hi).2 < hi := by
  unfold nextFloat
  have h0 := rngNext_val_nonneg s
  have h1 := rngNext_val_lt_one s
  simp only
  constructor
  · nlinarith
  · nlinarith

/-- Branch-free description of `isAdjacentWithoutWall`. -/
lemma isAdjWW_eq (g : Grid) (x1 y1 x2 y2 : ℕ) :
    isAdjacentWithoutWall g x1 y1 x2 y2 =
      if x2 = x1 + 1 ∧ y2 = y1 then !(cellAt g x1 y1).walls.east
      else if x2 + 1 = x1 ∧ y2 = y1 then !(cellAt g x1 y1).walls.west
      else if y2 = y1 + 1 ∧ x2 = x1 then !(cellAt g x1 y1).walls.south
      else if y2 + 1 = y1 ∧ x2 = x1 then !(cellAt g x1 y1).walls.north
      else false := by
  simp only [isAdjacentWithoutWall]
  split_ifs <;> first | rfl | omega

/-- On a wall-symmetric grid, open adjacency of in-grid cells is a
symmetric relation. -/
lemma isAdjWW_symm (g : Grid) (size : ℕ) (sym : SymGrid g size)
    (x1 y1 x2 y2 : ℕ) (h1 : x1 < size ∧ y1 < size) (h2 : x2 < size ∧ y2 < size) :
    isAdjacentWithoutWall g x1 y1 x2 y2 = isAdjacentWithoutWall g x2 y2 x1 y1 := by
  rw [isAdjWW_eq, isAdjWW_eq]
  by_cases hE : x2 = x1 + 1 ∧ y2 = y1
  · obtain ⟨rfl, rfl⟩ := hE
    rw [if_pos ⟨rfl, rfl⟩, if_neg (by omega), if_pos ⟨rfl, rfl⟩]
    have := (sym x1 y2).1 h2.1 h2.2
    rw [show wallsAt g (x1, y2) = (cellAt g x1 y2).walls from rfl,
      show wallsAt g (x1 + 1, y2) = (cellAt g (x1 + 1) y2).walls from rfl] at this
    rw [this]
  · by_cases hW : x2 + 1 = x1 ∧ y2 = y1
    · obtain ⟨hx, rfl⟩ := hW
      subst hx
      rw [if_neg hE, if_pos ⟨rfl, rfl⟩, if_pos ⟨rfl, rfl⟩]
      have := (sym x2 y2).1 h1.1 h2.2
      rw [show wallsAt g (x2, y2) = (cellAt g x2 y2).walls from rfl,
        show wallsAt g (x2 + 1, y2) = (cellAt g (x2 + 1) y2).walls from rfl] at this
      rw [this]
    · by_cases hS : y2 = y1 + 1 ∧ x2 = x1
      · obtain ⟨rfl, rfl⟩ := hS
        rw [if_neg hE, if_neg hW, if_pos ⟨rfl, rfl⟩, if_neg (by omega),
          if_neg (by omega), if_neg (by omega), if_pos ⟨rfl, rfl⟩]
        have := (sym x2 y1).2 h2.2 h2.1
        rw [show wallsAt g (x2, y1) = (cellAt g x2 y1).walls from rfl,
          show wallsAt g (x2, y1 + 1) = (cellAt g x2 (y1 + 1)).walls from rfl] at this
        rw [this]
      · by_cases hN : y2 + 1 = y1 ∧ x2 = x1
        · obtain ⟨hy, rfl⟩ := hN
          subst hy
          rw [if_neg hE, if_neg hW, if_neg hS, if_pos ⟨rfl, rfl⟩,
            if_neg (by omega), if_neg (by omega), if_pos ⟨rfl, rfl⟩]
          have := (sym x2 y2).2 h1.2 h2.1
          rw [show wallsAt g (x2, y2) = (cellAt g x2 y2).walls from rfl,
            show wallsAt g (x2, y2 + 1) = (cellAt g x2 (y2 + 1)).walls from rfl] at this
          rw [this]
        · rw [if_neg hE, if_neg hW, if_neg hS, if_neg hN, if_neg (by omega),
            if_neg (by omega), if_neg (by omega), if_neg (by omega)]

end BallMaze

namespace BallMaze

/-- The hole-placement loop invariant, over the carved grid `g`. -/
structure HoleInv (size k : ℕ) (g : Grid) (st : HoleSt) : Prop where
  nodup : (st.holes.map fun h => ((h.x, h.y) : ℕ × ℕ)).Nodup
  usedSub : ∀ h ∈ st.holes, ((h.x, h.y) : ℕ × ℕ) ∈ st.used
  startUsed : ((0, 0) : ℕ × ℕ) ∈ st.used
  goalUsed : ((size - 1, size - 1) : ℕ × ℕ) ∈ st.used
  notStart : ∀ h ∈ st.holes, ((h.x, h.y) : ℕ × ℕ) ≠ (0, 0)
  notGoal : ∀ h ∈ st.holes, ((h.x, h.y) : ℕ × ℕ) ≠ (size - 1, size - 1)
  inGrid : ∀ h ∈ st.holes, h.x < size ∧ h.y < size
  pairAdj : st.holes.Pairwise fun a b =>
    isAdjacentWithoutWall g a.x a.y b.x b.y = false ∧
    isAdjacentWithoutWall g b.x b.y a.x a.y = false
  offRange : ∀ h ∈ st.holes,
    -(3 : ℚ) / 10 ≤ h.offsetX ∧ h.offsetX < 3 / 10 ∧
    -(3 : ℚ) / 10 ≤ h.offsetY ∧ h.offsetY < 3 / 10
  lenLe : st.holes.length ≤ k

lemma holeInv_start (size k : ℕ) (g : Grid) (rng : Nat) :
    HoleInv size k g (startHoleSt size rng) := by
  refine ⟨by simp [startHoleSt], by simp [startHoleSt], ?_, ?_,
    by simp [startHoleSt], by simp [startHoleSt], by simp [startHoleSt],
    by simp [startHoleSt], by simp [startHoleSt], by simp [startHoleSt]⟩
  · simp [startHoleSt]
  · simp [startHoleSt]

lemma holeStep_done (size k : ℕ) (g : Grid) (st : HoleSt)
    (h : k ≤ st.holes.length) : holeStep size k g st = st := by
  unfold holeStep
  rw [if_pos h]

lemma holeStep_not_done (size k : ℕ) (g : Grid) (st : HoleSt)
    (h : ¬ k ≤ st.holes.length) :
    holeStep size k g st =
      (if ((nextInt st.rng size).2, (nextInt (nextInt st.rng size).1 size).2) ∈ st.used then
        { st with rng := (nextInt (nextInt st.rng size).1 size).1 }
      else if st.holes.any fun hh =>
          isAdjacentWithoutWall g (nextInt st.rng size).2
            (nextInt (nextInt st.rng size).1 size).2 hh.x hh.y then
        { st with rng := (nextInt (nextInt st.rng size).1 size).1 }
      else
        { holes := st.holes ++
            [⟨(nextInt st.rng size).2, (nextInt (nextInt st.rng size).1 size).2,
              (nextFloat (nextInt (nextInt st.rng size).1 size).1
                (-(3 : ℚ) / 10) ((3 : ℚ) / 10)).2,
              (nextFloat (nextFloat (nextInt (nextInt st.rng size).1 size).1
                (-(3 : ℚ) / 10) ((3 : ℚ) / 10)).1 (-(3 : ℚ) / 10) ((3 : ℚ) / 10)).2⟩],
          used := insert ((nextInt st.rng size).2,
            (nextInt (nextInt st.rng size).1 size).2) st.used,
          rng := (nextFloat (nextFloat (nextInt (nextInt st.rng size).1 size).1
            (-(3 : ℚ) / 10) ((3 : ℚ) / 10)).1 (-(3 : ℚ) / 10) ((3 : ℚ) / 10)).1 }) := by
  unfold holeStep
  rw [if_neg h]

lemma holeStep_inv (size k : ℕ) (g : Grid) (st : HoleSt)
    (sym : SymGrid g size) (inv : HoleInv size k g st) :
    HoleInv size k g (holeStep size k g st) := by
  by_cases hdone : k ≤ st.holes.length
  · rw [holeStep_done size k g st hdone]
    exact inv
  · rw [holeStep_not_done size k g st hdone]
    set x := (nextInt st.rng size).2 with hxdef
    set y := (nextInt (nextInt st.rng size).1 size).2 with hydef
    by_cases hused : ((x, y) : ℕ × ℕ) ∈ st.used
    · rw [if_pos hused]
      exact ⟨inv.nodup, inv.usedSub, inv.startUsed, inv.goalUsed, inv.notStart,
        inv.notGoal, inv.inGrid, inv.pairAdj, inv.offRange, inv.lenLe⟩
    · rw [if_neg hused]
      by_cases hadj : (st.holes.any fun hh => isAdjacentWithoutWall g x y hh.x hh.y) = true
      · rw [if_pos hadj]
        exact ⟨inv.nodup, inv.usedSub, inv.startUsed, inv.goalUsed, inv.notStart,
          inv.notGoal, inv.inGrid, inv.pairAdj, inv.offRange, inv.lenLe⟩
      · rw [if_neg hadj]
        have hszpos : 1 ≤ size := by
          by_contra hsz
          have hsz0 : size = 0 := by omega
          apply hused
          subst hsz0
          have hx0 : x = 0 := by rw [hxdef]; exact nextInt_zero _
          have hy0 : y = 0 := by rw [hydef]; exact nextInt_zero _
          rw [hx0, hy0]
          exact inv.startUsed
        have hxlt : x < size := hxdef ▸ nextInt_lt _ _ hszpos
        have hylt : y < size := hydef ▸ nextInt_lt _ _ hszpos
        have hnoadj : ∀ hh ∈ st.holes,
            isAdjacentWithoutWall g x y hh.x hh.y = false := by
          intro hh hmem
          rcases Bool.eq_false_or_eq_true (isAdjacentWithoutWall g x y hh.x hh.y)
            with ht | hf
          · exact absurd (List.any_eq_true.mpr ⟨hh, hmem, ht⟩) hadj
          · exact hf
        have hnotold : ∀ hh ∈ st.holes, ¬(((hh.x, hh.y) : ℕ × ℕ) = (x, y)) := by
          intro hh hmem hc
          exact hused (hc ▸ inv.usedSub hh hmem)
        have hoff1 := nextFloat_mem (nextInt (nextInt st.rng size).1 size).1
          (-(3 : ℚ) / 10) ((3 : ℚ) / 10) (by norm_num)
        have hoff2 := nextFloat_mem
          (nextFloat (nextInt (nextInt st.rng size).1 size).1
            (-(3 : ℚ) / 10) ((3 : ℚ) / 10)).1
          (-(3 : ℚ) / 10) ((3 : ℚ) / 10) (by norm_num)
        refine ⟨?_, ?_, ?_, ?_, ?_, ?_, ?_, ?_, ?_, ?_⟩
        · rw [List.map_append, List.nodup_append]
          refine ⟨inv.nodup, by simp, ?_⟩
          intro p hp
          simp only [List.mem_map] at hp
          obtain ⟨hh, hmem, rfl⟩ := hp
          simp only [List.map_cons, List.map_nil, List.mem_singleton]
          exact hnotold hh hmem
        · intro hh hmem
          rcases List.mem_append.mp hmem with hmem | hmem
          · exact Finset.mem_insert_of_mem (inv.usedSub hh hmem)
          · simp only [List.mem_singleton] at hmem
            subst hmem
            exact Finset.mem_insert_self _ _
        · exact Finset.mem_insert_of_mem inv.startUsed
        · exact Finset.mem_insert_of_mem inv.goalUsed
        · intro hh hmem
          rcases List.mem_append.mp hmem with hmem | hmem
          · exact inv.notStart hh hmem
          · simp only [List.mem_singleton] at hmem
            subst hmem
            intro hc
            exact hused (hc ▸ inv.startUsed)
        · intro hh hmem
          rcases List.mem_append.mp hmem with hmem | hmem
          · exact inv.notGoal hh hmem
          · simp only [List.mem_singleton] at hmem
            subst hmem
            intro hc
            exact hused (hc ▸ inv.goalUsed)
        · intro hh hmem
          rcases List.mem_append.mp hmem with hmem | hmem
          · exact inv.inGrid hh hmem
          · simp only [List.mem_singleton] at hmem
            subst hmem
            exact ⟨hxlt, hylt⟩
        · rw [List.pairwise_append]
          refine ⟨inv.pairAdj, by simp, ?_⟩
          intro a hmem b hb
          simp only [List.mem_singleton] at hb
          subst hb
          refine ⟨?_, hnoadj a hmem⟩
          rw [isAdjWW_symm g size sym a.x a.y x y (inv.inGrid a hmem) ⟨hxlt, hylt⟩]
          exact hnoadj a hmem
        · intro hh hmem
          rcases List.mem_append.mp hmem with hmem | hmem
          · exact inv.offRange hh hmem
          · simp only [List.mem_singleton] at hmem
            subst hmem
            exact ⟨hoff1.1, hoff1.2, hoff2.1, hoff2.2⟩
        · rw [List.length_append]
          simp only [List.length_singleton]
          omega

lemma holeIter_inv (size k : ℕ) (g : Grid) (n : ℕ) (st : HoleSt)
    (sym : SymGrid g size) (inv : HoleInv size k g st) :
    HoleInv size k g ((holeStep size k g)^[n] st) := by
  induction n generalizing st with
  | zero => exact inv
  | succ n ih =>
    rw [Function.iterate_succ_apply]
    exact ih (holeStep size k g st) (holeStep_inv size k g st sym inv)

lemma runHoles_some (size k : ℕ) (g : Grid) (fuel : ℕ) (st : HoleSt)
    (holes : List Hole) (h : runHoles size k g fuel st = some holes) :
    holes = ((holeStep size k g)^[fuel] st).holes ∧
      k ≤ ((holeStep size k g)^[fuel] st).holes.length := by
  unfold runHoles at h
  by_cases hc : k ≤ ((holeStep size k g)^[fuel] st).holes.length
  · rw [if_pos hc] at h
    exact ⟨(Option.some.inj h).symm, hc⟩
  · rw [if_neg hc] at h
    exact absurd h (by simp)

end BallMaze

/-- C4: whenever `generateMaze(seed, size, holeCount)` terminates, the maze
has exactly `holeCount` holes, on pairwise distinct cells, none at the start
`(0,0)` or the goal `(size-1,size-1)`, and no two holes sit on cells joined
by an open passage (adjacent without a wall), in either orientation. -/
theorem C4_hole_constraints (seed : Nat) (size k fc fh : ℕ) (m : BallMaze.Maze)
    (h : BallMaze.generateMaze seed size k fc fh = some m) :
    m.holes.length = k ∧
    (m.holes.map fun hl => ((hl.x, hl.y) : ℕ × ℕ)).Nodup ∧
    (∀ hl ∈ m.holes, ((hl.x, hl.y) : ℕ × ℕ) ≠ (0, 0) ∧
      ((hl.x, hl.y) : ℕ × ℕ) ≠ (size - 1, size - 1)) ∧
    m.holes.Pairwise (fun a b =>
      BallMaze.isAdjacentWithoutWall m.cells a.x a.y b.x b.y = false ∧
      BallMaze.isAdjacentWithoutWall m.cells b.x b.y a.x a.y = false) := by
  obtain ⟨g, rng, holes, hcarve, hholes, hm⟩ :=
    BallMaze.generateMaze_some seed size k fc fh m h
  subst hm
  dsimp only
  have sym : BallMaze.SymGrid g size := by
    rcases Nat.eq_zero_or_pos size with hsz | hsz
    · intro x y
      subst hsz
      exact ⟨fun h1 => absurd h1 (by omega), fun h1 => absurd h1 (by omega)⟩
    · exact (BallMaze.carve_final seed size fc g rng hsz hcarve).2.1
  have inv := BallMaze.holeIter_inv size k g fh (BallMaze.startHoleSt size rng) sym
    (BallMaze.holeInv_start size k g rng)
  obtain ⟨heq, hlen⟩ := BallMaze.runHoles_some size k g fh _ holes hholes
  subst heq
  exact ⟨le_antisymm inv.lenLe hlen, inv.nodup,
    fun hl hmem => ⟨inv.notStart hl hmem, inv.notGoal hl hmem⟩, inv.pairAdj⟩

/-- Witness for C4: the concrete maze `generateMaze 5 3 2` (3×3 grid, two
holes) satisfies every hole constraint. -/
theorem C4_hole_constraints_witness :
    ((BallMaze.generateMaze 5 3 2 19 10).getD BallMaze.emptyMaze).holes.length = 2 ∧
    (((BallMaze.generateMaze 5 3 2 19 10).getD BallMaze.emptyMaze).holes.map
      fun hl => ((hl.x, hl.y) : ℕ × ℕ)).Nodup ∧
    (∀ hl ∈ ((BallMaze.generateMaze 5 3 2 19 10).getD BallMaze.emptyMaze).holes,
      ((hl.x, hl.y) : ℕ × ℕ) ≠ (0, 0) ∧
      ((hl.x, hl.y) : ℕ × ℕ) ≠ (3 - 1, 3 - 1)) ∧
    ((BallMaze.generateMaze 5 3 2 19 10).getD BallMaze.emptyMaze).holes.Pairwise
      (fun a b =>
        BallMaze.isAdjacentWithoutWall
          ((BallMaze.generateMaze 5 3 2 19 10).getD BallMaze.emptyMaze).cells
          a.x a.y b.x b.y = false ∧
        BallMaze.isAdjacentWithoutWall
          ((BallMaze.generateMaze 5 3 2 19 10).getD BallMaze.emptyMaze).cells
          b.x b.y a.x a.y = false) :=
  C4_hole_constraints 5 3 2 19 10 _ (by decide)

namespace BallMaze

/-- The hazard test never reads a hole's offsets: rewriting every hole's
offsets leaves `checkHazards` unchanged. -/
lemma checkHazards_setHoleOffsets (f : Hole → ℚ × ℚ) (m : Maze) (cfg : Config)
    (cs : ℚ) (b : Ball) :
    checkHazards (setHoleOffsets f m) cfg cs b = checkHazards m cfg cs b := by
  simp only [checkHazards]
  rw [show goalCenter (setHoleOffsets f m) cs = goalCenter m cs from rfl]
  rw [show (setHoleOffsets f m).holes = m.holes.map (fun h =>
    { h with offsetX := (f h).1, offsetY := (f h).2 }) from rfl]
  rw [List.find?_map]
  rw [show ((fun h => decide (sqrtLt
        (dist2 b.x b.y (holeCenter h cs).1 (holeCenter h cs).2)
        (cs * cfg.HOLE_RADIUS_FRAC))) ∘ fun h =>
      ({ h with offsetX := (f h).1, offsetY := (f h).2 } : Hole)) =
    (fun h => decide (sqrtLt
        (dist2 b.x b.y (holeCenter h cs).1 (holeCenter h cs).2)
        (cs * cfg.HOLE_RADIUS_FRAC))) from rfl]
  cases m.holes.find? fun h =>
      decide (sqrtLt (dist2 b.x b.y (holeCenter h cs).1 (holeCenter h cs).2)
        (cs * cfg.HOLE_RADIUS_FRAC)) with
  | none => rfl
  | some hh => rfl

end BallMaze

/-- C9 (amended): every hole placed by `generateMaze` does carry per-axis
sub-cell offsets drawn by `nextFloat(-0.3, 0.3)` — they lie in
`[-0.3, 0.3)` — but the offsets do NOT determine the hazard's collision
centre: `updateBall`'s entire result (ball and outcome) is invariant under
rewriting all hole offsets arbitrarily, because hazard detection measures
the distance to the plain cell centre `((x+0.5)·cs, (y+0.5)·cs)`. -/
theorem C9_offsets_amended (seed : Nat) (size k fc fh : ℕ) (m : BallMaze.Maze)
    (h : BallMaze.generateMaze seed size k fc fh = some m) :
    (∀ hl ∈ m.holes,
      -(3 : ℚ) / 10 ≤ hl.offsetX ∧ hl.offsetX < 3 / 10 ∧
      -(3 : ℚ) / 10 ≤ hl.offsetY ∧ hl.offsetY < 3 / 10) ∧
    (∀ (f : BallMaze.Hole → ℚ × ℚ) (rsqrt : ℚ → ℚ) (cfg : BallMaze.Config)
      (cs dt : ℚ) (b : BallMaze.Ball) (input : BallMaze.InputState),
      BallMaze.updateBall rsqrt (BallMaze.setHoleOffsets f m) cfg cs dt b input =
        BallMaze.updateBall rsqrt m cfg cs dt b input) := by
  constructor
  · obtain ⟨g, rng, holes, hcarve, hholes, hm⟩ :=
      BallMaze.generateMaze_some seed size k fc fh m h
    subst hm
    dsimp only
    have sym : BallMaze.SymGrid g size := by
      rcases Nat.eq_zero_or_pos size with hsz | hsz
      · intro x y
        subst hsz
        exact ⟨fun h1 => absurd h1 (by omega), fun h1 => absurd h1 (by omega)⟩
      · exact (BallMaze.carve_final seed size fc g rng hsz hcarve).2.1
    have inv := BallMaze.holeIter_inv size k g fh (BallMaze.startHoleSt size rng)
      sym (BallMaze.holeInv_start size k g rng)
    obtain ⟨heq, hlen⟩ := BallMaze.runHoles_some size k g fh _ holes hholes
    subst heq
    exact inv.offRange
  · intro f rsqrt cfg cs dt b input
    simp only [BallMaze.updateBall]
    rw [show BallMaze.collide rsqrt (BallMaze.setHoleOffsets f m) cfg cs dt b input =
      BallMaze.collide rsqrt m cfg cs dt b input from rfl]
    rw [BallMaze.checkHazards_setHoleOffsets]

/-- Witness for C9 (amended): in the concrete maze `generateMaze 5 3 2`,
every hole offset lies in `[-0.3, 0.3)`, and zeroing all offsets leaves a
concrete `updateBall` call's result unchanged. -/
theorem C9_offsets_amended_witness :
    (∀ hl ∈ ((BallMaze.generateMaze 5 3 2 19 10).getD BallMaze.emptyMaze).holes,
      -(3 : ℚ) / 10 ≤ hl.offsetX ∧ hl.offsetX < 3 / 10 ∧
      -(3 : ℚ) / 10 ≤ hl.offsetY ∧ hl.offsetY < 3 / 10) ∧
    BallMaze.updateBall BallMaze.ratSqrt
        (BallMaze.setHoleOffsets (fun _ => (0, 0))
          ((BallMaze.generateMaze 5 3 2 19 10).getD BallMaze.emptyMaze))
        BallMaze.testConfig 100 (1 / 10) ⟨150, 150, 0, 0⟩ ⟨0, 0⟩ =
      BallMaze.updateBall BallMaze.ratSqrt
        ((BallMaze.generateMaze 5 3 2 19 10).getD BallMaze.emptyMaze)
        BallMaze.testConfig 100 (1 / 10) ⟨150, 150, 0, 0⟩ ⟨0, 0⟩ :=
  ⟨(C9_offsets_amended 5 3 2 19 10 _ (by decide)).1,
   (C9_offsets_amended 5 3 2 19 10 _ (by decide)).2 (fun _ => (0, 0))
     BallMaze.ratSqrt BallMaze.testConfig 100 (1 / 10) ⟨150, 150, 0, 0⟩ ⟨0, 0⟩⟩

namespace BallMaze

/-- A set of cells that could simultaneously hold holes: in the grid,
avoiding start and goal, and pairwise not adjacent through an open
wall. -/
def admissibleSet (g : Grid) (size : ℕ) (S : Finset (ℕ × ℕ)) : Prop :=
  S ⊆ gridFinset size ∧ ((0, 0) : ℕ × ℕ) ∉ S ∧
    ((size - 1, size - 1) : ℕ × ℕ) ∉ S ∧
    ∀ p ∈ S, ∀ q ∈ S, p ≠ q → isAdjacentWithoutWall g p.1 p.2 q.1 q.2 = false

instance (g : Grid) (size : ℕ) : DecidablePred (admissibleSet g size) := by
  unfold admissibleSet
  infer_instance

/-- The largest number of holes placeable at once under the constraints. -/
def maxPlaceable (g : Grid) (size : ℕ) : ℕ :=
  ((gridFinset size).powerset.filter (admissibleSet g size)).sup Finset.card

/-- The placed holes always form an admissible set of cells of
cardinality `holes.length`. -/
lemma holeInv_admissible (size k : ℕ) (g : Grid) (st : HoleSt)
    (inv : HoleInv size k g st) :
    admissibleSet g size (st.holes.map fun h => ((h.x, h.y) : ℕ × ℕ)).toFinset ∧
      (st.holes.map fun h => ((h.x, h.y) : ℕ × ℕ)).toFinset.card =
        st.holes.length := by
  have hsymR : Symmetric fun (a b : Hole) =>
      isAdjacentWithoutWall g a.x a.y b.x b.y = false ∧
      isAdjacentWithoutWall g b.x b.y a.x a.y = false :=
    fun a b hab => ⟨hab.2, hab.1⟩
  refine ⟨⟨?_, ?_, ?_, ?_⟩, ?_⟩
  · intro p hp
    simp only [List.mem_toFinset, List.mem_map] at hp
    obtain ⟨hl, hmem, rfl⟩ := hp
    simp only [gridFinset, Finset.mem_product, Finset.mem_range]
    exact inv.inGrid hl hmem
  · intro hc
    simp only [List.mem_toFinset, List.mem_map] at hc
    obtain ⟨hl, hmem, heq⟩ := hc
    exact inv.notStart hl hmem heq
  · intro hc
    simp only [List.mem_toFinset, List.mem_map] at hc
    obtain ⟨hl, hmem, heq⟩ := hc
    exact inv.notGoal hl hmem heq
  · intro p hp q hq hne
    simp only [List.mem_toFinset, List.mem_map] at hp hq
    obtain ⟨a, hamem, rfl⟩ := hp
    obtain ⟨b, hbmem, rfl⟩ := hq
    have hab : a ≠ b := by
      intro hc
      exact hne (by rw [hc])
    exact (inv.pairAdj.forall hsymR hamem hbmem hab).1
  · rw [List.toFinset_card_of_nodup inv.nodup, List.length_map]

end BallMaze

/-- C8: if `holeCount` exceeds the number of cells simultaneously
placeable under the constraints, the hole-placement loop never
terminates: for every fuel bound, `generateMaze` fails to finish. -/
theorem C8_nontermination (seed : Nat) (size k fc : ℕ) (g : BallMaze.Grid)
    (rng : Nat)
    (hcarve : BallMaze.runCarve size fc (BallMaze.startCarveSt seed size) =
      some (g, rng))
    (hinf : BallMaze.maxPlaceable g size < k) :
    ∀ fh, BallMaze.generateMaze seed size k fc fh = none := by
  intro fh
  unfold BallMaze.generateMaze
  rw [hcarve]
  dsimp only
  cases hrh : BallMaze.runHoles size k g fh (BallMaze.startHoleSt size rng) with
  | none => rfl
  | some holes =>
    exfalso
    have sym : BallMaze.SymGrid g size := by
      rcases Nat.eq_zero_or_pos size with hsz | hsz
      · intro x y
        subst hsz
        exact ⟨fun h1 => absurd h1 (by omega), fun h1 => absurd h1 (by omega)⟩
      · exact (BallMaze.carve_final seed size fc g rng hsz hcarve).2.1
    have inv := BallMaze.holeIter_inv size k g fh (BallMaze.startHoleSt size rng)
      sym (BallMaze.holeInv_start size k g rng)
    obtain ⟨heq, hlen⟩ := BallMaze.runHoles_some size k g fh _ holes hrh
    obtain ⟨hadm, hcard⟩ := BallMaze.holeInv_admissible size k g _ inv
    have hmemf :
        (((BallMaze.holeStep size k g)^[fh]
            (BallMaze.startHoleSt size rng)).holes.map
          fun h => ((h.x, h.y) : ℕ × ℕ)).toFinset ∈
          (BallMaze.gridFinset size).powerset.filter
            (BallMaze.admissibleSet g size) := by
      rw [Finset.mem_filter, Finset.mem_powerset]
      exact ⟨hadm.1, hadm⟩
    have hle :
        (((BallMaze.holeStep size k g)^[fh]
            (BallMaze.startHoleSt size rng)).holes.map
          fun h => ((h.x, h.y) : ℕ × ℕ)).toFinset.card ≤
          ((BallMaze.gridFinset size).powerset.filter
            (BallMaze.admissibleSet g size)).sup Finset.card :=
      Finset.le_sup hmemf
    have hle2 : (((BallMaze.holeStep size k g)^[fh]
        (BallMaze.startHoleSt size rng)).holes.map
          fun h => ((h.x, h.y) : ℕ × ℕ)).toFinset.card ≤
        BallMaze.maxPlaceable g size := hle
    omega

/-- Witness for C8: a 1×1 maze admits no hole at all (`maxPlaceable = 0`),
so requesting one hole never terminates; concretely, `generateMaze 0 1 1`
with hole fuel 7 yields no maze. -/
theorem C8_nontermination_witness :
    BallMaze.runCarve 1 2 (BallMaze.startCarveSt 0 1) =
      some (BallMaze.initCells 1, 0) ∧
    BallMaze.maxPlaceable (BallMaze.initCells 1) 1 < 1 ∧
    BallMaze.generateMaze 0 1 1 2 7 = none :=
  ⟨by decide, by decide,
   C8_nontermination 0 1 1 2 (BallMaze.initCells 1) 0 (by decide) (by decide) 7⟩

namespace BallMaze

lemma auxAbsLe (a c d : ℚ) (h : a * a + c * c ≤ d * d) (hd : 0 ≤ d) :
    -d ≤ a ∧ a ≤ d := by
  constructor
  · nlinarith [mul_self_nonneg (a + d), mul_self_nonneg c]
  · nlinarith [mul_self_nonneg (a - d), mul_self_nonneg c]

lemma auxNegRatio (q d v : ℚ) (h : q * d = v) (hv : v < 0) (hd : 0 < d) :
    q ≤ 0 := by nlinarith

lemma auxMulRange (s r : ℚ) (h1 : -1 ≤ s) (h2 : s ≤ 1) (hr : 0 ≤ r) :
    -r ≤ s * r ∧ s * r ≤ r := by
  constructor <;> nlinarith

lemma auxMulNonpos (s c : ℚ) (h : s ≤ 0) (hc : 0 ≤ c) : s * c ≤ 0 := by
  nlinarith

lemma auxOneLeMul (u c v : ℚ) (h : u * c = v) (h1 : 1 ≤ u) (hc : 0 < c) :
    c ≤ v := by
  nlinarith

set_option maxHeartbeats 1000000 in
lemma processNorth_bounds (rsqrt : ℚ → ℚ) (cs r cX wY S : ℚ) (w : Bool)
    (b : Ball) (hsq : IsSqrtUB rsqrt) (hcs : 0 < cs) (hr0 : 0 ≤ r)
    (h2r : 2 * r ≤ cs)
    (hcX0 : cX = 0 ∨ cs ≤ cX) (hcXu : cX + cs = S ∨ cX + cs ≤ S - cs)
    (hwY0 : wY = 0 ∨ cs ≤ wY) (hwYu : wY = S ∨ wY ≤ S - cs)
    (hb1 : r ≤ b.x) (hb2 : b.x + r ≤ S) (hb3 : r ≤ b.y) (hb4 : b.y + r ≤ S) :
    r ≤ (processNorth rsqrt cs r cX wY w b).x ∧
      (processNorth rsqrt cs r cX wY w b).x + r ≤ S ∧
      r ≤ (processNorth rsqrt cs r cX wY w b).y ∧
      (processNorth rsqrt cs r cX wY w b).y + r ≤ S := by
  have hcs' : cs ≠ 0 := ne_of_gt hcs
  cases w with
  | false => exact ⟨hb1, hb2, hb3, hb4⟩
  | true =>
    unfold processNorth
    generalize hE : circleLineCollision rsqrt b.x b.y r cX wY (cX + cs) wY = p
    obtain ⟨cf, no⟩ := p
    cases cf with
    | false => cases no <;> exact ⟨hb1, hb2, hb3, hb4⟩
    | true =>
      cases no with
      | none => exact ⟨hb1, hb2, hb3, hb4⟩
      | some nxy =>
        obtain ⟨nx, ny⟩ := nxy
        dsimp only
        rw [if_pos (show true = true from rfl)]
        have hdxe : cX + cs - cX = cs := by ring
        have hdye : wY - wY = (0 : ℚ) := by ring
        have hdive : (b.x - cX) * cs / (cs * cs) = (b.x - cX) / cs := by
          rw [div_eq_div_iff (mul_ne_zero hcs' hcs') hcs']
          ring
        simp only [circleLineCollision] at hE
        rw [hdxe, hdye] at hE
        simp only [mul_zero, zero_mul, add_zero] at hE
        rw [hdive] at hE
        rw [if_neg (show ¬(cs * cs = 0) from mul_ne_zero hcs' hcs')] at hE
        rw [hdxe, hdye]
        simp only [mul_zero, zero_mul, add_zero]
        rw [hdive]
        simp only [pow_two]
        set u := (b.x - cX) / cs with hu
        set t := (0 : ℚ) ⊔ 1 ⊓ u with ht
        set dX := b.x - (cX + t * cs) with hdX
        set dY := b.y - wY with hdY
        set D := rsqrt (dX * dX + dY * dY) with hD
        clear_value u t dX dY D
        by_cases hds : dX * dX + dY * dY ≤ r * r
        · rw [if_pos hds] at hE
          simp only [Prod.mk.injEq, Option.some.injEq] at hE
          obtain ⟨-, hnx, hny⟩ := hE
          subst hnx
          subst hny
          by_cases hDpos : D > 0
          · simp only [if_pos hDpos]
            by_cases hov : r - D > 0
            · rw [if_pos hov]
              dsimp only
              set ρ := dX / D with hρ
              set σ := dY / D with hσ
              clear_value ρ σ
              have hrD : D < r := by linarith only [hov]
              have hrpos : 0 < r := lt_trans hDpos hrD
              have hub := hsq (dX * dX + dY * dY)
              rw [← hD] at hub
              have hub2 : dX * dX + dY * dY ≤ D * D := by
                have h := hub.2
                rw [pow_two] at h
                exact h
              have hD0 : 0 ≤ D := le_of_lt hDpos
              have habsX := auxAbsLe dX dY D hub2 hD0
              have habsY := auxAbsLe dY dX D (by linarith only [hub2]) hD0
              have hρD : ρ * D = dX := by
                rw [hρ]
                exact div_mul_cancel₀ dX (ne_of_gt hDpos)
              have hσD : σ * D = dY := by
                rw [hσ]
                exact div_mul_cancel₀ dY (ne_of_gt hDpos)
              have hρ1 : -1 ≤ ρ := by
                rw [hρ, le_div_iff hDpos]
                linarith only [habsX.1]
              have hρ2 : ρ ≤ 1 := by
                rw [hρ, div_le_one hDpos]
                exact habsX.2
              have hσ1 : -1 ≤ σ := by
                rw [hσ, le_div_iff hDpos]
                linarith only [habsY.1]
              have hσ2 : σ ≤ 1 := by
                rw [hσ, div_le_one hDpos]
                exact habsY.2
              have hucs : u * cs = b.x - cX := by
                rw [hu]
                exact div_mul_cancel₀ _ hcs'
              have hyb : r ≤ b.y + σ * (r - D) ∧ b.y + σ * (r - D) + r ≤ S := by
                have hwlo : cs ≤ wY := by
                  rcases hwY0 with h | h
                  · exfalso
                    have hdY0 : dY = b.y := by rw [hdY, h]; ring
                    linarith only [habsY.2, hdY0, hb3, hrD]
                  · exact h
                have hwhi : wY ≤ S - cs := by
                  rcases hwYu with h | h
                  · exfalso
                    have hdYS : dY = b.y - S := by rw [hdY, h]
                    linarith only [habsY.1, hdYS, hb4, hrD]
                  · exact h
                have hmr := auxMulRange σ r hσ1 hσ2 hr0
                have heq : b.y + σ * (r - D) = wY + σ * r := by
                  have hby : b.y = wY + σ * D := by rw [hσD, hdY]; ring
                  rw [hby]
                  ring
                rw [heq]
                constructor
                · linarith only [hmr.1, hwlo, h2r]
                · linarith only [hmr.2, hwhi, h2r]
              have hxb : r ≤ b.x + ρ * (r - D) ∧ b.x + ρ * (r - D) + r ≤ S := by
                rcases le_total u 0 with hu0 | hu0
                · have ht0 : t = 0 := by
                    rw [ht, inf_eq_right.mpr (le_trans hu0 zero_le_one),
                      sup_eq_left.mpr hu0]
                  have hdXeq : dX = b.x - cX := by rw [hdX, ht0]; ring
                  rcases lt_trichotomy dX 0 with hneg | hzero | hpos
                  · have hbxcX : b.x < cX := by linarith only [hdXeq, hneg]
                    have hcXcs : cs ≤ cX := by
                      rcases hcX0 with h | h
                      · exfalso
                        rw [h] at hbxcX
                        linarith only [hbxcX, hb1, hr0]
                      · exact h
                    have hcXS : cX + cs ≤ S := by
                      rcases hcXu with h | h
                      · exact le_of_eq h
                      · linarith only [h, hcs]
                    have hbx : b.x = cX + ρ * D := by rw [hρD, hdXeq]; ring
                    have hρ0 : ρ ≤ 0 := auxNegRatio ρ D dX hρD hneg hDpos
                    have hmr := auxMulRange ρ r hρ1 hρ2 hr0
                    have hmp : ρ * r ≤ 0 := auxMulNonpos ρ r hρ0 hr0
                    have heq : b.x + ρ * (r - D) = cX + ρ * r := by rw [hbx]; ring
                    rw [heq]
                    constructor
                    · linarith only [hmr.1, hcXcs, h2r]
                    · linarith only [hmp, hcXS, h2r, hr0]
                  · have hρz : ρ = 0 := by rw [hρ, hzero, zero_div]
                    rw [hρz]
                    constructor
                    · linarith only [hb1]
                    · linarith only [hb2]
                  · exfalso
                    have hle : u * cs ≤ 0 := auxMulNonpos u cs hu0 (le_of_lt hcs)
                    linarith only [hle, hucs, hdXeq, hpos]
                · rcases le_total u 1 with hu1 | hu1
                  · have htu : t = u := by
                      rw [ht, inf_eq_right.mpr hu1, sup_eq_right.mpr hu0]
                    have hdX0 : dX = 0 := by rw [hdX, htu, hucs]; ring
                    have hρz : ρ = 0 := by rw [hρ, hdX0, zero_div]
                    rw [hρz]
                    constructor
                    · linarith only [hb1]
                    · linarith only [hb2]
                  · have ht1 : t = 1 := by
                      rw [ht, inf_eq_left.mpr hu1, sup_eq_right.mpr zero_le_one]
                    have hdXeq : dX = b.x - (cX + cs) := by rw [hdX, ht1]; ring
                    have hcsv : cs ≤ b.x - cX := auxOneLeMul u cs (b.x - cX) hucs hu1 hcs
                    rcases lt_trichotomy dX 0 with hneg | hzero | hpos
                    · exfalso
                      linarith only [hdXeq, hneg, hcsv]
                    · have hρz : ρ = 0 := by rw [hρ, hzero, zero_div]
                      rw [hρz]
                      constructor
                      · linarith only [hb1]
                      · linarith only [hb2]
                    · have hbxgt : cX + cs < b.x := by linarith only [hdXeq, hpos]
                      have hcXS2 : cX + cs ≤ S - cs := by
                        rcases hcXu with h | h
                        · exfalso
                          rw [h] at hbxgt
                          linarith only [hbxgt, hb2, hrpos]
                        · exact h
                      have hcX0' : 0 ≤ cX := by
                        rcases hcX0 with h | h
                        · exact le_of_eq h.symm
                        · linarith only [h, hcs]
                      have hbx : b.x = (cX + cs) + ρ * D := by rw [hρD, hdXeq]; ring
                      have hρnn : 0 ≤ ρ := by
                        rw [hρ]
                        exact div_nonneg (le_of_lt hpos) hD0
                      have hmr := auxMulRange ρ r hρ1 hρ2 hr0
                      have hl : 0 ≤ ρ * r := mul_nonneg hρnn hr0
                      have heq : b.x + ρ * (r - D) = (cX + cs) + ρ * r := by
                        rw [hbx]
                        ring
                      rw [heq]
                      constructor
                      · linarith only [hl, hcX0', h2r, hcs, hr0]
                      · linarith only [hmr.2, hcXS2, h2r]
              exact ⟨hxb.1, hxb.2, hyb.1, hyb.2⟩
            · rw [if_neg hov]
              exact ⟨hb1, hb2, hb3, hb4⟩
          · simp only [if_neg hDpos, zero_mul, add_zero]
            by_cases hov : r - D > 0
            · rw [if_pos hov]
              exact ⟨hb1, hb2, hb3, hb4⟩
            · rw [if_neg hov]
              exact ⟨hb1, hb2, hb3, hb4⟩
        · rw [if_neg hds] at hE
          exact absurd hE (by simp)

end BallMaze

namespace BallMaze

set_option maxHeartbeats 1000000 in
lemma processWest_bounds (rsqrt : ℚ → ℚ) (cs r wX cY S : ℚ) (w : Bool)
    (b : Ball) (hsq : IsSqrtUB rsqrt) (hcs : 0 < cs) (hr0 : 0 ≤ r)
    (h2r : 2 * r ≤ cs)
    (hwX0 : wX = 0 ∨ cs ≤ wX) (hwXu : wX = S ∨ wX ≤ S - cs)
    (hcY0 : cY = 0 ∨ cs ≤ cY) (hcYu : cY + cs = S ∨ cY + cs ≤ S - cs)
    (hb1 : r ≤ b.x) (hb2 : b.x + r ≤ S) (hb3 : r ≤ b.y) (hb4 : b.y + r ≤ S) :
    r ≤ (processWest rsqrt cs r wX cY w b).x ∧
      (processWest rsqrt cs r wX cY w b).x + r ≤ S ∧
      r ≤ (processWest rsqrt cs r wX cY w b).y ∧
      (processWest rsqrt cs r wX cY w b).y + r ≤ S := by
  have hcs' : cs ≠ 0 := ne_of_gt hcs
  cases w with
  | false => exact ⟨hb1, hb2, hb3, hb4⟩
  | true =>
    unfold processWest
    generalize hE : circleLineCollision rsqrt b.x b.y r wX cY wX (cY + cs) = p
    obtain ⟨cf, no⟩ := p
    cases cf with
    | false => cases no <;> exact ⟨hb1, hb2, hb3, hb4⟩
    | true =>
      cases no with
      | none => exact ⟨hb1, hb2, hb3, hb4⟩
      | some nxy =>
        obtain ⟨nx, ny⟩ := nxy
        dsimp only
        rw [if_pos (show true = true from rfl)]
        have hdxe : wX - wX = (0 : ℚ) := by ring
        have hdye : cY + cs - cY = cs := by ring
        have hdive : (b.y - cY) * cs / (cs * cs) = (b.y - cY) / cs := by
          rw [div_eq_div_iff (mul_ne_zero hcs' hcs') hcs']
          ring
        simp only [circleLineCollision] at hE
        rw [hdxe, hdye] at hE
        simp only [mul_zero, zero_mul, add_zero, zero_add] at hE
        rw [hdive] at hE
        rw [if_neg (show ¬(cs * cs = 0) from mul_ne_zero hcs' hcs')] at hE
        rw [hdxe, hdye]
        simp only [mul_zero, zero_mul, add_zero, zero_add]
        rw [hdive]
        simp only [pow_two]
        set u := (b.y - cY) / cs with hu
        set t := (0 : ℚ) ⊔ 1 ⊓ u with ht
        set dY := b.y - (cY + t * cs) with hdY
        set dX := b.x - wX with hdX
        set D := rsqrt (dX * dX + dY * dY) with hD
        clear_value u t dX dY D
        by_cases hds : dX * dX + dY * dY ≤ r * r
        · rw [if_pos hds] at hE
          simp only [Prod.mk.injEq, Option.some.injEq] at hE
          obtain ⟨-, hnx, hny⟩ := hE
          subst hnx
          subst hny
          by_cases hDpos : D > 0
          · simp only [if_pos hDpos]
            by_cases hov : r - D > 0
            · rw [if_pos hov]
              dsimp only
              set ρ := dX / D with hρ
              set σ := dY / D with hσ
              clear_value ρ σ
              have hrD : D < r := by linarith only [hov]
              have hrpos : 0 < r := lt_trans hDpos hrD
              have hub := hsq (dX * dX + dY * dY)
              rw [← hD] at hub
              have hub2 : dX * dX + dY * dY ≤ D * D := by
                have h := hub.2
                rw [pow_two] at h
                exact h
              have hD0 : 0 ≤ D := le_of_lt hDpos
              have habsX := auxAbsLe dX dY D hub2 hD0
              have habsY := auxAbsLe dY dX D (by linarith only [hub2]) hD0
              have hρD : ρ * D = dX := by
                rw [hρ]
                exact div_mul_cancel₀ dX (ne_of_gt hDpos)
              have hσD : σ * D = dY := by
                rw [hσ]
                exact div_mul_cancel₀ dY (ne_of_gt hDpos)
              have hρ1 : -1 ≤ ρ := by
                rw [hρ, le_div_iff hDpos]
                linarith only [habsX.1]
              have hρ2 : ρ ≤ 1 := by
                rw [hρ, div_le_one hDpos]
                exact habsX.2
              have hσ1 : -1 ≤ σ := by
                rw [hσ, le_div_iff hDpos]
                linarith only [habsY.1]
              have hσ2 : σ ≤ 1 := by
                rw [hσ, div_le_one hDpos]
                exact habsY.2
              have hucs : u * cs = b.y - cY := by
                rw [hu]
                exact div_mul_cancel₀ _ hcs'
              have hxb : r ≤ b.x + ρ * (r - D) ∧ b.x + ρ * (r - D) + r ≤ S := by
                have hwlo : cs ≤ wX := by
                  rcases hwX0 with h | h
                  · exfalso
                    have hdX0 : dX = b.x := by rw [hdX, h]; ring
                    linarith only [habsX.2, hdX0, hb1, hrD]
                  · exact h
                have hwhi : wX ≤ S - cs := by
                  rcases hwXu with h | h
                  · exfalso
                    have hdXS : dX = b.x - S := by rw [hdX, h]
                    linarith only [habsX.1, hdXS, hb2, hrD]
                  · exact h
                have hmr := auxMulRange ρ r hρ1 hρ2 hr0
                have heq : b.x + ρ * (r - D) = wX + ρ * r := by
                  have hbx : b.x = wX + ρ * D := by rw [hρD, hdX]; ring
                  rw [hbx]
                  ring
                rw [heq]
                constructor
                · linarith only [hmr.1, hwlo, h2r]
                · linarith only [hmr.2, hwhi, h2r]
              have hyb : r ≤ b.y + σ * (r - D) ∧ b.y + σ * (r - D) + r ≤ S := by
                rcases le_total u 0 with hu0 | hu0
                · have ht0 : t = 0 := by
                    rw [ht, inf_eq_right.mpr (le_trans hu0 zero_le_one),
                      sup_eq_left.mpr hu0]
                  have hdYeq : dY = b.y - cY := by rw [hdY, ht0]; ring
                  rcases lt_trichotomy dY 0 with hneg | hzero | hpos
                  · have hbycY : b.y < cY := by linarith only [hdYeq, hneg]
                    have hcYcs : cs ≤ cY := by
                      rcases hcY0 with h | h
                      · exfalso
                        rw [h] at hbycY
                        linarith only [hbycY, hb3, hr0]
                      · exact h
                    have hcYS : cY + cs ≤ S := by
                      rcases hcYu with h | h
                      · exact le_of_eq h
                      · linarith only [h, hcs]
                    have hby : b.y = cY + σ * D := by rw [hσD, hdYeq]; ring
                    have hσ0 : σ ≤ 0 := auxNegRatio σ D dY hσD hneg hDpos
                    have hmr := auxMulRange σ r hσ1 hσ2 hr0
                    have hmp : σ * r ≤ 0 := auxMulNonpos σ r hσ0 hr0
                    have heq : b.y + σ * (r - D) = cY + σ * r := by rw [hby]; ring
                    rw [heq]
                    constructor
                    · linarith only [hmr.1, hcYcs, h2r]
                    · linarith only [hmp, hcYS, h2r, hr0]
                  · have hσz : σ = 0 := by rw [hσ, hzero, zero_div]
                    rw [hσz]
                    constructor
                    · linarith only [hb3]
                    · linarith only [hb4]
                  · exfalso
                    have hle : u * cs ≤ 0 := auxMulNonpos u cs hu0 (le_of_lt hcs)
                    linarith only [hle, hucs, hdYeq, hpos]
                · rcases le_total u 1 with hu1 | hu1
                  · have htu : t = u := by
                      rw [ht, inf_eq_right.mpr hu1, sup_eq_right.mpr hu0]
                    have hdY0 : dY = 0 := by rw [hdY, htu, hucs]; ring
                    have hσz : σ = 0 := by rw [hσ, hdY0, zero_div]
                    rw [hσz]
                    constructor
                    · linarith only [hb3]
                    · linarith only [hb4]
                  · have ht1 : t = 1 := by
                      rw [ht, inf_eq_left.mpr hu1, sup_eq_right.mpr zero_le_one]
                    have hdYeq : dY = b.y - (cY + cs) := by rw [hdY, ht1]; ring
                    have hcsv : cs ≤ b.y - cY := auxOneLeMul u cs (b.y - cY) hucs hu1 hcs
                    rcases lt_trichotomy dY 0 with hneg | hzero | hpos
                    · exfalso
                      linarith only [hdYeq, hneg, hcsv]
                    · have hσz : σ = 0 := by rw [hσ, hzero, zero_div]
                      rw [hσz]
                      constructor
                      · linarith only [hb3]
                      · linarith only [hb4]
                    · have hbygt : cY + cs < b.y := by linarith only [hdYeq, hpos]
                      have hcYS2 : cY + cs ≤ S - cs := by
                        rcases hcYu with h | h
                        · exfalso
                          rw [h] at hbygt
                          linarith only [hbygt, hb4, hrpos]
                        · exact h
                      have hcY0' : 0 ≤ cY := by
                        rcases hcY0 with h | h
                        · exact le_of_eq h.symm
                        · linarith only [h, hcs]
                      have hby : b.y = (cY + cs) + σ * D := by rw [hσD, hdYeq]; ring
                      have hσnn : 0 ≤ σ := by
                        rw [hσ]
                        exact div_nonneg (le_of_lt hpos) hD0
                      have hmr := auxMulRange σ r hσ1 hσ2 hr0
                      have hl : 0 ≤ σ * r := mul_nonneg hσnn hr0
                      have heq : b.y + σ * (r - D) = (cY + cs) + σ * r := by
                        rw [hby]
                        ring
                      rw [heq]
                      constructor
                      · linarith only [hl, hcY0', h2r, hcs, hr0]
                      · linarith only [hmr.2, hcYS2, h2r]
              exact ⟨hxb.1, hxb.2, hyb.1, hyb.2⟩
            · rw [if_neg hov]
              exact ⟨hb1, hb2, hb3, hb4⟩
          · simp only [if_neg hDpos, zero_mul, add_zero]
            by_cases hov : r - D > 0
            · rw [if_pos hov]
              exact ⟨hb1, hb2, hb3, hb4⟩
            · rw [if_neg hov]
              exact ⟨hb1, hb2, hb3, hb4⟩
        · rw [if_neg hds] at hE
          exact absurd hE (by simp)

end BallMaze

namespace BallMaze

lemma processSouth_eq (rsqrt : ℚ → ℚ) (cs r cX cY : ℚ) (w : Bool) (b : Ball) :
    processSouth rsqrt cs r cX cY w b = processNorth rsqrt cs r cX (cY + cs) w b := rfl

lemma processEast_eq (rsqrt : ℚ → ℚ) (cs r cX cY : ℚ) (w : Bool) (b : Ball) :
    processEast rsqrt cs r cX cY w b = processWest rsqrt cs r (cX + cs) cY w b := rfl

lemma processCell_bounds (rsqrt : ℚ → ℚ) (g : Grid) (size : ℕ) (cs r : ℚ)
    (cp : ℤ × ℤ) (b : Ball) (hsq : IsSqrtUB rsqrt) (hcs : 0 < cs) (hr0 : 0 ≤ r)
    (h2r : 2 * r ≤ cs) (hx0 : 0 ≤ cp.1) (hx1 : cp.1 ≤ (size : ℤ) - 1)
    (hy0 : 0 ≤ cp.2) (hy1 : cp.2 ≤ (size : ℤ) - 1)
    (hb1 : r ≤ b.x) (hb2 : b.x + r ≤ (size : ℚ) * cs)
    (hb3 : r ≤ b.y) (hb4 : b.y + r ≤ (size : ℚ) * cs) :
    r ≤ (processCell rsqrt g cs r cp b).x ∧
      (processCell rsqrt g cs r cp b).x + r ≤ (size : ℚ) * cs ∧
      r ≤ (processCell rsqrt g cs r cp b).y ∧
      (processCell rsqrt g cs r cp b).y + r ≤ (size : ℚ) * cs := by
  have hc1 : (0 : ℚ) ≤ (cp.1 : ℚ) := by exact_mod_cast hx0
  have hc2 : (cp.1 : ℚ) ≤ (size : ℚ) - 1 := by exact_mod_cast hx1
  have hc3 : (0 : ℚ) ≤ (cp.2 : ℚ) := by exact_mod_cast hy0
  have hc4 : (cp.2 : ℚ) ≤ (size : ℚ) - 1 := by exact_mod_cast hy1
  have hA3 : 0 ≤ (cp.1 : ℚ) * cs := mul_nonneg hc1 (le_of_lt hcs)
  have hA4 : (cp.1 : ℚ) * cs ≤ (size : ℚ) * cs - cs := by nlinarith
  have hB3 : 0 ≤ (cp.2 : ℚ) * cs := mul_nonneg hc3 (le_of_lt hcs)
  have hB4 : (cp.2 : ℚ) * cs ≤ (size : ℚ) * cs - cs := by nlinarith
  have hA1 : (cp.1 : ℚ) * cs = 0 ∨ cs ≤ (cp.1 : ℚ) * cs := by
    rcases show cp.1 = 0 ∨ 1 ≤ cp.1 by omega with h | h
    · left
      rw [h]
      norm_num
    · right
      have h1 : (1 : ℚ) ≤ (cp.1 : ℚ) := by exact_mod_cast h
      nlinarith
  have hA2 : (cp.1 : ℚ) * cs + cs = (size : ℚ) * cs ∨
      (cp.1 : ℚ) * cs + cs ≤ (size : ℚ) * cs - cs := by
    rcases show cp.1 + 1 = (size : ℤ) ∨ cp.1 + 1 ≤ (size : ℤ) - 1 by omega with h | h
    · left
      have h1 : (cp.1 : ℚ) + 1 = (size : ℚ) := by exact_mod_cast h
      linear_combination cs * h1
    · right
      have h1 : (cp.1 : ℚ) + 1 ≤ (size : ℚ) - 1 := by exact_mod_cast h
      nlinarith
  have hB1 : (cp.2 : ℚ) * cs = 0 ∨ cs ≤ (cp.2 : ℚ) * cs := by
    rcases show cp.2 = 0 ∨ 1 ≤ cp.2 by omega with h | h
    · left
      rw [h]
      norm_num
    · right
      have h1 : (1 : ℚ) ≤ (cp.2 : ℚ) := by exact_mod_cast h
      nlinarith
  have hB2 : (cp.2 : ℚ) * cs + cs = (size : ℚ) * cs ∨
      (cp.2 : ℚ) * cs + cs ≤ (size : ℚ) * cs - cs := by
    rcases show cp.2 + 1 = (size : ℤ) ∨ cp.2 + 1 ≤ (size : ℤ) - 1 by omega with h | h
    · left
      have h1 : (cp.2 : ℚ) + 1 = (size : ℚ) := by exact_mod_cast h
      linear_combination cs * h1
    · right
      have h1 : (cp.2 : ℚ) + 1 ≤ (size : ℚ) - 1 := by exact_mod_cast h
      nlinarith
  simp only [processCell]
  rw [processSouth_eq, processEast_eq]
  obtain ⟨p1, p2, p3, p4⟩ := processNorth_bounds rsqrt cs r ((cp.1 : ℚ) * cs)
    ((cp.2 : ℚ) * cs) ((size : ℚ) * cs)
    (cellAt g cp.1.toNat cp.2.toNat).walls.north b hsq hcs hr0 h2r
    hA1 hA2 hB1 (Or.inr hB4) hb1 hb2 hb3 hb4
  obtain ⟨q1, q2, q3, q4⟩ := processNorth_bounds rsqrt cs r ((cp.1 : ℚ) * cs)
    ((cp.2 : ℚ) * cs + cs) ((size : ℚ) * cs)
    (cellAt g cp.1.toNat cp.2.toNat).walls.south _ hsq hcs hr0 h2r
    hA1 hA2 (Or.inr (by linarith)) hB2 p1 p2 p3 p4
  obtain ⟨s1, s2, s3, s4⟩ := processWest_bounds rsqrt cs r ((cp.1 : ℚ) * cs)
    ((cp.2 : ℚ) * cs) ((size : ℚ) * cs)
    (cellAt g cp.1.toNat cp.2.toNat).walls.west _ hsq hcs hr0 h2r
    hA1 (Or.inr hA4) hB1 hB2 q1 q2 q3 q4
  exact processWest_bounds rsqrt cs r ((cp.1 : ℚ) * cs + cs)
    ((cp.2 : ℚ) * cs) ((size : ℚ) * cs)
    (cellAt g cp.1.toNat cp.2.toNat).walls.east _ hsq hcs hr0 h2r
    (Or.inr (by linarith)) hA2 hB1 hB2 s1 s2 s3 s4

lemma foldl_preserves {α β : Type} (P : α → Prop) (f : α → β → α) :
    ∀ (l : List β) (a : α), P a → (∀ x ∈ l, ∀ y, P y → P (f y x)) →
      P (l.foldl f a)
  | [], _, ha, _ => ha
  | c :: rest, a, ha, h => by
    rw [List.foldl_cons]
    exact foldl_preserves P f rest (f a c) (h c (List.mem_cons_self c rest) a ha)
      fun x hx y hy => h x (List.mem_cons_of_mem c hx) y hy

lemma mem_intsFromTo (lo hi m : ℤ) (h : m ∈ intsFromTo lo hi) :
    lo ≤ m ∧ m < hi := by
  unfold intsFromTo at h
  simp only [List.mem_map, List.mem_range] at h
  obtain ⟨i, hi', rfl⟩ := h
  omega

set_option maxHeartbeats 1000000 in
lemma penPass_bounds (rsqrt : ℚ → ℚ) (g : Grid) (size : ℕ) (cs r : ℚ)
    (b : Ball) (hsq : IsSqrtUB rsqrt) (hcs : 0 < cs) (hr0 : 0 ≤ r)
    (h2r : 2 * r ≤ cs)
    (hb1 : r ≤ b.x) (hb2 : b.x + r ≤ (size : ℚ) * cs)
    (hb3 : r ≤ b.y) (hb4 : b.y + r ≤ (size : ℚ) * cs) :
    r ≤ (penPass rsqrt g size cs r b).x ∧
      (penPass rsqrt g size cs r b).x + r ≤ (size : ℚ) * cs ∧
      r ≤ (penPass rsqrt g size cs r b).y ∧
      (penPass rsqrt g size cs r b).y + r ≤ (size : ℚ) * cs := by
  simp only [penPass]
  refine foldl_preserves
    (fun bb => r ≤ bb.x ∧ bb.x + r ≤ (size : ℚ) * cs ∧
      r ≤ bb.y ∧ bb.y + r ≤ (size : ℚ) * cs)
    (fun bb cp => processCell rsqrt g cs r cp bb)
    ((intsFromTo (max 0 ⌊(b.y - r) / cs⌋)
        (min ((size : ℤ) - 1) ⌊(b.y + r) / cs⌋ + 1)).flatMap fun cy =>
      (intsFromTo (max 0 ⌊(b.x - r) / cs⌋)
        (min ((size : ℤ) - 1) ⌊(b.x + r) / cs⌋ + 1)).map fun cx => (cx, cy))
    b ⟨hb1, hb2, hb3, hb4⟩ ?_
  intro cp hcp bb hbb
  simp only [List.mem_flatMap, List.mem_map] at hcp
  obtain ⟨cy, hcy, cx, hcx, rfl⟩ := hcp
  obtain ⟨hcy1, hcy2⟩ := mem_intsFromTo _ _ _ hcy
  obtain ⟨hcx1, hcx2⟩ := mem_intsFromTo _ _ _ hcx
  exact processCell_bounds rsqrt g size cs r (cx, cy) bb hsq hcs hr0 h2r
    (le_trans (le_max_left 0 _) hcx1)
    (le_trans (Int.lt_add_one_iff.mp hcx2) (min_le_left _ _))
    (le_trans (le_max_left 0 _) hcy1)
    (le_trans (Int.lt_add_one_iff.mp hcy2) (min_le_left _ _))
    hbb.1 hbb.2.1 hbb.2.2.1 hbb.2.2.2

end BallMaze

namespace BallMaze

lemma clampBounds_bounds (size : ℕ) (cs r : ℚ) (b : Ball)
    (h2S : 2 * r ≤ (size : ℚ) * cs) :
    r ≤ (clampBounds size cs r b).x ∧
      (clampBounds size cs r b).x + r ≤ (size : ℚ) * cs ∧
      r ≤ (clampBounds size cs r b).y ∧
      (clampBounds size cs r b).y + r ≤ (size : ℚ) * cs := by
  simp only [clampBounds]
  by_cases c1 : b.x - r < 0
  · rw [if_pos c1]
    dsimp only
    rw [if_neg (show ¬(r + r > (size : ℚ) * cs) by linarith)]
    by_cases c3 : b.y - r < 0
    · rw [if_pos c3]
      dsimp only
      rw [if_neg (show ¬(r + r > (size : ℚ) * cs) by linarith)]
      refine ⟨?_, ?_, ?_, ?_⟩ <;> dsimp only <;> linarith
    · rw [if_neg c3]
      by_cases c4 : b.y + r > (size : ℚ) * cs
      · rw [if_pos c4]
        refine ⟨?_, ?_, ?_, ?_⟩ <;> dsimp only <;> linarith
      · rw [if_neg c4]
        refine ⟨?_, ?_, ?_, ?_⟩ <;> dsimp only <;> linarith
  · rw [if_neg c1]
    by_cases c2 : b.x + r > (size : ℚ) * cs
    · rw [if_pos c2]
      dsimp only
      by_cases c3 : b.y - r < 0
      · rw [if_pos c3]
        dsimp only
        rw [if_neg (show ¬(r + r > (size : ℚ) * cs) by linarith)]
        refine ⟨?_, ?_, ?_, ?_⟩ <;> dsimp only <;> linarith
      · rw [if_neg c3]
        by_cases c4 : b.y + r > (size : ℚ) * cs
        · rw [if_pos c4]
          refine ⟨?_, ?_, ?_, ?_⟩ <;> dsimp only <;> linarith
        · rw [if_neg c4]
          refine ⟨?_, ?_, ?_, ?_⟩ <;> dsimp only <;> linarith
    · rw [if_neg c2]
      by_cases c3 : b.y - r < 0
      · rw [if_pos c3]
        dsimp only
        rw [if_neg (show ¬(r + r > (size : ℚ) * cs) by linarith)]
        refine ⟨?_, ?_, ?_, ?_⟩ <;> dsimp only <;> linarith
      · rw [if_neg c3]
        by_cases c4 : b.y + r > (size : ℚ) * cs
        · rw [if_pos c4]
          refine ⟨?_, ?_, ?_, ?_⟩ <;> dsimp only <;> linarith
        · rw [if_neg c4]
          refine ⟨?_, ?_, ?_, ?_⟩ <;> dsimp only <;> linarith

lemma clampBounds_post (size : ℕ) (cs r : ℚ) (b : Ball)
    (h2S : 2 * r ≤ (size : ℚ) * cs) :
    (b.x - r < 0 →
      (clampBounds size cs r b).x = r ∧ (clampBounds size cs r b).vx = 0) ∧
    (b.x + r > (size : ℚ) * cs →
      (clampBounds size cs r b).x = (size : ℚ) * cs - r ∧
        (clampBounds size cs r b).vx = 0) ∧
    (b.y - r < 0 →
      (clampBounds size cs r b).y = r ∧ (clampBounds size cs r b).vy = 0) ∧
    (b.y + r > (size : ℚ) * cs →
      (clampBounds size cs r b).y = (size : ℚ) * cs - r ∧
        (clampBounds size cs r b).vy = 0) := by
  simp only [clampBounds]
  by_cases c1 : b.x - r < 0
  · rw [if_pos c1]
    dsimp only
    rw [if_neg (show ¬(r + r > (size : ℚ) * cs) by linarith)]
    by_cases c3 : b.y - r < 0
    · rw [if_pos c3]
      dsimp only
      rw [if_neg (show ¬(r + r > (size : ℚ) * cs) by linarith)]
      refine ⟨fun h => ⟨?_, ?_⟩, fun h => ⟨?_, ?_⟩, fun h => ⟨?_, ?_⟩,
        fun h => ⟨?_, ?_⟩⟩ <;> dsimp only <;> first | rfl | linarith
    · rw [if_neg c3]
      by_cases c4 : b.y + r > (size : ℚ) * cs
      · rw [if_pos c4]
        refine ⟨fun h => ⟨?_, ?_⟩, fun h => ⟨?_, ?_⟩, fun h => ⟨?_, ?_⟩,
          fun h => ⟨?_, ?_⟩⟩ <;> dsimp only <;> first | rfl | linarith
      · rw [if_neg c4]
        refine ⟨fun h => ⟨?_, ?_⟩, fun h => ⟨?_, ?_⟩, fun h => ⟨?_, ?_⟩,
          fun h => ⟨?_, ?_⟩⟩ <;> dsimp only <;> first | rfl | linarith
  · rw [if_neg c1]
    by_cases c2 : b.x + r > (size : ℚ) * cs
    · rw [if_pos c2]
      dsimp only
      by_cases c3 : b.y - r < 0
      · rw [if_pos c3]
        dsimp only
        rw [if_neg (show ¬(r + r > (size : ℚ) * cs) by linarith)]
        refine ⟨fun h => ⟨?_, ?_⟩, fun h => ⟨?_, ?_⟩, fun h => ⟨?_, ?_⟩,
          fun h => ⟨?_, ?_⟩⟩ <;> dsimp only <;> first | rfl | linarith
      · rw [if_neg c3]
        by_cases c4 : b.y + r > (size : ℚ) * cs
        · rw [if_pos c4]
          refine ⟨fun h => ⟨?_, ?_⟩, fun h => ⟨?_, ?_⟩, fun h => ⟨?_, ?_⟩,
            fun h => ⟨?_, ?_⟩⟩ <;> dsimp only <;> first | rfl | linarith
        · rw [if_neg c4]
          refine ⟨fun h => ⟨?_, ?_⟩, fun h => ⟨?_, ?_⟩, fun h => ⟨?_, ?_⟩,
            fun h => ⟨?_, ?_⟩⟩ <;> dsimp only <;> first | rfl | linarith
    · rw [if_neg c2]
      by_cases c3 : b.y - r < 0
      · rw [if_pos c3]
        dsimp only
        rw [if_neg (show ¬(r + r > (size : ℚ) * cs) by linarith)]
        refine ⟨fun h => ⟨?_, ?_⟩, fun h => ⟨?_, ?_⟩, fun h => ⟨?_, ?_⟩,
          fun h => ⟨?_, ?_⟩⟩ <;> dsimp only <;> first | rfl | linarith
      · rw [if_neg c3]
        by_cases c4 : b.y + r > (size : ℚ) * cs
        · rw [if_pos c4]
          refine ⟨fun h => ⟨?_, ?_⟩, fun h => ⟨?_, ?_⟩, fun h => ⟨?_, ?_⟩,
            fun h => ⟨?_, ?_⟩⟩ <;> dsimp only <;> first | rfl | linarith
        · rw [if_neg c4]
          refine ⟨fun h => ⟨?_, ?_⟩, fun h => ⟨?_, ?_⟩, fun h => ⟨?_, ?_⟩,
            fun h => ⟨?_, ?_⟩⟩ <;> dsimp only <;> first | rfl | linarith

end BallMaze

namespace BallMaze

lemma isSqrtUB_ratSqrt : IsSqrtUB ratSqrt := by
  intro q
  simp only [ratSqrt]
  split_ifs with h0 hps
  · exact ⟨le_rfl, by nlinarith⟩
  · obtain ⟨hn, hd⟩ := hps
    have hq : 0 < q := lt_of_not_le h0
    have hdnz : isqrt q.den ≠ 0 := by
      intro hz
      rw [hz] at hd
      simp only [Nat.zero_mul] at hd
      have := q.pos
      omega
    have hisd : (0 : ℚ) < (isqrt q.den : ℚ) := by
      exact_mod_cast Nat.pos_of_ne_zero hdnz
    constructor
    · exact div_nonneg (Nat.cast_nonneg _) (le_of_lt hisd)
    · have hnum : ((isqrt q.num.toNat : ℚ)) ^ 2 = (q.num.toNat : ℚ) := by
        rw [pow_two]
        exact_mod_cast hn
      have hden : ((isqrt q.den : ℚ)) ^ 2 = (q.den : ℚ) := by
        rw [pow_two]
        exact_mod_cast hd
      have hsq2 : ((isqrt q.num.toNat : ℚ) / (isqrt q.den : ℚ)) ^ 2 =
          (q.num.toNat : ℚ) / (q.den : ℚ) := by
        rw [div_pow, hnum, hden]
      rw [hsq2]
      have hnumq : ((q.num.toNat : ℚ)) = ((q.num : ℤ) : ℚ) := by
        exact_mod_cast Int.toNat_of_nonneg (le_of_lt (Rat.num_pos.mpr hq))
      rw [hnumq, Rat.num_div_den]
  · have hq : 0 < q := lt_of_not_le h0
    have hdq : (0 : ℚ) < (q.den : ℚ) := by exact_mod_cast q.pos
    constructor
    · positivity
    · have hN0 : (0 : ℚ) ≤ (q.num.toNat : ℚ) := Nat.cast_nonneg _
      have hNnum : ((q.num.toNat : ℚ)) = ((q.num : ℤ) : ℚ) := by
        exact_mod_cast Int.toNat_of_nonneg (le_of_lt (Rat.num_pos.mpr hq))
      have hqe : q = (q.num.toNat : ℚ) / (q.den : ℚ) := by
        rw [hNnum, Rat.num_div_den]
      have hcast : ((q.num.toNat * q.den + 1 : ℕ) : ℚ) =
          (q.num.toNat : ℚ) * (q.den : ℚ) + 1 := by
        push_cast
        ring
      rw [hcast, div_pow,
        le_div_iff (show (0 : ℚ) < ((q.den : ℚ)) ^ 2 by positivity)]
      nth_rewrite 1 [show q = (q.num.toNat : ℚ) / (q.den : ℚ) from hqe]
      have hgl : ((q.num.toNat : ℚ) / (q.den : ℚ)) * ((q.den : ℚ)) ^ 2 =
          (q.num.toNat : ℚ) * (q.den : ℚ) := by
        rw [pow_two, ← mul_assoc, div_mul_cancel₀ _ (ne_of_gt hdq)]
      rw [hgl]
      nlinarith [hN0, hdq,
        mul_nonneg (mul_nonneg hN0 hN0)
          (mul_nonneg (le_of_lt hdq) (le_of_lt hdq)),
        mul_nonneg hN0 (le_of_lt hdq)]

end BallMaze

namespace BallMaze

lemma collide_eq (rsqrt : ℚ → ℚ) (m : Maze) (cfg : Config) (cs dt : ℚ)
    (b : Ball) (input : InputState) :
    collide rsqrt m cfg cs dt b input =
      penPass rsqrt m.cells m.size cs (cs * cfg.BALL_RADIUS_FRAC)
        (clampBounds m.size cs (cs * cfg.BALL_RADIUS_FRAC)
          (sweepY m.cells m.size cs (cs * cfg.BALL_RADIUS_FRAC) dt
            (sweepX m.cells m.size cs (cs * cfg.BALL_RADIUS_FRAC) dt
              (integrate cfg input dt b)))) := rfl

end BallMaze

/-- C5 (amended): under a square-root over-approximation, a positive cell
size, a nonempty grid and a ball diameter of at most one cell, the ball's
extent at the end of every `updateBall` call lies inside the world square
`[0, size·cellSize]` on both axes; and whenever a bounds clamp fires on an
axis, it places the ball's edge exactly at that boundary and zeroes the
corresponding velocity component.  (The original claim, without the
diameter hypothesis, is refuted by `C5_counterexample`.) -/
theorem C5_bounds_amended (rsqrt : ℚ → ℚ) (m : BallMaze.Maze)
    (cfg : BallMaze.Config) (cs dt : ℚ) (b : BallMaze.Ball)
    (input : BallMaze.InputState)
    (hsq : BallMaze.IsSqrtUB rsqrt) (hcs : 0 < cs) (hsz : 1 ≤ m.size)
    (hr0 : 0 ≤ cs * cfg.BALL_RADIUS_FRAC)
    (h2r : 2 * (cs * cfg.BALL_RADIUS_FRAC) ≤ cs) :
    (cs * cfg.BALL_RADIUS_FRAC ≤
        (BallMaze.updateBall rsqrt m cfg cs dt b input).1.x ∧
      (BallMaze.updateBall rsqrt m cfg cs dt b input).1.x +
          cs * cfg.BALL_RADIUS_FRAC ≤ (m.size : ℚ) * cs ∧
      cs * cfg.BALL_RADIUS_FRAC ≤
        (BallMaze.updateBall rsqrt m cfg cs dt b input).1.y ∧
      (BallMaze.updateBall rsqrt m cfg cs dt b input).1.y +
          cs * cfg.BALL_RADIUS_FRAC ≤ (m.size : ℚ) * cs) ∧
    (∀ c : BallMaze.Ball,
      (c.x - cs * cfg.BALL_RADIUS_FRAC < 0 →
        (BallMaze.clampBounds m.size cs (cs * cfg.BALL_RADIUS_FRAC) c).x =
            cs * cfg.BALL_RADIUS_FRAC ∧
          (BallMaze.clampBounds m.size cs (cs * cfg.BALL_RADIUS_FRAC) c).vx = 0) ∧
      (c.x + cs * cfg.BALL_RADIUS_FRAC > (m.size : ℚ) * cs →
        (BallMaze.clampBounds m.size cs (cs * cfg.BALL_RADIUS_FRAC) c).x =
            (m.size : ℚ) * cs - cs * cfg.BALL_RADIUS_FRAC ∧
          (BallMaze.clampBounds m.size cs (cs * cfg.BALL_RADIUS_FRAC) c).vx = 0) ∧
      (c.y - cs * cfg.BALL_RADIUS_FRAC < 0 →
        (BallMaze.clampBounds m.size cs (cs * cfg.BALL_RADIUS_FRAC) c).y =
            cs * cfg.BALL_RADIUS_FRAC ∧
          (BallMaze.clampBounds m.size cs (cs * cfg.BALL_RADIUS_FRAC) c).vy = 0) ∧
      (c.y + cs * cfg.BALL_RADIUS_FRAC > (m.size : ℚ) * cs →
        (BallMaze.clampBounds m.size cs (cs * cfg.BALL_RADIUS_FRAC) c).y =
            (m.size : ℚ) * cs - cs * cfg.BALL_RADIUS_FRAC ∧
          (BallMaze.clampBounds m.size cs (cs * cfg.BALL_RADIUS_FRAC) c).vy = 0)) := by
  have h1 : (1 : ℚ) ≤ (m.size : ℚ) := by exact_mod_cast hsz
  have h2S : 2 * (cs * cfg.BALL_RADIUS_FRAC) ≤ (m.size : ℚ) * cs := by nlinarith
  constructor
  · rw [BallMaze.updateBall_fst, BallMaze.collide_eq]
    obtain ⟨k1, k2, k3, k4⟩ := BallMaze.clampBounds_bounds m.size cs
      (cs * cfg.BALL_RADIUS_FRAC)
      (BallMaze.sweepY m.cells m.size cs (cs * cfg.BALL_RADIUS_FRAC) dt
        (BallMaze.sweepX m.cells m.size cs (cs * cfg.BALL_RADIUS_FRAC) dt
          (BallMaze.integrate cfg input dt b))) h2S
    exact BallMaze.penPass_bounds rsqrt m.cells m.size cs
      (cs * cfg.BALL_RADIUS_FRAC) _ hsq hcs hr0 h2r k1 k2 k3 k4
  · intro c
    exact BallMaze.clampBounds_post m.size cs (cs * cfg.BALL_RADIUS_FRAC) c h2S

/-- Witness for C5 (amended): the test configuration (`cellSize 100`, ball
radius 40) on a 3×3 maze with the exact rational square root, at a concrete
ball and tilt. -/
theorem C5_bounds_amended_witness :
    (100 * BallMaze.testConfig.BALL_RADIUS_FRAC ≤
        (BallMaze.updateBall BallMaze.ratSqrt (BallMaze.createTestMaze 3)
          BallMaze.testConfig 100 (1 / 10) ⟨50, 50, 500, 0⟩ ⟨1, 0⟩).1.x ∧
      (BallMaze.updateBall BallMaze.ratSqrt (BallMaze.createTestMaze 3)
          BallMaze.testConfig 100 (1 / 10) ⟨50, 50, 500, 0⟩ ⟨1, 0⟩).1.x +
          100 * BallMaze.testConfig.BALL_RADIUS_FRAC ≤
        ((BallMaze.createTestMaze 3).size : ℚ) * 100 ∧
      100 * BallMaze.testConfig.BALL_RADIUS_FRAC ≤
        (BallMaze.updateBall BallMaze.ratSqrt (BallMaze.createTestMaze 3)
          BallMaze.testConfig 100 (1 / 10) ⟨50, 50, 500, 0⟩ ⟨1, 0⟩).1.y ∧
      (BallMaze.updateBall BallMaze.ratSqrt (BallMaze.createTestMaze 3)
          BallMaze.testConfig 100 (1 / 10) ⟨50, 50, 500, 0⟩ ⟨1, 0⟩).1.y +
          100 * BallMaze.testConfig.BALL_RADIUS_FRAC ≤
        ((BallMaze.createTestMaze 3).size : ℚ) * 100) ∧
    (∀ c : BallMaze.Ball,
      (c.x - 100 * BallMaze.testConfig.BALL_RADIUS_FRAC < 0 →
        (BallMaze.clampBounds (BallMaze.createTestMaze 3).size 100
            (100 * BallMaze.testConfig.BALL_RADIUS_FRAC) c).x =
            100 * BallMaze.testConfig.BALL_RADIUS_FRAC ∧
          (BallMaze.clampBounds (BallMaze.createTestMaze 3).size 100
            (100 * BallMaze.testConfig.BALL_RADIUS_FRAC) c).vx = 0) ∧
      (c.x + 100 * BallMaze.testConfig.BALL_RADIUS_FRAC >
          ((BallMaze.createTestMaze 3).size : ℚ) * 100 →
        (BallMaze.clampBounds (BallMaze.createTestMaze 3).size 100
            (100 * BallMaze.testConfig.BALL_RADIUS_FRAC) c).x =
            ((BallMaze.createTestMaze 3).size : ℚ) * 100 -
              100 * BallMaze.testConfig.BALL_RADIUS_FRAC ∧
          (BallMaze.clampBounds (BallMaze.createTestMaze 3).size 100
            (100 * BallMaze.testConfig.BALL_RADIUS_FRAC) c).vx = 0) ∧
      (c.y - 100 * BallMaze.testConfig.BALL_RADIUS_FRAC < 0 →
        (BallMaze.clampBounds (BallMaze.createTestMaze 3).size 100
            (100 * BallMaze.testConfig.BALL_RADIUS_FRAC) c).y =
            100 * BallMaze.testConfig.BALL_RADIUS_FRAC ∧
          (BallMaze.clampBounds (BallMaze.createTestMaze 3).size 100
            (100 * BallMaze.testConfig.BALL_RADIUS_FRAC) c).vy = 0) ∧
      (c.y + 100 * BallMaze.testConfig.BALL_RADIUS_FRAC >
          ((BallMaze.createTestMaze 3).size : ℚ) * 100 →
        (BallMaze.clampBounds (BallMaze.createTestMaze 3).size 100
            (100 * BallMaze.testConfig.BALL_RADIUS_FRAC) c).y =
            ((BallMaze.createTestMaze 3).size : ℚ) * 100 -
              100 * BallMaze.testConfig.BALL_RADIUS_FRAC ∧
          (BallMaze.clampBounds (BallMaze.createTestMaze 3).size 100
            (100 * BallMaze.testConfig.BALL_RADIUS_FRAC) c).vy = 0)) :=
  C5_bounds_amended BallMaze.ratSqrt (BallMaze.createTestMaze 3)
    BallMaze.testConfig 100 (1 / 10) ⟨50, 50, 500, 0⟩ ⟨1, 0⟩
    BallMaze.isSqrtUB_ratSqrt (by norm_num) (by decide) (by decide) (by decide)
